import Mathlib

/-!
# Pen plotter G-code compiler

A shallow embedding of the two G-code compilers of the repository:

* `handler` of `src/app/api/generate-gcode.js` (the API handler), and
* `generateGcode` of `src/app/components/PenPlotterApp.jsx` (the client compiler).

JavaScript numbers are modelled by `JNum`: exact rationals together with `NaN` and the two
infinities.  The sign of zero is not modelled, and rounding of IEEE doubles is modelled only for
the loop variable of the flattening loop, which decides how often the loop runs
(`doubleTimes`).  The program text that the source builds by string concatenation, one
newline-terminated line at a time, is modelled as the list of its lines (`Instr`); `render`
gives the text.  The calls into the libraries opentype.js and svg-pathdata are taken as data
(`Font`, `Glyph`, the font loader) or modelled by their behaviour (`getPath`,
`parsePathData`).
-/

namespace PenPlotter

/-! ## JavaScript numbers -/

/-- A JavaScript number: an exact rational, `NaN`, `Infinity` or `-Infinity`. -/
inductive JNum where
  | fin (q : ℚ)
  | nan
  | pinf
  | ninf
  deriving DecidableEq

namespace JNum

/-- Infinity carrying the sign of a non-zero rational. -/
def infOfSign (q : ℚ) : JNum :=
  if 0 < q then pinf else ninf

/-- Unary minus. -/
def neg : JNum → JNum
  | fin q => fin (-q)
  | nan => nan
  | pinf => ninf
  | ninf => pinf

/-- The operator `+` on numbers. -/
def add : JNum → JNum → JNum
  | fin a, fin b => fin (a + b)
  | nan, _ => nan
  | _, nan => nan
  | pinf, ninf => nan
  | ninf, pinf => nan
  | pinf, _ => pinf
  | ninf, _ => ninf
  | fin _, pinf => pinf
  | fin _, ninf => ninf

/-- The operator `-` on numbers. -/
def sub (a b : JNum) : JNum :=
  add a (neg b)

/-- The operator `*` on numbers. -/
def mul : JNum → JNum → JNum
  | fin a, fin b => fin (a * b)
  | nan, _ => nan
  | _, nan => nan
  | fin a, pinf => if a = 0 then nan else infOfSign a
  | fin a, ninf => if a = 0 then nan else infOfSign (-a)
  | pinf, fin b => if b = 0 then nan else infOfSign b
  | ninf, fin b => if b = 0 then nan else infOfSign (-b)
  | pinf, pinf => pinf
  | ninf, ninf => pinf
  | pinf, ninf => ninf
  | ninf, pinf => ninf

/-- The operator `/` on numbers (a zero divisor is taken as `+0`). -/
def div : JNum → JNum → JNum
  | fin a, fin b => if b = 0 then (if a = 0 then nan else infOfSign a) else fin (a / b)
  | nan, _ => nan
  | _, nan => nan
  | fin _, pinf => fin 0
  | fin _, ninf => fin 0
  | pinf, fin b => if 0 ≤ b then pinf else ninf
  | ninf, fin b => if 0 ≤ b then ninf else pinf
  | pinf, pinf => nan
  | pinf, ninf => nan
  | ninf, pinf => nan
  | ninf, ninf => nan

instance : Add JNum := ⟨add⟩
instance : Sub JNum := ⟨sub⟩
instance : Mul JNum := ⟨mul⟩
instance : Div JNum := ⟨div⟩

/-- The operator `!==` on numbers: `NaN` differs from everything, itself included. -/
def strictNe (a b : JNum) : Bool :=
  decide (a = nan) || decide (b = nan) || decide (a ≠ b)

/-- A number is finite when it is neither `NaN` nor an infinity. -/
def isFinite : JNum → Bool
  | fin _ => true
  | _ => false

/-- Decimal digits of `n`, left-padded with zeros to at least `width` digits. -/
def padDigits (width n : Nat) : List Char :=
  let ds := (Nat.repr n).data
  List.replicate (width - ds.length) '0' ++ ds

/-- `Number.prototype.toFixed(3)` on a non-negative rational: the nearest multiple of `1/1000`
(the larger one on a tie), written with exactly three digits after the point.  (For values of
magnitude `10^21` and more JavaScript switches to exponent form; that is not modelled.) -/
def toFixed3Abs (q : ℚ) : String :=
  let n := (q * 1000 + 1 / 2).floor.toNat
  let ds := padDigits 4 n
  String.mk (ds.take (ds.length - 3) ++ '.' :: ds.drop (ds.length - 3))

/-- `x.toFixed(3)`. -/
def toFixed3 : JNum → String
  | fin q => if q < 0 then "-" ++ toFixed3Abs (-q) else toFixed3Abs q
  | nan => "NaN"
  | pinf => "Infinity"
  | ninf => "-Infinity"

end JNum

/-! ## Text -/

/-- White space and line terminators, the characters removed by `String.prototype.trim`. -/
def isJsWhitespace (c : Char) : Bool :=
  let n := c.toNat
  n = 9 || n = 10 || n = 11 || n = 12 || n = 13 || n = 32 || n = 160 || n = 5760 ||
    (8192 ≤ n && n ≤ 8202) || n = 8232 || n = 8233 || n = 8239 || n = 8287 || n = 12288 ||
    n = 65279

/-- `s.trim()` on the characters of a string. -/
def trim (s : List Char) : List Char :=
  ((s.dropWhile isJsWhitespace).reverse.dropWhile isJsWhitespace).reverse

/-- `s.split('\n')` on the characters of a string. -/
def splitNewline : List Char → List (List Char)
  | [] => [[]]
  | c :: cs =>
    if c = '\n' then [] :: splitNewline cs
    else
      match splitNewline cs with
      | [] => [[c]]
      | l :: ls => (c :: l) :: ls

/-- The retained lines: `text.split('\n').filter((line) => line.trim().length > 0)`. -/
def retainedLines (text : String) : List (List Char) :=
  (splitNewline text.data).filter (fun line => decide ((trim line).length > 0))

/-! ## Program lines -/

/-- One line of the motion program. -/
inductive Instr where
  | raw (token : String)
  | lift
  | lower
  | travel (x y : JNum)
  | draw (x y : JNum)
  deriving DecidableEq

/-- The text of a line as the API handler writes it (without the newline). -/
def Instr.text : Instr → String
  | .raw token => token
  | .lift => "G1G90 Z1.0F20000"
  | .lower => "G1G90 Z-6.0F20000"
  | .travel x y => "G0 X" ++ x.toFixed3 ++ "Y" ++ y.toFixed3 ++ "F20000"
  | .draw x y => "G1 X" ++ x.toFixed3 ++ "Y" ++ y.toFixed3 ++ "F20000"

/-- The program text: every line followed by a newline. -/
def render : List Instr → String
  | [] => ""
  | i :: rest => i.text ++ "\n" ++ render rest

/-! ## Fonts -/

/-- A path command of a glyph outline. -/
inductive Segment where
  | moveTo (x y : JNum)
  | lineTo (x y : JNum)
  | quadTo (x1 y1 x y : JNum)
  | cubicTo (x1 y1 x2 y2 x y : JNum)
  | closePath
  deriving DecidableEq

/-- A command all of whose coordinates are finite. -/
def Segment.isFinite : Segment → Bool
  | .moveTo x y => x.isFinite && y.isFinite
  | .lineTo x y => x.isFinite && y.isFinite
  | .quadTo x1 y1 x y => x1.isFinite && y1.isFinite && x.isFinite && y.isFinite
  | .cubicTo x1 y1 x2 y2 x y =>
    x1.isFinite && y1.isFinite && x2.isFinite && y2.isFinite && x.isFinite && y.isFinite
  | .closePath => true

/-- A glyph as the compilers use it.  `commands` is the path data of the API handler, the text
`glyph.getPath(0, 0, fontSize).toPathData()` of lines 64-65, command by command as the text
spells it: its coordinates are the ones `getPath` has already scaled by `fontSize / unitsPerEm`
and flipped in Y, not the font design units of the outline, and a coordinate that is not a
finite number stands in the text as `NaN` or `Infinity`.  The list is empty exactly when the
text is empty.  `getPath` is the library call `glyph.getPath(x, y, fontSize)` of the client
compiler.  Both come from the font library and are taken as data. -/
structure Glyph where
  advanceWidth : JNum
  commands : List Segment
  getPath : JNum → JNum → JNum → List Segment

/-- A loaded font. -/
structure Font where
  unitsPerEm : JNum
  charToGlyph : Char → Option Glyph
  stringToGlyphs : List Char → List Glyph

/-- The parser `new SVGPathData(pathData)` of the library svg-pathdata (line 69), on the path
data whose commands are `commands`.  `NaN` and `Infinity` are not numbers of the path data
grammar, so on a text that holds one the parser throws a `SyntaxError`; every other text parses
to the commands it spells.  The wording of the library message is not modelled: `SyntaxError`
stands for it. -/
def parsePathData (commands : List Segment) : Except String (List Segment) :=
  if commands.all Segment.isFinite then .ok commands else .error "SyntaxError"

/-! ## The loop variable in doubles

The loop variable `t` of `for (let t = 0; t <= 1; t += 1 / steps)` is a double.  The doubles it
meets are whole multiples of `2 ^ -120`, so a value is modelled by its number of such units and
each operation by the exact result rounded to 53 significant binary digits. -/

/-- The number 1 in units of `2 ^ -120`. -/
def doubleOne : Nat := 2 ^ 120

/-- The number of binary digits of `n`, for `n` below `2 ^ fuel`. -/
def bitLength : Nat → Nat → Nat
  | 0, _ => 0
  | fuel + 1, n => if n = 0 then 0 else bitLength fuel (n / 2) + 1

/-- Rounding to a double: `n` units (`n` below `2 ^ 256`) rounded to 53 significant binary
digits, to the nearest such number, and on a tie to the one whose last digit is even. -/
def roundDouble (n : Nat) : Nat :=
  let shift := bitLength 256 n - 53
  let q := n / 2 ^ shift
  let r := n % 2 ^ shift
  if 2 * r < 2 ^ shift then q * 2 ^ shift
  else if 2 ^ shift < 2 * r then (q + 1) * 2 ^ shift
  else if q % 2 = 0 then q * 2 ^ shift
  else (q + 1) * 2 ^ shift

/-- The double `1 / steps`: the exact quotient rounded once.  The quotient is cut to whole half
units, and the last digit is set when the division leaves a remainder, so that the rounding
falls as it does for the exact quotient.  `1 / 0` is `Infinity`; twice `doubleOne` stands for
it, as the loop only compares the sum with 1. -/
def doubleInv (steps : Nat) : Nat :=
  if steps = 0 then 2 * doubleOne
  else roundDouble (2 * (doubleOne / steps) + (if doubleOne % steps = 0 then 0 else 1)) / 2

/-- The values the loop variable takes in the loop body from the value `t` on, in order: the
body runs while `t <= 1`, then `t += step` rounds the sum.  `fuel` bounds their number. -/
def doubleLoop (step : Nat) : Nat → Nat → List Nat
  | 0, _ => []
  | fuel + 1, t =>
    if t ≤ doubleOne then t :: doubleLoop step fuel (roundDouble (t + step)) else []

/-- The values of `t` in the loop body of `for (let t = 0; t <= 1; t += 1 / steps)`, in doubles;
their number is the number of times the loop body runs. -/
def doubleTimes (steps : Nat) : List Nat :=
  doubleLoop (doubleInv steps) (steps + 2) 0

/-! ## The API handler: `src/app/api/generate-gcode.js` -/

/-- The layout constants of the API handler (lines 42-46 and 108), taken as parameters. -/
structure Layout where
  marginX : JNum
  marginY : JNum
  fontSize : JNum
  letterSpacing : JNum
  steps : Nat

/-- The constants as the source fixes them. -/
def apiLayout : Layout where
  marginX := .fin (1665 / 1000)
  marginY := .fin (7136 / 1000)
  fontSize := .fin 8
  letterSpacing := .fin (1 / 10)
  steps := 20

/-- The line height: `const lineHeight = fontSize * 1.2`. -/
def Layout.lineHeight (c : Layout) : JNum :=
  c.fontSize * .fin (12 / 10)

/-- The variables of the per-glyph loop: the program so far and `penDown`, `firstMove`,
`prevX`, `prevY`. -/
structure PenState where
  gcode : List Instr
  penDown : Bool
  firstMove : Bool
  prevX : JNum
  prevY : JNum

/-- The quadratic blend of lines 112-119 at parameter `t`, from the point `p`. -/
def quadBlend (t : ℚ) (p c e : JNum) : JNum :=
  .fin ((1 - t) * (1 - t)) * p + .fin (2 * (1 - t) * t) * c + .fin (t * t) * e

/-- The cubic blend of lines 121-130 at parameter `t`, from the point `p`. -/
def cubicBlend (t : ℚ) (p c1 c2 e : JNum) : JNum :=
  .fin ((1 - t) ^ 3) * p + .fin (3 * (1 - t) ^ 2 * t) * c1 + .fin (3 * (1 - t) * t * t) * c2 +
    .fin (t ^ 3) * e

/-- The sample `(tx, ty)` of a curve command at parameter `t` (lines 110-131); the blend starts
from the current `prevX`, `prevY`.  The `else` of line 120 is the cubic blend; the command loop
enters the flattening loop with quadratic commands only (see `apiStep`). -/
def apiSample (baseX baseY scale : JNum) (cmd : Segment) (t : ℚ) (s : PenState) : JNum × JNum :=
  match cmd with
  | .quadTo x1 y1 x y =>
    (quadBlend t s.prevX (baseX + x1 * scale) (baseX + x * scale),
     quadBlend t s.prevY (baseY - y1 * scale) (baseY - y * scale))
  | .cubicTo x1 y1 x2 y2 x y =>
    (cubicBlend t s.prevX (baseX + x1 * scale) (baseX + x2 * scale) (baseX + x * scale),
     cubicBlend t s.prevY (baseY - y1 * scale) (baseY - y2 * scale) (baseY - y * scale))
  | _ => (s.prevX, s.prevY)

/-- The body of the flattening loop (lines 110-136). -/
def apiCurveBody (baseX baseY scale : JNum) (cmd : Segment) (t : ℚ) (s : PenState) : PenState :=
  let p := apiSample baseX baseY scale cmd t s
  if p.1.strictNe s.prevX || p.2.strictNe s.prevY then
    { s with gcode := s.gcode ++ [.draw p.1 p.2], prevX := p.1, prevY := p.2 }
  else s

/-- The flattening loop `for (let t = 0; t <= 1; t += 1 / steps)` (line 109), with the value of
`t` exact: `k / steps` in the iteration `k`.  `fuel` bounds the number of iterations; with `t`
exact the loop makes `steps + 1` of them (`apiCurveLoop_fuel`). -/
def apiCurveLoop (baseX baseY scale : JNum) (cmd : Segment) (steps : Nat) :
    Nat → ℚ → PenState → PenState
  | 0, _, s => s
  | fuel + 1, t, s =>
    if t ≤ 1 then
      apiCurveLoop baseX baseY scale cmd steps fuel (t + 1 / (steps : ℚ))
        (apiCurveBody baseX baseY scale cmd t s)
    else s

/-- Emit the pen-lower line unless the pen is down (lines 94-97 and 104-107). -/
def apiLower (s : PenState) : PenState :=
  if !s.penDown then { s with gcode := s.gcode ++ [.lower], penDown := true } else s

/-- Emit the pen-lift line if the pen is down (lines 81-84, 139-142 and 147-150). -/
def apiLift (s : PenState) : PenState :=
  if s.penDown then { s with gcode := s.gcode ++ [.lift], penDown := false } else s

/-- One iteration of `for (const cmd of svgPath.commands)` (lines 76-144).  The test of line 103
is `cmd.type === SVGPathData.QUAD_TO || cmd.type === SVGPathData.CUBIC_TO`; svg-pathdata defines
no `CUBIC_TO` (the type of a cubic command is `SVGPathData.CURVE_TO`), so the second comparison
is with `undefined` and fails for every command: a cubic command passes none of the four tests
and the iteration does nothing.  The flattening loop of a quadratic command runs as many times
as its loop variable, a double, stays at or below 1 (`doubleTimes`): 20 times for the 20 steps
of the source, where the sum of twenty times `0.05` exceeds 1 and the loop never reaches
`t = 1`. -/
def apiStep (baseX baseY scale : JNum) (steps : Nat) (s : PenState) (cmd : Segment) : PenState :=
  match cmd with
  | .moveTo cx cy =>
    let x := baseX + cx * scale
    let y := baseY - cy * scale
    let s1 := apiLift s
    let s2 :=
      if s1.firstMove && (x.strictNe s1.prevX || y.strictNe s1.prevY) then
        { s1 with gcode := s1.gcode ++ [.travel x y], firstMove := false }
      else s1
    { s2 with prevX := x, prevY := y }
  | .lineTo cx cy =>
    let x := baseX + cx * scale
    let y := baseY - cy * scale
    let s1 := apiLower s
    if x.strictNe s1.prevX || y.strictNe s1.prevY then
      { s1 with gcode := s1.gcode ++ [.draw x y], prevX := x, prevY := y }
    else s1
  | .quadTo _ _ _ _ =>
    apiCurveLoop baseX baseY scale cmd steps (doubleTimes steps).length 0 (apiLower s)
  | .cubicTo _ _ _ _ _ _ => s
  | .closePath => apiLift s

/-- The per-glyph sequencer (lines 68-150): the program `gcode` extended by the lines of one
glyph placed at `(baseX, baseY)`. -/
def apiGlyph (baseX baseY scale : JNum) (steps : Nat) (gcode : List Instr)
    (commands : List Segment) : List Instr :=
  let s0 : PenState :=
    { gcode := gcode, penDown := false, firstMove := true, prevX := baseX, prevY := baseY }
  (apiLift (commands.foldl (apiStep baseX baseY scale steps) s0)).gcode

/-- The character loop `for (const char of line)` (lines 59-154), from cursor `baseX`:
the final cursor and the program. -/
def apiChars (c : Layout) (font : Font) (scale baseY : JNum) :
    List Char → JNum → List Instr → JNum × List Instr
  | [], baseX, gcode => (baseX, gcode)
  | ch :: rest, baseX, gcode =>
    match font.charToGlyph ch with
    | none => apiChars c font scale baseY rest baseX gcode
    | some glyph =>
      if glyph.commands.isEmpty then apiChars c font scale baseY rest baseX gcode
      else
        apiChars c font scale baseY rest (baseX + (glyph.advanceWidth * scale + c.letterSpacing))
          (apiGlyph baseX baseY scale c.steps gcode glyph.commands)

/-- The line loop `for (let i = 0; i < lines.length; i++)` (lines 51-155), from index `i`. -/
def apiLines (c : Layout) (font : Font) (scale : JNum) :
    List (List Char) → Nat → List Instr → List Instr
  | [], _, gcode => gcode
  | l :: rest, i, gcode =>
    let line := trim l
    if line.isEmpty then apiLines c font scale rest (i + 1) gcode
    else
      let baseX := c.marginX
      let baseY := c.marginY + .fin (i : ℚ) * c.lineHeight
      apiLines c font scale rest (i + 1) (apiChars c font scale baseY line baseX gcode).2

/-- The header (lines 33-39). -/
def apiHeader : List Instr :=
  [.raw "G21", .raw "G90", .raw "F20000", .lift, .lift]

/-- The footer (lines 158-162). -/
def apiFooter : List Instr :=
  [.lift, .raw "G90 G0 X0 Y0", .raw "M30"]

/-- The program built once the font is loaded (lines 32-162). -/
def apiProgram (c : Layout) (font : Font) (text : String) : List Instr :=
  let gcode := apiHeader
  let scale := c.fontSize / font.unitsPerEm
  let lines := retainedLines text
  apiLines c font scale lines 0 gcode ++ apiFooter

/-- The style profile of a request: the two fields the compilers read. -/
structure Profile where
  font : Option String
  fontPath : Option String

/-- A request: its method and the two fields of its body. -/
structure Request where
  method : String
  text : Option String
  profile : Option Profile

/-- The JSON body of a response. -/
inductive Body where
  | gcode (program : String)
  | error (message : String)
  deriving DecidableEq

/-- A response: `res.status(status).json(body)`. -/
structure Response where
  status : Nat
  body : Body
  deriving DecidableEq

/-- Truthiness of an optional string: present and non-empty. -/
def truthy : Option String → Bool
  | none => false
  | some s => !s.data.isEmpty

/-- The font locator: `profile.fontPath || "/fonts/" + profile.font + ".ttf"` (line 17). -/
def fontLocator (p : Profile) : String :=
  if truthy p.fontPath then p.fontPath.getD ""
  else "/fonts/" ++ p.font.getD "undefined" ++ ".ttf"

/-- The exception the character loop throws at the character `ch`, if any: the character has a
glyph, its path data is not empty, and the parser of line 69 throws. -/
def glyphThrows (font : Font) (ch : Char) : Option String :=
  match font.charToGlyph ch with
  | none => none
  | some glyph =>
    if glyph.commands.isEmpty then none
    else
      match parsePathData glyph.commands with
      | .ok _ => none
      | .error message => some message

/-- The first exception thrown in the loops of lines 51-155, if any: the lines and their
characters are visited in order. -/
def apiThrows (font : Font) (text : String) : Option String :=
  (retainedLines text).findSome? fun l => (trim l).findSome? (glyphThrows font)

/-- The API handler.  `load` is `opentype.load`: the font, or the message of its error.  The
body of a request is taken as an object whose `text`, when present, is a string.  An exception
thrown in the loops drops the program built so far and is caught by the outer `catch` (lines
165-168), which answers status 500 with the message; when none is thrown every path data parses
to its own commands and the program is `apiProgram`. -/
def handler (c : Layout) (load : String → Except String Font) (req : Request) : Response :=
  if req.method ≠ "POST" then ⟨405, .error "Method not allowed"⟩
  else
    match req.profile with
    | none => ⟨400, .error "Missing required parameters"⟩
    | some profile =>
      if !truthy req.text || !truthy profile.font then
        ⟨400, .error "Missing required parameters"⟩
      else
        match load (fontLocator profile) with
        | .error message =>
          ⟨500, .error ("Font loading error: " ++ ("Failed to load font: " ++ message))⟩
        | .ok font =>
          match apiThrows font (req.text.getD "") with
          | some message => ⟨500, .error ("Failed to generate G-code: " ++ message)⟩
          | none => ⟨200, .gcode (render (apiProgram c font (req.text.getD "")))⟩

/-! ## The client compiler: `generateGcode` of `src/app/components/PenPlotterApp.jsx` -/

/-- The text of a line as the client compiler writes it (without the newline). -/
def Instr.clientText : Instr → String
  | .raw token => token
  | .lift => "G1G90 Z0.5F20000"
  | .lower => "G1G90 Z-5.0F20000"
  | .travel x y => "G0 X" ++ x.toFixed3 ++ "Y" ++ y.toFixed3 ++ "F20000"
  | .draw x y => "G1 X" ++ x.toFixed3 ++ "Y" ++ y.toFixed3 ++ "F20000"

/-- The client program text: every line followed by a newline. -/
def clientRender : List Instr → String
  | [] => ""
  | i :: rest => i.clientText ++ "\n" ++ clientRender rest

/-- The variables of the client per-glyph loop: the program so far and `penDown`, `prevX`,
`prevY`. -/
structure ClientState where
  gcode : List Instr
  penDown : Bool
  prevX : JNum
  prevY : JNum

/-- The sample `(tx, ty)` of a curve command at parameter `t` (lines 280-297); the blend starts
from `(startX, startY)`.  Only called on curve commands. -/
def clientSample (cmd : Segment) (startX startY : JNum) (t : ℚ) : JNum × JNum :=
  match cmd with
  | .quadTo x1 y1 x y => (quadBlend t startX x1 x, quadBlend t startY y1 y)
  | .cubicTo x1 y1 x2 y2 x y => (cubicBlend t startX x1 x2 x, cubicBlend t startY y1 y2 y)
  | _ => (startX, startY)

/-- The body of the client flattening loop (lines 280-306). -/
def clientCurveBody (cmd : Segment) (startX startY : JNum) (t : ℚ) (s : ClientState) :
    ClientState :=
  let p := clientSample cmd startX startY t
  let s1 : ClientState :=
    if !s.penDown then { s with gcode := s.gcode ++ [.lower], penDown := true } else s
  if p.1.strictNe s1.prevX || p.2.strictNe s1.prevY then
    { s1 with gcode := s1.gcode ++ [.draw p.1 p.2], prevX := p.1, prevY := p.2 }
  else s1

/-- The client flattening loop `for (let t = 0; t <= 1; t += 1 / steps)` (line 279), with the
value of `t` exact; `fuel` bounds the number of iterations. -/
def clientCurveLoop (cmd : Segment) (startX startY : JNum) (steps : Nat) :
    Nat → ℚ → ClientState → ClientState
  | 0, _, s => s
  | fuel + 1, t, s =>
    if t ≤ 1 then
      clientCurveLoop cmd startX startY steps fuel (t + 1 / (steps : ℚ))
        (clientCurveBody cmd startX startY t s)
    else s

/-- One iteration of `for (const cmd of path.commands)` (lines 254-309); the commands are in
output coordinates and a close-path command has no branch.  The flattening loop runs as many
times as its loop variable, a double, stays at or below 1 (`doubleTimes`): 3 times for the 2
steps of the source, at `t = 0`, `0.5` and `1`. -/
def clientStep (steps : Nat) (s : ClientState) (cmd : Segment) : ClientState :=
  match cmd with
  | .moveTo x y =>
    let s1 : ClientState :=
      if s.penDown then { s with gcode := s.gcode ++ [.lift], penDown := false } else s
    if x.strictNe s1.prevX || y.strictNe s1.prevY then
      { s1 with gcode := s1.gcode ++ [.travel x y], prevX := x, prevY := y }
    else s1
  | .lineTo x y =>
    let s1 : ClientState :=
      if !s.penDown then { s with gcode := s.gcode ++ [.lower], penDown := true } else s
    if x.strictNe s1.prevX || y.strictNe s1.prevY then
      { s1 with gcode := s1.gcode ++ [.draw x y], prevX := x, prevY := y }
    else s1
  | .quadTo _ _ _ _ => clientCurveLoop cmd s.prevX s.prevY steps (doubleTimes steps).length 0 s
  | .cubicTo _ _ _ _ _ _ =>
    clientCurveLoop cmd s.prevX s.prevY steps (doubleTimes steps).length 0 s
  | .closePath => s

/-- The client per-glyph sequencer (lines 249-312): the program `gcode` extended by the lines
of one glyph whose path starts from `(x, y)`. -/
def clientGlyph (x y : JNum) (steps : Nat) (gcode : List Instr) (commands : List Segment) :
    List Instr :=
  let s0 : ClientState := { gcode := gcode, penDown := false, prevX := x, prevY := y }
  let s := commands.foldl (clientStep steps) s0
  if s.penDown then s.gcode ++ [.lift] else s.gcode

/-- The glyph loop `for (let j = 0; j < lineGlyphs.length; j++)` (lines 247-315). -/
def clientGlyphs (fontSize scale y : JNum) : List Glyph → JNum → List Instr → List Instr
  | [], _, gcode => gcode
  | glyph :: rest, x, gcode =>
    clientGlyphs fontSize scale y rest (x + glyph.advanceWidth * scale * .fin (3 / 10))
      (clientGlyph x y 2 gcode (glyph.getPath x y fontSize))

/-- The client line loop `for (let i = 0; i < lines.length; i++)` (lines 239-316). -/
def clientLines (font : Font) (marginX marginY fontSize lineHeight scale : JNum) :
    List (List Char) → Nat → List Instr → List Instr
  | [], _, gcode => gcode
  | l :: rest, i, gcode =>
    let line := trim l
    if line.isEmpty then clientLines font marginX marginY fontSize lineHeight scale rest (i + 1) gcode
    else
      let x := marginX
      let y := marginY + .fin (i : ℚ) * lineHeight
      clientLines font marginX marginY fontSize lineHeight scale rest (i + 1)
        (clientGlyphs fontSize scale y (font.stringToGlyphs line) x gcode)

/-- The client header (lines 217-220). -/
def clientHeader : List Instr :=
  [.raw "G21", .raw "G90", .raw "F20000", .lift, .lift]

/-- The client footer (line 318). -/
def clientFooter : List Instr :=
  [.lift, .raw "G90 G0 X0 Y0", .raw "M30"]

/-- The client program built once the font is loaded (lines 217-226 and 236-318). -/
def clientProgram (font : Font) (text : String) : List Instr :=
  let gcode := clientHeader
  let marginX : JNum := .fin (-2351 / 1000)
  let marginY : JNum := .fin (-3679 / 1000)
  let fontSize : JNum := .fin 4
  let lineHeight : JNum := fontSize + .fin (3 / 10)
  let scale := fontSize / font.unitsPerEm
  let lines := retainedLines text
  clientLines font marginX marginY fontSize lineHeight scale lines 0 gcode ++ clientFooter

/-- The client compiler `generateGcode(text, profile)`: the program text, or the message of the
error it throws.  `load` is `opentype.load`: the font, or the message of its error. -/
def generateGcode (load : String → Except String Font) (text : String)
    (profile : Option Profile) : Except String String :=
  match profile with
  | none => .error "Profile parameter is missing or invalid"
  | some profile =>
    if !truthy profile.font && !truthy profile.fontPath then
      .error "Profile must include either \"font\" or \"fontPath\""
    else
      match load (fontLocator profile) with
      | .error message => .error ("Failed to generate G-code: " ++ message)
      | .ok font => .ok (clientRender (clientProgram font text))

/-! ## The format table: `src/app/components/PenPlotterApp.jsx` -/

/-- A format of the table `formatTemplates`. -/
structure FormatTemplate where
  label : String
  requiredFields : List String
  optionalFields : List String
  template : String
  deriving DecidableEq

/-- The state `newFormat` of the form for a new format. -/
structure NewFormat where
  key : String
  label : String
  requiredFields : List String
  optionalFields : List String
  template : String
  deriving DecidableEq

/-- The own properties of the object `formatTemplates`: the format under each key, if any.
(The order of the keys is not modelled.) -/
abbrev FormatTable := String → Option FormatTemplate

/-- The format `chumba` of `defaultFormatTemplates` (lines 9-14). -/
def chumbaFormat : FormatTemplate where
  label := "Chumba"
  requiredFields := ["name", "email", "code"]
  optionalFields := ["username", "date"]
  template := "Hello \x7bname\x7d,\n\x7bbody\x7d\nYour code is: \x7bcode\x7d\nThank you!"

/-- The format `stake` of `defaultFormatTemplates` (lines 15-20). -/
def stakeFormat : FormatTemplate where
  label := "Stake"
  requiredFields := ["name", "email", "username", "code"]
  optionalFields := ["date"]
  template := "Hi \x7busername\x7d,\n\x7bbody\x7d\nYour Stake code: \x7bcode\x7d\nEnjoy!"

/-- The table `defaultFormatTemplates` (lines 8-21). -/
def defaultFormatTemplates : FormatTable :=
  fun key =>
    if key = "chumba" then some chumbaFormat
    else if key = "stake" then some stakeFormat
    else none

/-- The names every object inherits from `Object.prototype`; reading one of them from the table
gives a truthy value although the table has no such key of its own. -/
def inheritedKey (key : String) : Bool :=
  key ∈ ["constructor", "__defineGetter__", "__defineSetter__", "hasOwnProperty",
    "__lookupGetter__", "__lookupSetter__", "isPrototypeOf", "propertyIsEnumerable", "toString",
    "valueOf", "__proto__", "toLocaleString"]

/-- The test `formatTemplates[key]` for truthiness: an own format or an inherited name. -/
def keyTaken (table : FormatTable) (key : String) : Bool :=
  (table key).isSome || inheritedKey key

/-- The empty form: the value `newFormat` starts with and is reset to. -/
def emptyNewFormat : NewFormat where
  key := ""
  label := ""
  requiredFields := []
  optionalFields := []
  template := ""

/-- The state the two handlers read and write: `formatTemplates`, `newFormat`, `isModalOpen`,
`profile.format` and `template`. -/
structure AppState where
  formatTemplates : FormatTable
  newFormat : NewFormat
  isModalOpen : Bool
  profileFormat : String
  template : Option FormatTemplate

/-- How a handler ends: it returns, it returns after an alert, or it throws. -/
inductive Outcome where
  | done
  | alert (message : String)
  | threw
  deriving DecidableEq

/-- The handler `handleAddFormat` (lines 411-439). -/
def handleAddFormat (s : AppState) : AppState × Outcome :=
  if s.newFormat.key = "" ∨ s.newFormat.label = "" ∨ s.newFormat.template = "" then
    (s, .alert "Please fill in all required format fields (Key, Label, Template).")
  else if keyTaken s.formatTemplates s.newFormat.key then
    (s, .alert "Format key already exists. Please choose a unique key.")
  else
    ({ s with
        formatTemplates := fun key =>
          if key = s.newFormat.key then
            some ⟨s.newFormat.label, s.newFormat.requiredFields, s.newFormat.optionalFields,
              s.newFormat.template⟩
          else s.formatTemplates key
        newFormat := emptyNewFormat
        isModalOpen := false }, .done)

/-- The handler `handleDeleteFormat(key)` (lines 441-459); `confirm` is the answer of
`window.confirm`.  Reading `.label` of a key that is not in the table throws before the
question is asked. -/
def handleDeleteFormat (s : AppState) (key : String) (confirm : Bool) : AppState × Outcome :=
  if key = "chumba" ∨ key = "stake" then
    (s, .alert "Default formats (Chumba, Stake) cannot be deleted.")
  else if !keyTaken s.formatTemplates key then (s, .threw)
  else if confirm then
    let newFormats : FormatTable := fun k => if k = key then none else s.formatTemplates k
    if s.profileFormat = key then
      ({ s with
          formatTemplates := newFormats
          profileFormat := "chumba"
          template := s.formatTemplates "chumba" }, .done)
    else ({ s with formatTemplates := newFormats }, .done)
  else (s, .done)

/-- One action of the user on the format table: fill the form and add, or delete a key and
answer the question. -/
inductive FormatOp where
  | add (input : NewFormat)
  | delete (key : String) (confirm : Bool)

/-- The state after one action. -/
def applyOp (s : AppState) : FormatOp → AppState
  | .add input => (handleAddFormat { s with newFormat := input }).1
  | .delete key confirm => (handleDeleteFormat s key confirm).1

/-- The state after a sequence of actions. -/
def runOps (s : AppState) (ops : List FormatOp) : AppState :=
  ops.foldl applyOp s

/-- The updater of `handleFieldToggle(field, type)` (lines 461-481): the next `newFormat` from
the previous one.  The type `required` toggles the field in `requiredFields`, any other type in
`optionalFields`. -/
def handleFieldToggle (prev : NewFormat) (field type : String) : NewFormat :=
  let currentFields := if type = "required" then prev.requiredFields else prev.optionalFields
  let otherFields := if type = "required" then prev.optionalFields else prev.requiredFields
  if currentFields.contains field then
    if type = "required" then
      { prev with requiredFields := currentFields.filter (fun f => decide (f ≠ field)) }
    else { prev with optionalFields := currentFields.filter (fun f => decide (f ≠ field)) }
  else
    if type = "required" then
      { prev with
          requiredFields := currentFields ++ [field]
          optionalFields := otherFields.filter (fun f => decide (f ≠ field)) }
    else
      { prev with
          optionalFields := currentFields ++ [field]
          requiredFields := otherFields.filter (fun f => decide (f ≠ field)) }

/-! ## Properties of programs -/

/-- The state `s` with the lines `g` put in front of its program. -/
def PenState.onto (g : List Instr) (s : PenState) : PenState :=
  { s with gcode := g ++ s.gcode }

/-- What a program line does to the pen. -/
inductive LineKind where
  | lower
  | lift
  | draw
  | other
  deriving DecidableEq

/-- The kind of a line of program text: `G1G90 Z-6.0F20000` lowers the pen, `G1G90 Z1.0F20000`
lifts it, a line starting `G1 X` draws. -/
def lineKind (l : List Char) : LineKind :=
  if l = "G1G90 Z-6.0F20000".data then .lower
  else if l = "G1G90 Z1.0F20000".data then .lift
  else if l.take 4 = "G1 X".data then .draw
  else .other

/-- Scan the lines of a program from pen state `pen` (`true` is down): the pen state after the
last line, or `none` when some line draws while the pen is up. -/
def penScan : Bool → List (List Char) → Option Bool
  | pen, [] => some pen
  | pen, l :: ls =>
    match lineKind l with
    | .lower => penScan true ls
    | .lift => penScan false ls
    | .draw => if pen then penScan pen ls else none
    | .other => penScan pen ls

/-- The kind of an instruction. -/
def Instr.kind : Instr → LineKind
  | .lower => .lower
  | .lift => .lift
  | .draw _ _ => .draw
  | _ => .other

/-- The pen scan on instructions. -/
def penRun : Bool → List Instr → Option Bool
  | pen, [] => some pen
  | pen, i :: is =>
    match i.kind with
    | .lower => penRun true is
    | .lift => penRun false is
    | .draw => if pen then penRun pen is else none
    | .other => penRun pen is

/-- An instruction of the body of a program: a pen or motion line, not a fixed token. -/
def Instr.isMotion : Instr → Bool
  | .raw _ => false
  | _ => true

/-- A run of body lines that starts and ends with the pen up and never draws with the pen up. -/
def GoodRun (g : List Instr) : Prop :=
  penRun false g = some false ∧ ∀ i ∈ g, i.isMotion = true

/-- The invariant of the per-glyph loop: the scan of the lines so far ends in `penDown`. -/
def PenInv (s : PenState) : Prop :=
  penRun false s.gcode = some s.penDown ∧ ∀ i ∈ s.gcode, i.isMotion = true

/-- A line whose text has no newline and says what the instruction does. -/
def Instr.plain (i : Instr) : Prop :=
  '\n' ∉ i.text.data ∧ lineKind i.text.data = i.kind

/-- The position of the machine after one more line: a travel or draw line moves it to its
target, any other line leaves it where it is. -/
def posStep (pos : Option (JNum × JNum)) : Instr → Option (JNum × JNum)
  | .travel x y => some (x, y)
  | .draw x y => some (x, y)
  | _ => pos

/-- The position of the machine after the lines `g`, scanned in order: the target of the most
recent travel or draw line, if any. -/
def machinePos (g : List Instr) : Option (JNum × JNum) :=
  g.foldl posStep none

/-- The lines the API handler emits for the character `ch` placed at `(baseX, baseY)`: none
when the font has no glyph for it or its outline is empty. -/
def charLines (c : Layout) (font : Font) (scale baseX baseY : JNum) (ch : Char) : List Instr :=
  match font.charToGlyph ch with
  | none => []
  | some glyph =>
    if glyph.commands.isEmpty then [] else apiGlyph baseX baseY scale c.steps [] glyph.commands

/-- The cursor of the API handler after the character `ch` placed at `baseX`. -/
def charNext (c : Layout) (font : Font) (scale baseX : JNum) (ch : Char) : JNum :=
  match font.charToGlyph ch with
  | none => baseX
  | some glyph =>
    if glyph.commands.isEmpty then baseX
    else baseX + (glyph.advanceWidth * scale + c.letterSpacing)

/-- The lines of one line of text in layout order: the lines of its characters, each placed at
the cursor the characters before it leave. -/
def lineBody (c : Layout) (font : Font) (scale baseY : JNum) : List Char → JNum → List Instr
  | [], _ => []
  | ch :: rest, baseX =>
    charLines c font scale baseX baseY ch
      ++ lineBody c font scale baseY rest (charNext c font scale baseX ch)

/-- The non-blank lines of a text, in order. -/
def nonBlankLines (text : String) : List (List Char) :=
  (splitNewline text.data).filter (fun l => decide (trim l ≠ []))

/-- The body of a program in layout order: the `k`-th non-blank line, trimmed, is laid out from
`marginX` at the vertical origin `marginY + k * (fontSize * 1.2)`. -/
def layoutBody (c : Layout) (font : Font) (text : String) : List Instr :=
  ((nonBlankLines text).enum.map (fun p =>
    lineBody c font (c.fontSize / font.unitsPerEm)
      (c.marginY + .fin (p.1 : ℚ) * (c.fontSize * .fin (12 / 10))) (trim p.2) c.marginX)).flatten

/-- A character is drawable when the font has a glyph for it with a non-empty outline. -/
def drawable (font : Font) (ch : Char) : Bool :=
  match font.charToGlyph ch with
  | none => false
  | some glyph => !glyph.commands.isEmpty

/-- A `MoveTo` command. -/
def Segment.isMoveTo : Segment → Bool
  | .moveTo _ _ => true
  | _ => false

/-- The sequencer and the machine agree: the current position `(prevX, prevY)`, from which the
next stroke starts, is the target of the most recent travel or draw line. -/
def Synced (s : PenState) : Prop :=
  machinePos s.gcode = some (s.prevX, s.prevY)

/-- A draw line. -/
def Instr.isDraw : Instr → Bool
  | .draw _ _ => true
  | _ => false

/-- The lines `em` are pen-lower and draw lines that take the machine from `p` to `q`. -/
def Strokes (p q : JNum × JNum) (em : List Instr) : Prop :=
  (∀ i ∈ em, i = .lower ∨ i.isDraw = true) ∧ em.foldl posStep (some p) = some q

/-- The command `cmd` is a curve with finite coordinates, given in output coordinates, whose
end point is `(ex, ey)`. -/
def ClientCurveEnd (cmd : Segment) (ex ey : ℚ) : Prop :=
  (∃ x1 y1 : ℚ, cmd = .quadTo (.fin x1) (.fin y1) (.fin ex) (.fin ey)) ∨
    (∃ x1 y1 x2 y2 : ℚ, cmd = .cubicTo (.fin x1) (.fin y1) (.fin x2) (.fin y2) (.fin ex) (.fin ey))

/-- Two consecutive lines are not two draws to the same point: when both are draw lines, the
target of the second differs (`!==`) from the target of the first in X or in Y. -/
def adjDiffer (i j : Instr) : Prop :=
  ∀ x1 y1 x2 y2, i = .draw x1 y1 → j = .draw x2 y2 → (x2.strictNe x1 || y2.strictNe y1) = true

/-- The invariant of the per-glyph loop for consecutive draws: the pen invariant holds, no two
consecutive lines so far draw to the same point, and when the last line is a draw the current
position is its target. -/
def ChainInv (s : PenState) : Prop :=
  PenInv s ∧ List.Chain' adjDiffer s.gcode ∧
    ∀ x y, s.gcode.getLast? = some (.draw x y) → s.prevX = x ∧ s.prevY = y

/-- A run of body lines that is a good run and has no two consecutive draws to the same
point. -/
def ChainRun (g : List Instr) : Prop :=
  GoodRun g ∧ List.Chain' adjDiffer g

/-- A travel line: `G0 X..Y..`, or the return to the machine origin of the footer. -/
def Instr.isTravel : Instr → Bool
  | .travel _ _ => true
  | .raw token => decide (token = "G90 G0 X0 Y0")
  | _ => false

/-- Scan the lines of a program from pen state `pen` (`true` is down): the pen state after the
last line, or `none` when some travel line occurs while the pen is down. -/
def travelRun : Bool → List Instr → Option Bool
  | pen, [] => some pen
  | pen, i :: is =>
    match i with
    | .lower => travelRun true is
    | .lift => travelRun false is
    | _ => if i.isTravel && pen then none else travelRun pen is

/-- A tool line: a pen-lift or a pen-lower. -/
def Instr.isTool : Instr → Bool
  | .lift => true
  | .lower => true
  | _ => false

/-- The invariant of the per-glyph loop for the tool lines: so far they are `n` pairs of a
pen-lower and a pen-lift, followed by one more pen-lower exactly when the pen is down. -/
def ToolInv (s : PenState) : Prop :=
  ∃ n : Nat, s.gcode.filter Instr.isTool
    = (List.replicate n [Instr.lower, Instr.lift]).flatten ++ (if s.penDown then [.lower] else [])

/-- The horizontal origins of the characters of a line laid out from the cursor `baseX`, in
order: each character is placed at the cursor the characters before it leave. -/
def origins (c : Layout) (font : Font) (scale : JNum) : List Char → JNum → List JNum
  | [], _ => []
  | ch :: rest, baseX => baseX :: origins c font scale rest (charNext c font scale baseX ch)

/-- A command of an outline placed at `(baseX, baseY)` with `scale`, in output coordinates:
`x` becomes `baseX + x * scale` and `y` becomes `baseY - y * scale`. -/
def Segment.toOutput (baseX baseY scale : JNum) : Segment → Segment
  | .moveTo x y => .moveTo (baseX + x * scale) (baseY - y * scale)
  | .lineTo x y => .lineTo (baseX + x * scale) (baseY - y * scale)
  | .quadTo x1 y1 x y =>
    .quadTo (baseX + x1 * scale) (baseY - y1 * scale) (baseX + x * scale) (baseY - y * scale)
  | .cubicTo x1 y1 x2 y2 x y =>
    .cubicTo (baseX + x1 * scale) (baseY - y1 * scale) (baseX + x2 * scale)
      (baseY - y2 * scale) (baseX + x * scale) (baseY - y * scale)
  | .closePath => .closePath

/-- A line with the coordinates of a travel or draw shifted by `(dx, dy)`; the kind of the line
is kept. -/
def Instr.shift (dx dy : ℚ) : Instr → Instr
  | .travel x y => .travel (x + .fin dx) (y + .fin dy)
  | .draw x y => .draw (x + .fin dx) (y + .fin dy)
  | i => i

/-- The state `s2` is the state `s1` shifted by `(dx, dy)`: the same flags, the program and the
(finite) current position shifted. -/
def ShiftRel (dx dy : ℚ) (s1 s2 : PenState) : Prop :=
  s2.gcode = s1.gcode.map (Instr.shift dx dy) ∧ s2.penDown = s1.penDown ∧
    s2.firstMove = s1.firstMove ∧
    ∃ px py : ℚ, s1.prevX = .fin px ∧ s1.prevY = .fin py ∧ s2.prevX = .fin (px + dx) ∧
      s2.prevY = .fin (py + dy)

/-- The library call `glyph.getPath(x, y, fontSize)` of opentype.js on a glyph whose outline in
font design units is `outline`, in a font of `unitsPerEm` units per em: every coordinate is
scaled by `fontSize / unitsPerEm`, the Y axis is flipped (`x + cmd.x * scale`,
`y - cmd.y * scale`) and the outline is placed at `(x, y)`. -/
def getPath (unitsPerEm : JNum) (outline : List Segment) (x y fontSize : JNum) : List Segment :=
  outline.map (Segment.toOutput x y (fontSize / unitsPerEm))

/-! ## Sample data -/

/-- A glyph of a single stroke, advance 600, given by the path data the API handler reads for
it: `M0 0 L0 700`. -/
def glyphI : Glyph where
  advanceWidth := .fin 600
  commands := [.moveTo (.fin 0) (.fin 0), .lineTo (.fin 0) (.fin 700)]
  getPath := fun _ _ _ => []

/-- A space: advance 300 and an empty outline. -/
def glyphSpace : Glyph where
  advanceWidth := .fin 300
  commands := []
  getPath := fun _ _ _ => []

/-- A glyph of two separate strokes, as the sign `=`, given by its path data:
`M100 200 L500 200 M100 400 L500 400`. -/
def glyphEquals : Glyph where
  advanceWidth := .fin 600
  commands := [.moveTo (.fin 100) (.fin 200), .lineTo (.fin 500) (.fin 200),
    .moveTo (.fin 100) (.fin 400), .lineTo (.fin 500) (.fin 400)]
  getPath := fun _ _ _ => []

/-- A glyph with a damaged outline: the path data `getPath(0, 0, fontSize).toPathData()` of the
API handler holds a coordinate that is not a number, `M100 0 LNaN 700`. -/
def glyphBroken : Glyph where
  advanceWidth := .fin 600
  commands := [.moveTo (.fin 100) (.fin 0), .lineTo .nan (.fin 700)]
  getPath := fun _ _ _ => []

/-- The synthetic font of the scenarios: 1000 units per em, the glyphs `I`, `=`, space and,
for `?`, the glyph with the damaged outline. -/
def scenarioFont : Font where
  unitsPerEm := .fin 1000
  charToGlyph := fun ch =>
    if ch = 'I' then some glyphI
    else if ch = '=' then some glyphEquals
    else if ch = ' ' then some glyphSpace
    else if ch = '?' then some glyphBroken
    else none
  stringToGlyphs := fun _ => []

/-- The layout constants of the scenarios: font size 10, margins 1. -/
def scenarioLayout : Layout where
  marginX := .fin 1
  marginY := .fin 1
  fontSize := .fin 10
  letterSpacing := .fin (1 / 10)
  steps := 20

/-- A profile that names the font `Quicksand`. -/
def sampleProfile : Profile where
  font := some "Quicksand"
  fontPath := none

/-- A well-formed request for `text`. -/
def sampleRequest (text : String) : Request where
  method := "POST"
  text := some text
  profile := some sampleProfile

/-- A font loader that always succeeds with the scenario font. -/
def sampleLoad : String → Except String Font :=
  fun _ => .ok scenarioFont

/-- A font loader that always fails. -/
def failingLoad : String → Except String Font :=
  fun _ => .error "ENOENT"

/-- A profile that carries only a font locator. -/
def pathOnlyProfile : Profile where
  font := none
  fontPath := some "/fonts/Quicksand.ttf"

/-- The outline of the glyph `I` of the single-stroke scenario in font design units:
`MoveTo(0,0)`, `LineTo(0,700)`. -/
def strokeOutline : List Segment :=
  [.moveTo (.fin 0) (.fin 0), .lineTo (.fin 0) (.fin 700)]

/-- The glyph `I` of the single-stroke scenario, advance 600, in a font of 1000 units per em
read at font size 10: the path data of the API handler is `getPath(0, 0, 10)` of the outline,
that is `M0 0 L0 -7`. -/
def glyphStroke : Glyph where
  advanceWidth := .fin 600
  commands := getPath (.fin 1000) strokeOutline (.fin 0) (.fin 0) (.fin 10)
  getPath := getPath (.fin 1000) strokeOutline

/-- The synthetic font of the single-stroke scenario: 1000 units per em and the glyph `I`
(`stringToGlyphs`, which only the client compiler calls, is left empty). -/
def strokeFont : Font where
  unitsPerEm := .fin 1000
  charToGlyph := fun ch => if ch = 'I' then some glyphStroke else none
  stringToGlyphs := fun _ => []

/-- A font loader that always succeeds with the font of the single-stroke scenario. -/
def strokeLoad : String → Except String Font :=
  fun _ => .ok strokeFont

/-! ## Helper lemmas -/

/-! ### The loops only append to the program -/

theorem apiLift_onto (g : List Instr) (s : PenState) :
    apiLift (s.onto g) = (apiLift s).onto g := by
  unfold apiLift PenState.onto
  split <;> simp

theorem apiLower_onto (g : List Instr) (s : PenState) :
    apiLower (s.onto g) = (apiLower s).onto g := by
  unfold apiLower PenState.onto
  split <;> simp

theorem apiCurveBody_onto (bx by_ sc : JNum) (cmd : Segment) (t : ℚ) (g : List Instr)
    (s : PenState) :
    apiCurveBody bx by_ sc cmd t (s.onto g) = (apiCurveBody bx by_ sc cmd t s).onto g := by
  have h : apiSample bx by_ sc cmd t (s.onto g) = apiSample bx by_ sc cmd t s := by
    cases cmd <;> rfl
  unfold apiCurveBody
  simp only [h]
  unfold PenState.onto
  split <;> simp

theorem apiCurveLoop_onto (bx by_ sc : JNum) (cmd : Segment) (steps : Nat) (g : List Instr) :
    ∀ (fuel : Nat) (t : ℚ) (s : PenState),
      apiCurveLoop bx by_ sc cmd steps fuel t (s.onto g)
        = (apiCurveLoop bx by_ sc cmd steps fuel t s).onto g := by
  intro fuel
  induction fuel with
  | zero => intro t s; rfl
  | succ n ih =>
    intro t s
    unfold apiCurveLoop
    split
    · rw [apiCurveBody_onto, ih]
    · rfl

theorem apiStep_onto (bx by_ sc : JNum) (steps : Nat) (g : List Instr) (s : PenState)
    (cmd : Segment) :
    apiStep bx by_ sc steps (s.onto g) cmd = (apiStep bx by_ sc steps s cmd).onto g := by
  cases cmd with
  | moveTo cx cy =>
    simp only [apiStep, apiLift_onto]
    unfold PenState.onto
    split <;> simp
  | lineTo cx cy =>
    simp only [apiStep, apiLower_onto]
    unfold PenState.onto
    split <;> simp
  | quadTo x1 y1 x y => simp only [apiStep, apiLower_onto, apiCurveLoop_onto]
  | cubicTo x1 y1 x2 y2 x y => simp only [apiStep, apiLower_onto, apiCurveLoop_onto]
  | closePath => simp only [apiStep, apiLift_onto]

theorem foldl_apiStep_onto (bx by_ sc : JNum) (steps : Nat) (g : List Instr) :
    ∀ (cmds : List Segment) (s : PenState),
      cmds.foldl (apiStep bx by_ sc steps) (s.onto g)
        = (cmds.foldl (apiStep bx by_ sc steps) s).onto g := by
  intro cmds
  induction cmds with
  | nil => intro s; rfl
  | cons cmd rest ih => intro s; simp only [List.foldl_cons, apiStep_onto, ih]

theorem apiGlyph_append (bx by_ sc : JNum) (steps : Nat) (g : List Instr)
    (cmds : List Segment) :
    apiGlyph bx by_ sc steps g cmds = g ++ apiGlyph bx by_ sc steps [] cmds := by
  have e : ({ gcode := g, penDown := false, firstMove := true, prevX := bx, prevY := by_ } :
      PenState) = PenState.onto g
        { gcode := [], penDown := false, firstMove := true, prevX := bx, prevY := by_ } := by
    simp [PenState.onto]
  simp only [apiGlyph]
  rw [e, foldl_apiStep_onto, apiLift_onto]
  rfl

theorem apiChars_append (c : Layout) (font : Font) (sc by_ : JNum) :
    ∀ (chars : List Char) (x : JNum) (g : List Instr),
      apiChars c font sc by_ chars x g
        = ((apiChars c font sc by_ chars x []).1, g ++ (apiChars c font sc by_ chars x []).2) := by
  intro chars
  induction chars with
  | nil => intro x g; simp [apiChars]
  | cons ch rest ih =>
    intro x g
    simp only [apiChars]
    cases font.charToGlyph ch with
    | none => exact ih x g
    | some glyph =>
      simp only
      split
      · exact ih x g
      · rw [ih _ (apiGlyph x by_ sc c.steps g glyph.commands),
          ih _ (apiGlyph x by_ sc c.steps [] glyph.commands),
          apiGlyph_append x by_ sc c.steps g]
        simp

theorem apiLines_append (c : Layout) (font : Font) (sc : JNum) :
    ∀ (lines : List (List Char)) (i : Nat) (g : List Instr),
      apiLines c font sc lines i g = g ++ apiLines c font sc lines i [] := by
  intro lines
  induction lines with
  | nil => intro i g; simp [apiLines]
  | cons l rest ih =>
    intro i g
    simp only [apiLines]
    split
    · exact ih (i + 1) g
    · rw [ih (i + 1) (apiChars _ _ _ _ _ _ g).2, ih (i + 1) (apiChars _ _ _ _ _ _ []).2,
        apiChars_append c font sc _ _ _ g]
      simp

/-! ### The flattening loops stop within `steps + 1` iterations -/

theorem apiCurveLoop_stop (bx by_ sc : JNum) (cmd : Segment) (steps : Nat) (t : ℚ) (h : ¬ t ≤ 1)
    (fuel : Nat) (s : PenState) : apiCurveLoop bx by_ sc cmd steps fuel t s = s := by
  cases fuel with
  | zero => rfl
  | succ n => rw [apiCurveLoop, if_neg h]

theorem apiCurveLoop_fuel_from (bx by_ sc : JNum) (cmd : Segment) (steps : Nat)
    (hs : 1 ≤ steps) :
    ∀ (n j : Nat), j + n = steps + 1 → ∀ (k : Nat) (s : PenState),
      apiCurveLoop bx by_ sc cmd steps (n + k) ((j : ℚ) / (steps : ℚ)) s
        = apiCurveLoop bx by_ sc cmd steps n ((j : ℚ) / (steps : ℚ)) s := by
  have hpos : (0 : ℚ) < (steps : ℚ) := by exact_mod_cast hs
  intro n
  induction n with
  | zero =>
    intro j hj k s
    have hgt : ¬ ((j : ℚ) / (steps : ℚ)) ≤ 1 := by
      rw [div_le_one hpos, not_le]
      have : steps < j := by omega
      exact_mod_cast this
    rw [apiCurveLoop_stop _ _ _ _ _ _ hgt, apiCurveLoop_stop _ _ _ _ _ _ hgt]
  | succ n ih =>
    intro j hj k s
    have e : n + 1 + k = (n + k) + 1 := by omega
    have ht : (j : ℚ) / (steps : ℚ) + 1 / (steps : ℚ) = ((j + 1 : Nat) : ℚ) / (steps : ℚ) := by
      push_cast
      ring
    rw [e, apiCurveLoop, apiCurveLoop]
    split
    · rw [ht]
      exact ih (j + 1) (by omega) k _
    · rfl

/-- The fuel `steps + 1` of the flattening loop is enough: more fuel gives the same result. -/
theorem apiCurveLoop_fuel (bx by_ sc : JNum) (cmd : Segment) (steps : Nat) (hs : 1 ≤ steps)
    (k : Nat) (s : PenState) :
    apiCurveLoop bx by_ sc cmd steps (steps + 1 + k) 0 s
      = apiCurveLoop bx by_ sc cmd steps (steps + 1) 0 s := by
  have h := apiCurveLoop_fuel_from bx by_ sc cmd steps hs (steps + 1) 0 (by omega) k s
  simpa using h

theorem clientCurveLoop_stop (cmd : Segment) (sx sy : JNum) (steps : Nat) (t : ℚ)
    (h : ¬ t ≤ 1) (fuel : Nat) (s : ClientState) :
    clientCurveLoop cmd sx sy steps fuel t s = s := by
  cases fuel with
  | zero => rfl
  | succ n => rw [clientCurveLoop, if_neg h]

theorem clientCurveLoop_fuel_from (cmd : Segment) (sx sy : JNum) (steps : Nat) (hs : 1 ≤ steps) :
    ∀ (n j : Nat), j + n = steps + 1 → ∀ (k : Nat) (s : ClientState),
      clientCurveLoop cmd sx sy steps (n + k) ((j : ℚ) / (steps : ℚ)) s
        = clientCurveLoop cmd sx sy steps n ((j : ℚ) / (steps : ℚ)) s := by
  have hpos : (0 : ℚ) < (steps : ℚ) := by exact_mod_cast hs
  intro n
  induction n with
  | zero =>
    intro j hj k s
    have hgt : ¬ ((j : ℚ) / (steps : ℚ)) ≤ 1 := by
      rw [div_le_one hpos, not_le]
      have : steps < j := by omega
      exact_mod_cast this
    rw [clientCurveLoop_stop _ _ _ _ _ hgt, clientCurveLoop_stop _ _ _ _ _ hgt]
  | succ n ih =>
    intro j hj k s
    have e : n + 1 + k = (n + k) + 1 := by omega
    have ht : (j : ℚ) / (steps : ℚ) + 1 / (steps : ℚ) = ((j + 1 : Nat) : ℚ) / (steps : ℚ) := by
      push_cast
      ring
    rw [e, clientCurveLoop, clientCurveLoop]
    split
    · rw [ht]
      exact ih (j + 1) (by omega) k _
    · rfl

/-- The fuel `steps + 1` of the client flattening loop is enough. -/
theorem clientCurveLoop_fuel (cmd : Segment) (sx sy : JNum) (steps : Nat) (hs : 1 ≤ steps)
    (k : Nat) (s : ClientState) :
    clientCurveLoop cmd sx sy steps (steps + 1 + k) 0 s
      = clientCurveLoop cmd sx sy steps (steps + 1) 0 s := by
  have h := clientCurveLoop_fuel_from cmd sx sy steps hs (steps + 1) 0 (by omega) k s
  simpa using h

/-! ### The pen scan on instructions -/

theorem penRun_append (a b : List Instr) :
    ∀ p : Bool, penRun p (a ++ b) = (penRun p a).bind (fun q => penRun q b) := by
  induction a with
  | nil => intro p; rfl
  | cons i rest ih =>
    intro p
    simp only [List.cons_append, penRun]
    cases i.kind with
    | lower => exact ih true
    | lift => exact ih false
    | draw =>
      cases p with
      | true => simpa using ih true
      | false => rfl
    | other => exact ih p

theorem GoodRun_nil : GoodRun [] :=
  ⟨rfl, by simp⟩

theorem GoodRun_append {a b : List Instr} (ha : GoodRun a) (hb : GoodRun b) :
    GoodRun (a ++ b) := by
  refine ⟨?_, ?_⟩
  · rw [penRun_append, ha.1]; exact hb.1
  · intro i hi
    rcases List.mem_append.mp hi with h | h
    · exact ha.2 i h
    · exact hb.2 i h

theorem PenInv_apiLift {s : PenState} (h : PenInv s) :
    PenInv (apiLift s) ∧ (apiLift s).penDown = false := by
  unfold apiLift
  by_cases hp : s.penDown = true
  · rw [if_pos hp]
    refine ⟨⟨?_, ?_⟩, rfl⟩
    · show penRun false (s.gcode ++ [.lift]) = some false
      rw [penRun_append, h.1]; rfl
    · intro i hi
      rcases List.mem_append.mp hi with h1 | h1
      · exact h.2 i h1
      · simp at h1; subst h1; rfl
  · rw [if_neg hp]
    exact ⟨h, by simpa using hp⟩

theorem PenInv_apiLower {s : PenState} (h : PenInv s) :
    PenInv (apiLower s) ∧ (apiLower s).penDown = true := by
  unfold apiLower
  by_cases hp : s.penDown = true
  · rw [if_neg (by simp [hp])]
    exact ⟨h, hp⟩
  · have hp2 : s.penDown = false := by simpa using hp
    rw [if_pos (by simp [hp2])]
    refine ⟨⟨?_, ?_⟩, rfl⟩
    · show penRun false (s.gcode ++ [.lower]) = some true
      rw [penRun_append, h.1, hp2]; rfl
    · intro i hi
      rcases List.mem_append.mp hi with h1 | h1
      · exact h.2 i h1
      · simp at h1; subst h1; rfl

theorem PenInv_draw {s : PenState} (h : PenInv s) (hp : s.penDown = true) (x y px py : JNum) :
    PenInv { s with gcode := s.gcode ++ [.draw x y], prevX := px, prevY := py } := by
  refine ⟨?_, ?_⟩
  · show penRun false (s.gcode ++ [.draw x y]) = some s.penDown
    rw [penRun_append, h.1, hp]; rfl
  · intro i hi
    rcases List.mem_append.mp hi with h1 | h1
    · exact h.2 i h1
    · simp at h1; subst h1; rfl

theorem PenInv_apiCurveBody (bx by_ sc : JNum) (cmd : Segment) (t : ℚ) {s : PenState}
    (h : PenInv s) (hp : s.penDown = true) :
    PenInv (apiCurveBody bx by_ sc cmd t s) ∧ (apiCurveBody bx by_ sc cmd t s).penDown = true := by
  unfold apiCurveBody
  simp only
  split
  · exact ⟨PenInv_draw h hp _ _ _ _, hp⟩
  · exact ⟨h, hp⟩

theorem PenInv_apiCurveLoop (bx by_ sc : JNum) (cmd : Segment) (steps : Nat) :
    ∀ (fuel : Nat) (t : ℚ) (s : PenState), PenInv s → s.penDown = true →
      PenInv (apiCurveLoop bx by_ sc cmd steps fuel t s) ∧
        (apiCurveLoop bx by_ sc cmd steps fuel t s).penDown = true := by
  intro fuel
  induction fuel with
  | zero => intro t s h hp; exact ⟨h, hp⟩
  | succ n ih =>
    intro t s h hp
    unfold apiCurveLoop
    split
    · have hb := PenInv_apiCurveBody bx by_ sc cmd t h hp
      exact ih _ _ hb.1 hb.2
    · exact ⟨h, hp⟩

theorem PenInv_apiStep (bx by_ sc : JNum) (steps : Nat) {s : PenState} (h : PenInv s)
    (cmd : Segment) : PenInv (apiStep bx by_ sc steps s cmd) := by
  cases cmd with
  | moveTo cx cy =>
    have hl := PenInv_apiLift h
    simp only [apiStep]
    split
    · refine ⟨?_, ?_⟩
      · show penRun false ((apiLift s).gcode ++ [.travel _ _]) = some (apiLift s).penDown
        rw [penRun_append, hl.1.1]; rfl
      · intro i hi
        rcases List.mem_append.mp hi with h1 | h1
        · exact hl.1.2 i h1
        · simp at h1; subst h1; rfl
    · exact hl.1
  | lineTo cx cy =>
    have hl := PenInv_apiLower h
    simp only [apiStep]
    split
    · exact PenInv_draw hl.1 hl.2 _ _ _ _
    · exact hl.1
  | quadTo x1 y1 x y =>
    have hl := PenInv_apiLower h
    exact (PenInv_apiCurveLoop bx by_ sc _ steps _ _ _ hl.1 hl.2).1
  | cubicTo x1 y1 x2 y2 x y => exact h
  | closePath => exact (PenInv_apiLift h).1

theorem PenInv_foldl (bx by_ sc : JNum) (steps : Nat) :
    ∀ (cmds : List Segment) (s : PenState), PenInv s →
      PenInv (cmds.foldl (apiStep bx by_ sc steps) s) := by
  intro cmds
  induction cmds with
  | nil => intro s h; exact h
  | cons cmd rest ih => intro s h; exact ih _ (PenInv_apiStep bx by_ sc steps h cmd)

theorem GoodRun_apiGlyph (bx by_ sc : JNum) (steps : Nat) (cmds : List Segment) :
    GoodRun (apiGlyph bx by_ sc steps [] cmds) := by
  have h0 : PenInv { gcode := [], penDown := false, firstMove := true, prevX := bx, prevY := by_ } :=
    ⟨rfl, by simp⟩
  have h1 := PenInv_apiLift (PenInv_foldl bx by_ sc steps cmds _ h0)
  refine ⟨?_, h1.1.2⟩
  have := h1.1.1
  rw [h1.2] at this
  exact this

theorem GoodRun_apiChars (c : Layout) (font : Font) (sc by_ : JNum) :
    ∀ (chars : List Char) (x : JNum), GoodRun (apiChars c font sc by_ chars x []).2 := by
  intro chars
  induction chars with
  | nil => intro x; exact GoodRun_nil
  | cons ch rest ih =>
    intro x
    simp only [apiChars]
    cases font.charToGlyph ch with
    | none => exact ih x
    | some glyph =>
      simp only
      split
      · exact ih x
      · rw [apiChars_append]
        exact GoodRun_append (GoodRun_apiGlyph _ _ _ _ _) (ih _)

theorem GoodRun_apiLines (c : Layout) (font : Font) (sc : JNum) :
    ∀ (lines : List (List Char)) (i : Nat), GoodRun (apiLines c font sc lines i []) := by
  intro lines
  induction lines with
  | nil => intro i; exact GoodRun_nil
  | cons l rest ih =>
    intro i
    simp only [apiLines]
    split
    · exact ih _
    · rw [apiLines_append]
      exact GoodRun_append (GoodRun_apiChars _ _ _ _ _ _) (ih _)

/-! ### Program text -/

theorem digitChar_ne_newline (k : Nat) : Nat.digitChar k ≠ '\n' := by
  by_cases h : k < 16
  · interval_cases k <;> decide
  · have e : Nat.digitChar k = '*' := by
      unfold Nat.digitChar
      repeat (rw [if_neg (by omega)])
    rw [e]; decide

theorem toDigitsCore_no_newline :
    ∀ (fuel n : Nat) (ds : List Char), '\n' ∉ ds → '\n' ∉ Nat.toDigitsCore 10 fuel n ds := by
  intro fuel
  induction fuel with
  | zero => intro n ds h; simpa [Nat.toDigitsCore] using h
  | succ f ih =>
    intro n ds h
    have hd : '\n' ∉ Nat.digitChar (n % 10) :: ds := by
      simp only [List.mem_cons, not_or]
      exact ⟨fun e => digitChar_ne_newline _ e.symm, h⟩
    simp only [Nat.toDigitsCore]
    split
    · exact hd
    · exact ih _ _ hd

theorem repr_no_newline (n : Nat) : '\n' ∉ (Nat.repr n).data := by
  simp only [Nat.repr, Nat.toDigits, List.asString]
  exact toDigitsCore_no_newline _ _ _ (by simp)

theorem toFixed3Abs_no_newline (q : ℚ) : '\n' ∉ (JNum.toFixed3Abs q).data := by
  simp only [JNum.toFixed3Abs, JNum.padDigits]
  intro h
  rcases List.mem_append.mp h with h1 | h1
  · have h2 := List.mem_of_mem_take h1
    rcases List.mem_append.mp h2 with h3 | h3
    · have := List.eq_of_mem_replicate h3
      exact absurd this (by decide)
    · exact repr_no_newline _ h3
  · rcases List.mem_cons.mp h1 with h2 | h2
    · exact absurd h2 (by decide)
    · have h3 := List.mem_of_mem_drop h2
      rcases List.mem_append.mp h3 with h4 | h4
      · have := List.eq_of_mem_replicate h4
        exact absurd this (by decide)
      · exact repr_no_newline _ h4

theorem toFixed3_no_newline (x : JNum) : '\n' ∉ x.toFixed3.data := by
  cases x with
  | fin q =>
    simp only [JNum.toFixed3]
    split
    · simp only [String.data_append, List.mem_append, not_or]
      exact ⟨by decide, toFixed3Abs_no_newline _⟩
    · exact toFixed3Abs_no_newline _
  | nan => decide
  | pinf => decide
  | ninf => decide
theorem xyText_data (head : String) (x y : JNum) :
    (head ++ x.toFixed3 ++ "Y" ++ y.toFixed3 ++ "F20000").data
      = head.data ++ (x.toFixed3.data ++ ('Y' :: (y.toFixed3.data ++ "F20000".data))) := by
  simp only [String.data_append, List.append_assoc]
  rfl

theorem plain_of_isMotion (i : Instr) (h : i.isMotion = true) : i.plain := by
  cases i with
  | raw token => simp [Instr.isMotion] at h
  | lift => exact ⟨by decide, by decide⟩
  | lower => exact ⟨by decide, by decide⟩
  | travel x y =>
    refine ⟨?_, ?_⟩
    · simp only [Instr.text, xyText_data, List.mem_append, List.mem_cons, not_or]
      exact ⟨by decide, toFixed3_no_newline x, by decide, toFixed3_no_newline y, by decide⟩
    · simp only [Instr.text, xyText_data, lineKind, Instr.kind]
      simp
  | draw x y =>
    refine ⟨?_, ?_⟩
    · simp only [Instr.text, xyText_data, List.mem_append, List.mem_cons, not_or]
      exact ⟨by decide, toFixed3_no_newline x, by decide, toFixed3_no_newline y, by decide⟩
    · simp only [Instr.text, xyText_data, lineKind, Instr.kind]
      simp

theorem plain_apiHeader : ∀ i ∈ apiHeader, i.plain := by
  intro i hi
  simp only [apiHeader, List.mem_cons, List.mem_singleton, List.not_mem_nil, or_false] at hi
  rcases hi with h | h | h | h | h <;> subst h <;> exact ⟨by decide, by decide⟩

theorem plain_apiFooter : ∀ i ∈ apiFooter, i.plain := by
  intro i hi
  simp only [apiFooter, List.mem_cons, List.mem_singleton, List.not_mem_nil, or_false] at hi
  rcases hi with h | h | h <;> subst h <;> exact ⟨by decide, by decide⟩

theorem splitNewline_line (l : List Char) (rest : List Char) (h : '\n' ∉ l) :
    splitNewline (l ++ '\n' :: rest) = l :: splitNewline rest := by
  induction l with
  | nil => simp [splitNewline]
  | cons c cs ih =>
    have hc : c ≠ '\n' := fun e => h (by simp [e])
    have hcs : '\n' ∉ cs := fun e => h (List.mem_cons_of_mem _ e)
    rw [List.cons_append, splitNewline, if_neg hc, ih hcs]

theorem render_data (prog : List Instr) :
    (render prog).data = (prog.map (fun i => i.text.data ++ ['\n'])).flatten := by
  induction prog with
  | nil => rfl
  | cons i rest ih =>
    simp only [render, String.data_append, ih, List.map_cons, List.flatten_cons]

theorem splitNewline_render (prog : List Instr) (h : ∀ i ∈ prog, '\n' ∉ i.text.data) :
    splitNewline (render prog).data = prog.map (fun i => i.text.data) ++ [[]] := by
  induction prog with
  | nil => rfl
  | cons i rest ih =>
    have hi := h i (List.mem_cons_self _ _)
    have hr : ∀ j ∈ rest, '\n' ∉ j.text.data := fun j hj => h j (List.mem_cons_of_mem _ hj)
    have e : (render (i :: rest)).data = i.text.data ++ '\n' :: (render rest).data := by
      simp only [render, String.data_append, List.append_assoc]
      rfl
    rw [e, splitNewline_line _ _ hi, ih hr]
    rfl

theorem penScan_text (prog : List Instr) (h : ∀ i ∈ prog, lineKind i.text.data = i.kind) :
    ∀ p : Bool, penScan p (prog.map (fun i => i.text.data) ++ [[]]) = penRun p prog := by
  induction prog with
  | nil => intro p; rfl
  | cons i rest ih =>
    intro p
    have hi := h i (List.mem_cons_self _ _)
    have hr : ∀ j ∈ rest, lineKind j.text.data = j.kind :=
      fun j hj => h j (List.mem_cons_of_mem _ hj)
    simp only [List.map_cons, List.cons_append, penScan, penRun, hi]
    cases i.kind with
    | lower => exact ih hr true
    | lift => exact ih hr false
    | draw =>
      cases p with
      | true => simpa using ih hr true
      | false => rfl
    | other => exact ih hr p

theorem penScan_of_plain (prog : List Instr) (h : ∀ i ∈ prog, i.plain) (p : Bool) :
    penScan p (splitNewline (render prog).data) = penRun p prog := by
  rw [splitNewline_render prog (fun i hi => (h i hi).1)]
  exact penScan_text prog (fun i hi => (h i hi).2) p

theorem plain_apiProgram (c : Layout) (font : Font) (text : String) :
    ∀ i ∈ apiProgram c font text, i.plain := by
  intro i hi
  simp only [apiProgram] at hi
  rw [apiLines_append] at hi
  rcases List.mem_append.mp hi with h1 | h1
  · rcases List.mem_append.mp h1 with h2 | h2
    · exact plain_apiHeader i h2
    · exact plain_of_isMotion i ((GoodRun_apiLines _ _ _ _ _).2 i h2)
  · exact plain_apiFooter i h1

theorem penRun_apiProgram (c : Layout) (font : Font) (text : String) :
    penRun false (apiProgram c font text) = some false := by
  simp only [apiProgram]
  rw [apiLines_append, penRun_append, penRun_append]
  have h1 : penRun false apiHeader = some false := rfl
  rw [h1]
  simp only [Option.some_bind, (GoodRun_apiLines _ _ _ _ _).1]
  rfl

/-! ### Evaluation -/

@[simp] theorem fin_add (a b : ℚ) : JNum.fin a + JNum.fin b = JNum.fin (a + b) := rfl

@[simp] theorem fin_mul (a b : ℚ) : JNum.fin a * JNum.fin b = JNum.fin (a * b) := rfl

@[simp] theorem fin_sub (a b : ℚ) : JNum.fin a - JNum.fin b = JNum.fin (a - b) := by
  show JNum.fin (a + -b) = JNum.fin (a - b)
  rw [sub_eq_add_neg]

theorem fin_div (a b : ℚ) (h : b ≠ 0) : JNum.fin a / JNum.fin b = JNum.fin (a / b) := by
  show JNum.div (JNum.fin a) (JNum.fin b) = _
  simp [JNum.div, h]

@[simp] theorem strictNe_fin (a b : ℚ) : (JNum.fin a).strictNe (JNum.fin b) = decide (a ≠ b) := by
  simp [JNum.strictNe]

theorem retainedLines_equals : retainedLines "=" = [['=']] := by decide

theorem apiProgram_equals :
    apiProgram apiLayout scenarioFont "="
      = apiHeader ++
        [.travel (.fin (2465 / 1000)) (.fin (5536 / 1000)), .lower,
          .draw (.fin (5665 / 1000)) (.fin (5536 / 1000)), .lift, .lower,
          .draw (.fin (5665 / 1000)) (.fin (3936 / 1000)), .lift] ++ apiFooter := by
  have hs : apiLayout.fontSize / scenarioFont.unitsPerEm = JNum.fin (1 / 125) := by
    show JNum.fin 8 / JNum.fin 1000 = _
    rw [fin_div _ _ (by norm_num)]; norm_num
  have ht : trim ['='] = ['='] := by decide
  simp only [apiProgram, retainedLines_equals, hs, apiLines, ht]
  simp [apiChars, scenarioFont, glyphEquals, apiGlyph, apiStep, apiLift, apiLower, apiLayout,
    Layout.lineHeight, apiHeader, apiFooter]
  norm_num

theorem scale_apiLayout : apiLayout.fontSize / scenarioFont.unitsPerEm = JNum.fin (1 / 125) := by
  show JNum.fin 8 / JNum.fin 1000 = _
  rw [fin_div _ _ (by norm_num)]; norm_num

theorem scale_scenarioLayout :
    scenarioLayout.fontSize / scenarioFont.unitsPerEm = JNum.fin (1 / 100) := by
  show JNum.fin 10 / JNum.fin 1000 = _
  rw [fin_div _ _ (by norm_num)]; norm_num

theorem apiProgram_I_I :
    apiProgram scenarioLayout scenarioFont "I I"
      = apiHeader ++ [.lower, .draw (.fin 1) (.fin (-6)), .lift,
          .lower, .draw (.fin (71 / 10)) (.fin (-6)), .lift] ++ apiFooter := by
  have hl : retainedLines "I I" = [['I', ' ', 'I']] := by decide
  have ht : trim ['I', ' ', 'I'] = ['I', ' ', 'I'] := by decide
  simp only [apiProgram, hl, scale_scenarioLayout, apiLines, ht]
  simp [apiChars, scenarioFont, glyphI, glyphSpace, apiGlyph, apiStep, apiLift, apiLower,
    scenarioLayout, Layout.lineHeight, apiHeader, apiFooter]
  norm_num

theorem apiProgram_II :
    apiProgram scenarioLayout scenarioFont "II"
      = apiHeader ++ [.lower, .draw (.fin 1) (.fin (-6)), .lift,
          .lower, .draw (.fin (71 / 10)) (.fin (-6)), .lift] ++ apiFooter := by
  have hl : retainedLines "II" = [['I', 'I']] := by decide
  have ht : trim ['I', 'I'] = ['I', 'I'] := by decide
  simp only [apiProgram, hl, scale_scenarioLayout, apiLines, ht]
  simp [apiChars, scenarioFont, glyphI, apiGlyph, apiStep, apiLift, apiLower,
    scenarioLayout, Layout.lineHeight, apiHeader, apiFooter]
  norm_num


/-! ### Layout -/

theorem apiChars_eq (c : Layout) (font : Font) (sc by_ : JNum) :
    ∀ (chars : List Char) (x : JNum),
      (apiChars c font sc by_ chars x []).2 = lineBody c font sc by_ chars x := by
  intro chars
  induction chars with
  | nil => intro x; rfl
  | cons ch rest ih =>
    intro x
    simp only [apiChars, lineBody, charLines, charNext]
    cases font.charToGlyph ch with
    | none => simpa using ih x
    | some glyph =>
      simp only
      split
      · simpa using ih x
      · rw [apiChars_append]
        simp only [ih]

theorem retainedLines_eq (text : String) : retainedLines text = nonBlankLines text := by
  unfold retainedLines nonBlankLines
  congr 1
  funext l
  cases h : trim l <;> simp

theorem apiLines_eq (c : Layout) (font : Font) (sc : JNum) :
    ∀ (lines : List (List Char)) (i : Nat), (∀ l ∈ lines, trim l ≠ []) →
      apiLines c font sc lines i []
        = ((lines.enumFrom i).map (fun p =>
            lineBody c font sc (c.marginY + .fin (p.1 : ℚ) * (c.fontSize * .fin (12 / 10)))
              (trim p.2) c.marginX)).flatten := by
  intro lines
  induction lines with
  | nil => intro i _; rfl
  | cons l rest ih =>
    intro i h
    have hl : (trim l).isEmpty = false := by
      have := h l (List.mem_cons_self _ _)
      cases ht : trim l with
      | nil => exact absurd ht this
      | cons a as => rfl
    have hr : ∀ l ∈ rest, trim l ≠ [] := fun l hl => h l (List.mem_cons_of_mem _ hl)
    simp only [apiLines, hl, List.enumFrom_cons, List.map_cons, List.flatten_cons,
      Bool.false_eq_true, if_false]
    rw [apiLines_append, ih (i + 1) hr, apiChars_eq]
    rfl

theorem apiProgram_eq (c : Layout) (font : Font) (text : String) :
    apiProgram c font text = apiHeader ++ layoutBody c font text ++ apiFooter := by
  simp only [apiProgram, layoutBody, retainedLines_eq]
  rw [apiLines_append, apiLines_eq]
  · rfl
  · intro l hl
    simpa using (List.mem_filter.mp hl).2

theorem render_append (a b : List Instr) : render (a ++ b) = render a ++ render b := by
  induction a with
  | nil => simp [render]
  | cons i rest ih =>
    show render (i :: (rest ++ b)) = _
    simp only [render, ih, String.append_assoc]

theorem lineBody_nil_of_not_drawable (c : Layout) (font : Font) (sc by_ : JNum) :
    ∀ (chars : List Char) (x : JNum), (∀ ch ∈ chars, drawable font ch = false) →
      lineBody c font sc by_ chars x = [] := by
  intro chars
  induction chars with
  | nil => intro x _; rfl
  | cons ch rest ih =>
    intro x h
    have hc := h ch (List.mem_cons_self _ _)
    have hr : ∀ ch ∈ rest, drawable font ch = false := fun a ha => h a (List.mem_cons_of_mem _ ha)
    simp only [lineBody, charLines, charNext]
    unfold drawable at hc
    cases hg : font.charToGlyph ch with
    | none => simpa using ih x hr
    | some glyph =>
      rw [hg] at hc
      have he : glyph.commands.isEmpty = true := by simpa using hc
      simp only [he, if_true]
      simpa using ih x hr

theorem layoutBody_nil_of_not_drawable (c : Layout) (font : Font) (text : String)
    (h : ∀ l ∈ nonBlankLines text, ∀ ch ∈ trim l, drawable font ch = false) :
    layoutBody c font text = [] := by
  unfold layoutBody
  rw [List.flatten_eq_nil_iff]
  intro body hb
  obtain ⟨p, hp, rfl⟩ := List.mem_map.mp hb
  have hm : p.2 ∈ nonBlankLines text := by
    obtain ⟨_, he⟩ := List.mem_enum hp
    rw [he]
    exact List.getElem_mem _
  exact lineBody_nil_of_not_drawable c font _ _ _ _ (h p.2 hm)

theorem handler_gcode_text (c : Layout) (load : String → Except String Font) (req : Request)
    (g : String) (h : (handler c load req).body = .gcode g) :
    ∃ profile font text, req.profile = some profile ∧ load (fontLocator profile) = .ok font ∧
      req.text = some text ∧ g = render (apiProgram c font text) := by
  unfold handler at h
  by_cases hm : req.method ≠ "POST"
  · rw [if_pos hm] at h; simp at h
  · rw [if_neg hm] at h
    cases hp : req.profile with
    | none => rw [hp] at h; simp at h
    | some profile =>
      rw [hp] at h
      simp only at h
      by_cases hv : (!truthy req.text || !truthy profile.font) = true
      · rw [if_pos hv] at h; simp at h
      · rw [if_neg hv] at h
        cases hl : load (fontLocator profile) with
        | error m => rw [hl] at h; simp at h
        | ok font =>
          rw [hl] at h
          cases hx : req.text with
          | none => simp [hx, truthy] at hv
          | some text =>
            refine ⟨profile, font, text, rfl, hl, rfl, ?_⟩
            rw [hx] at h
            simp only [Option.getD_some] at h
            cases ht : apiThrows font text with
            | some message => rw [ht] at h; simp at h
            | none =>
              rw [ht] at h
              simpa using h.symm


theorem handler_ok (c : Layout) (load : String → Except String Font) (req : Request)
    (text : String) (profile : Profile) (font : Font) (hm : req.method = "POST")
    (ht : req.text = some text) (hne : text ≠ "") (hp : req.profile = some profile)
    (hf : truthy profile.font = true) (hl : load (fontLocator profile) = .ok font)
    (hx : apiThrows font text = none) :
    handler c load req = ⟨200, .gcode (render (apiProgram c font text))⟩ := by
  have htt : truthy req.text = true := by
    rw [ht]
    simp only [truthy, Bool.not_eq_true', List.isEmpty_eq_false]
    intro h
    exact hne (String.ext h)
  unfold handler
  rw [if_neg (by simp [hm]), hp]
  simp only
  rw [if_neg (by simp [htt, hf]), hl, ht]
  simp only [Option.getD_some, hx]

theorem handler_thrown (c : Layout) (load : String → Except String Font) (req : Request)
    (text : String) (profile : Profile) (font : Font) (message : String)
    (hm : req.method = "POST") (ht : req.text = some text) (hne : text ≠ "")
    (hp : req.profile = some profile) (hf : truthy profile.font = true)
    (hl : load (fontLocator profile) = .ok font) (hx : apiThrows font text = some message) :
    handler c load req = ⟨500, .error ("Failed to generate G-code: " ++ message)⟩ := by
  have htt : truthy req.text = true := by
    rw [ht]
    simp only [truthy, Bool.not_eq_true', List.isEmpty_eq_false]
    intro h
    exact hne (String.ext h)
  unfold handler
  rw [if_neg (by simp [hm]), hp]
  simp only
  rw [if_neg (by simp [htt, hf]), hl, ht]
  simp only [Option.getD_some, hx]

theorem apiThrows_blank (font : Font) (text : String)
    (h : ∀ l ∈ splitNewline text.data, trim l = []) : apiThrows font text = none := by
  have hn : retainedLines text = [] := by
    rw [retainedLines_eq]
    unfold nonBlankLines
    rw [List.filter_eq_nil_iff]
    intro l hl
    simp [h l hl]
  simp [apiThrows, hn]

@[simp] theorem nan_mul (x : JNum) : JNum.nan * x = JNum.nan := by
  cases x <;> rfl

@[simp] theorem add_nan (x : JNum) : x + JNum.nan = JNum.nan := by
  cases x <;> rfl

@[simp] theorem sub_nan (x : JNum) : x - JNum.nan = JNum.nan := by
  cases x <;> rfl

@[simp] theorem strictNe_nan (x : JNum) : JNum.nan.strictNe x = true := by
  simp [JNum.strictNe]

theorem apiProgram_blank (c : Layout) (font : Font) (text : String)
    (h : ∀ l ∈ splitNewline text.data, trim l = []) :
    apiProgram c font text = apiHeader ++ apiFooter := by
  have hn : nonBlankLines text = [] := by
    unfold nonBlankLines
    rw [List.filter_eq_nil_iff]
    intro l hl
    simp [h l hl]
  rw [apiProgram_eq]
  simp [layoutBody, hn, List.enum]


/-! ### The machine position -/

theorem machinePos_append (g : List Instr) (i : Instr) :
    machinePos (g ++ [i]) = posStep (machinePos g) i := by
  simp [machinePos, List.foldl_append]

theorem Synced_apiLift {s : PenState} (h : Synced s) : Synced (apiLift s) := by
  unfold apiLift
  split
  · show machinePos (s.gcode ++ [.lift]) = some (s.prevX, s.prevY)
    rw [machinePos_append]
    exact h
  · exact h

theorem Synced_apiLower {s : PenState} (h : Synced s) : Synced (apiLower s) := by
  unfold apiLower
  split
  · show machinePos (s.gcode ++ [.lower]) = some (s.prevX, s.prevY)
    rw [machinePos_append]
    exact h
  · exact h

theorem Synced_apiCurveBody (bx by_ sc : JNum) (cmd : Segment) (t : ℚ) {s : PenState}
    (h : Synced s) : Synced (apiCurveBody bx by_ sc cmd t s) := by
  unfold apiCurveBody
  simp only
  split
  · show machinePos (s.gcode ++ [.draw _ _]) = some (_, _)
    rw [machinePos_append]
    rfl
  · exact h

theorem Synced_apiCurveLoop (bx by_ sc : JNum) (cmd : Segment) (steps : Nat) :
    ∀ (fuel : Nat) (t : ℚ) (s : PenState), Synced s →
      Synced (apiCurveLoop bx by_ sc cmd steps fuel t s) := by
  intro fuel
  induction fuel with
  | zero => intro t s h; exact h
  | succ n ih =>
    intro t s h
    unfold apiCurveLoop
    split
    · exact ih _ _ (Synced_apiCurveBody bx by_ sc cmd t h)
    · exact h

theorem Synced_apiStep (bx by_ sc : JNum) (steps : Nat) {s : PenState} (h : Synced s)
    (cmd : Segment) (hc : cmd.isMoveTo = false) : Synced (apiStep bx by_ sc steps s cmd) := by
  cases cmd with
  | moveTo cx cy => simp [Segment.isMoveTo] at hc
  | lineTo cx cy =>
    simp only [apiStep]
    split
    · show machinePos ((apiLower s).gcode ++ [.draw _ _]) = some (_, _)
      rw [machinePos_append]
      rfl
    · exact Synced_apiLower h
  | quadTo x1 y1 x y => exact Synced_apiCurveLoop _ _ _ _ _ _ _ _ (Synced_apiLower h)
  | cubicTo x1 y1 x2 y2 x y => exact h
  | closePath => exact Synced_apiLift h

theorem Synced_foldl (bx by_ sc : JNum) (steps : Nat) :
    ∀ (cmds : List Segment) (s : PenState), Synced s → (∀ cmd ∈ cmds, cmd.isMoveTo = false) →
      Synced (cmds.foldl (apiStep bx by_ sc steps) s) := by
  intro cmds
  induction cmds with
  | nil => intro s h _; exact h
  | cons cmd rest ih =>
    intro s h hc
    exact ih _ (Synced_apiStep bx by_ sc steps h cmd (hc cmd (List.mem_cons_self _ _)))
      (fun d hd => hc d (List.mem_cons_of_mem _ hd))

theorem Synced_first_moveTo (bx by_ sc : JNum) (steps : Nat) (g0 : List Instr) (cx cy : JNum)
    (hfar : ((bx + cx * sc).strictNe bx || (by_ - cy * sc).strictNe by_) = true) :
    Synced (apiStep bx by_ sc steps ⟨g0, false, true, bx, by_⟩ (.moveTo cx cy)) := by
  simp only [apiStep, apiLift, Bool.false_eq_true, if_false, Bool.true_and]
  rw [if_pos hfar]
  show machinePos (g0 ++ [.travel _ _]) = some (_, _)
  rw [machinePos_append]
  rfl


/-- The two-stroke glyph `=` with the constants of the source: the program has no travel
between the two strokes, and when the second stroke, from `(2.465, 3.936)` to `(5.665, 3.936)`,
is drawn the machine is still at the end of the first stroke, `(5.665, 5.536)`. -/
theorem equals_second_stroke :
    handler apiLayout sampleLoad (sampleRequest "=")
        = ⟨200, .gcode (render (apiHeader ++
            [.travel (.fin (2465 / 1000)) (.fin (5536 / 1000)), .lower,
              .draw (.fin (5665 / 1000)) (.fin (5536 / 1000)), .lift, .lower,
              .draw (.fin (5665 / 1000)) (.fin (3936 / 1000)), .lift] ++ apiFooter))⟩ ∧
      (let s := [Segment.moveTo (.fin 100) (.fin 200), .lineTo (.fin 500) (.fin 200),
            .moveTo (.fin 100) (.fin 400)].foldl
          (apiStep (.fin (1665 / 1000)) (.fin (7136 / 1000)) (.fin (1 / 125)) 20)
          ⟨[], false, true, .fin (1665 / 1000), .fin (7136 / 1000)⟩
       (s.prevX, s.prevY) = (JNum.fin (2465 / 1000), JNum.fin (3936 / 1000)) ∧
        machinePos s.gcode = some (JNum.fin (5665 / 1000), JNum.fin (5536 / 1000)) ∧
        (apiStep (.fin (1665 / 1000)) (.fin (7136 / 1000)) (.fin (1 / 125)) 20 s
            (.lineTo (.fin 500) (.fin 400))).gcode
          = s.gcode ++ [.lower, .draw (.fin (5665 / 1000)) (.fin (3936 / 1000))]) := by
  refine ⟨?_, ?_⟩
  · show (⟨200, .gcode (render (apiProgram apiLayout scenarioFont "="))⟩ : Response) = _
    rw [apiProgram_equals]
  · simp [apiStep, apiLift, apiLower, machinePos, posStep]
    norm_num

/-! ### Flattening reaches the end point -/

theorem Strokes_nil (p : JNum × JNum) : Strokes p p [] :=
  ⟨by simp, rfl⟩

theorem Strokes_append {p q r : JNum × JNum} {a b : List Instr} (ha : Strokes p q a)
    (hb : Strokes q r b) : Strokes p r (a ++ b) := by
  refine ⟨?_, ?_⟩
  · intro i hi
    rcases List.mem_append.mp hi with h | h
    · exact ha.1 i h
    · exact hb.1 i h
  · rw [List.foldl_append, ha.2, hb.2]

theorem foldl_posStep_no_draw (post : List Instr) (hp : ∀ i ∈ post, i = .lower ∨ i.isDraw = true)
    (hn : ∀ i ∈ post, i.isDraw = false) (p : Option (JNum × JNum)) :
    post.foldl posStep p = p := by
  induction post generalizing p with
  | nil => rfl
  | cons i rest ih =>
    have hi := hp i (List.mem_cons_self _ _)
    have hni := hn i (List.mem_cons_self _ _)
    rcases hi with h | h
    · subst h
      exact ih (fun j hj => hp j (List.mem_cons_of_mem _ hj))
        (fun j hj => hn j (List.mem_cons_of_mem _ hj)) p
    · rw [hni] at h; exact absurd h (by decide)

theorem Strokes_last_draw {p q : JNum × JNum} {em : List Instr} (h : Strokes p q em)
    (pre post : List Instr) (a b : JNum) (he : em = pre ++ .draw a b :: post)
    (hn : ∀ i ∈ post, i.isDraw = false) : (a, b) = q := by
  have h2 := h.2
  rw [he, List.foldl_append, List.foldl_cons] at h2
  have hp : ∀ i ∈ post, i = Instr.lower ∨ i.isDraw = true := by
    intro i hi
    exact h.1 i (by rw [he]; exact List.mem_append_right _ (List.mem_cons_of_mem _ hi))
  rw [foldl_posStep_no_draw post hp hn] at h2
  simpa [posStep] using h2

theorem apiLower_prev (s : PenState) :
    (apiLower s).prevX = s.prevX ∧ (apiLower s).prevY = s.prevY := by
  unfold apiLower
  split <;> exact ⟨rfl, rfl⟩

theorem quadBlend_fin (t p c e : ℚ) :
    quadBlend t (.fin p) (.fin c) (.fin e)
      = .fin ((1 - t) * (1 - t) * p + 2 * (1 - t) * t * c + t * t * e) := by
  simp [quadBlend]

theorem cubicBlend_fin (t p c1 c2 e : ℚ) :
    cubicBlend t (.fin p) (.fin c1) (.fin c2) (.fin e)
      = .fin ((1 - t) ^ 3 * p + 3 * (1 - t) ^ 2 * t * c1 + 3 * (1 - t) * t * t * c2
          + t ^ 3 * e) := by
  simp [cubicBlend]

theorem clientCurveBody_strokes (cmd : Segment) (sx sy : JNum) (t : ℚ) (s : ClientState) :
    ∃ em, (clientCurveBody cmd sx sy t s).gcode = s.gcode ++ em ∧
      Strokes (s.prevX, s.prevY)
        ((clientCurveBody cmd sx sy t s).prevX, (clientCurveBody cmd sx sy t s).prevY) em := by
  unfold clientCurveBody
  simp only
  by_cases hp : s.penDown = true
  · simp only [hp, Bool.not_true, Bool.false_eq_true, if_false]
    split
    · exact ⟨[.draw _ _], rfl, by simp [Instr.isDraw], rfl⟩
    · exact ⟨[], by simp, Strokes_nil _⟩
  · have hp2 : s.penDown = false := by simpa using hp
    simp only [hp2, Bool.not_false, if_true]
    split
    · exact ⟨[.lower, .draw _ _], by simp, by simp [Instr.isDraw], rfl⟩
    · exact ⟨[.lower], rfl, by simp, rfl⟩

theorem clientCurveLoop_strokes (cmd : Segment) (sx sy : JNum) (steps : Nat) :
    ∀ (fuel : Nat) (t : ℚ) (s : ClientState),
      ∃ em, (clientCurveLoop cmd sx sy steps fuel t s).gcode = s.gcode ++ em ∧
        Strokes (s.prevX, s.prevY)
          ((clientCurveLoop cmd sx sy steps fuel t s).prevX,
            (clientCurveLoop cmd sx sy steps fuel t s).prevY) em := by
  intro fuel
  induction fuel with
  | zero => intro t s; exact ⟨[], by simp [clientCurveLoop], Strokes_nil _⟩
  | succ n ih =>
    intro t s
    unfold clientCurveLoop
    split
    · obtain ⟨e1, h1, s1⟩ := clientCurveBody_strokes cmd sx sy t s
      obtain ⟨e2, h2, s2⟩ := ih (t + 1 / (steps : ℚ)) (clientCurveBody cmd sx sy t s)
      exact ⟨e1 ++ e2, by rw [h2, h1, List.append_assoc], Strokes_append s1 s2⟩
    · exact ⟨[], by simp, Strokes_nil _⟩

theorem clientSample_fin {cmd : Segment} {ex ey : ℚ} (hc : ClientCurveEnd cmd ex ey)
    (sx sy t : ℚ) :
    ∃ qx qy : ℚ, clientSample cmd (.fin sx) (.fin sy) t = (.fin qx, .fin qy) ∧
      (t = 1 → qx = ex ∧ qy = ey) := by
  rcases hc with ⟨x1, y1, rfl⟩ | ⟨x1, y1, x2, y2, rfl⟩
  · refine ⟨(1 - t) * (1 - t) * sx + 2 * (1 - t) * t * x1 + t * t * ex,
      (1 - t) * (1 - t) * sy + 2 * (1 - t) * t * y1 + t * t * ey, ?_, ?_⟩
    · simp only [clientSample, quadBlend_fin]
    · intro h1
      subst h1
      constructor <;> ring
  · refine ⟨(1 - t) ^ 3 * sx + 3 * (1 - t) ^ 2 * t * x1 + 3 * (1 - t) * t * t * x2 + t ^ 3 * ex,
      (1 - t) ^ 3 * sy + 3 * (1 - t) ^ 2 * t * y1 + 3 * (1 - t) * t * t * y2 + t ^ 3 * ey,
      ?_, ?_⟩
    · simp only [clientSample, cubicBlend_fin]
    · intro h1
      subst h1
      constructor <;> ring

theorem clientCurveBody_fin {cmd : Segment} {ex ey : ℚ} (hc : ClientCurveEnd cmd ex ey)
    (sx sy t : ℚ) (s : ClientState) (px py : ℚ) (hx : s.prevX = .fin px)
    (hy : s.prevY = .fin py) :
    (∃ qx qy : ℚ, (clientCurveBody cmd (.fin sx) (.fin sy) t s).prevX = .fin qx ∧
      (clientCurveBody cmd (.fin sx) (.fin sy) t s).prevY = .fin qy) ∧
    (t = 1 → (clientCurveBody cmd (.fin sx) (.fin sy) t s).prevX = .fin ex ∧
      (clientCurveBody cmd (.fin sx) (.fin sy) t s).prevY = .fin ey) := by
  obtain ⟨qx, qy, hq, h1⟩ := clientSample_fin hc sx sy t
  unfold clientCurveBody
  simp only [hq]
  by_cases hp : s.penDown = true
  · simp only [hp, Bool.not_true, Bool.false_eq_true, if_false, hx, hy, strictNe_fin]
    split
    · exact ⟨⟨qx, qy, rfl, rfl⟩, fun ht => by rw [(h1 ht).1, (h1 ht).2]; exact ⟨rfl, rfl⟩⟩
    · rename_i hne
      refine ⟨⟨px, py, hx, hy⟩, fun ht => ?_⟩
      simp only [Bool.or_eq_true, decide_eq_true_eq, not_or, not_not] at hne
      rw [hx, hy, ← (h1 ht).1, ← (h1 ht).2, hne.1, hne.2]
      exact ⟨rfl, rfl⟩
  · have hp2 : s.penDown = false := by simpa using hp
    simp only [hp2, Bool.not_false, if_true, hx, hy, strictNe_fin]
    split
    · exact ⟨⟨qx, qy, rfl, rfl⟩, fun ht => by rw [(h1 ht).1, (h1 ht).2]; exact ⟨rfl, rfl⟩⟩
    · rename_i hne
      refine ⟨⟨px, py, rfl, rfl⟩, fun ht => ?_⟩
      simp only [Bool.or_eq_true, decide_eq_true_eq, not_or, not_not] at hne
      show JNum.fin px = _ ∧ JNum.fin py = _
      rw [← (h1 ht).1, ← (h1 ht).2, hne.1, hne.2]
      exact ⟨rfl, rfl⟩

theorem clientCurveLoop_end {cmd : Segment} {ex ey : ℚ} (hc : ClientCurveEnd cmd ex ey)
    (sx sy : ℚ) (steps : Nat) (hs : 1 ≤ steps) :
    ∀ (n j : Nat), j + (n + 1) = steps + 1 → ∀ (s : ClientState) (px py : ℚ),
      s.prevX = .fin px → s.prevY = .fin py →
      (clientCurveLoop cmd (.fin sx) (.fin sy) steps (n + 1)
          ((j : ℚ) / (steps : ℚ)) s).prevX = .fin ex ∧
        (clientCurveLoop cmd (.fin sx) (.fin sy) steps (n + 1)
          ((j : ℚ) / (steps : ℚ)) s).prevY = .fin ey := by
  have hpos : (0 : ℚ) < (steps : ℚ) := by exact_mod_cast hs
  intro n
  induction n with
  | zero =>
    intro j hj s px py hx hy
    have hjs : j = steps := by omega
    have ht : (j : ℚ) / (steps : ℚ) = 1 := by rw [hjs]; exact div_self (ne_of_gt hpos)
    rw [ht, clientCurveLoop, if_pos (le_refl _), clientCurveLoop]
    exact (clientCurveBody_fin hc sx sy 1 s px py hx hy).2 rfl
  | succ n ih =>
    intro j hj s px py hx hy
    have hle : (j : ℚ) / (steps : ℚ) ≤ 1 := by
      rw [div_le_one hpos]
      have : j ≤ steps := by omega
      exact_mod_cast this
    have ht : (j : ℚ) / (steps : ℚ) + 1 / (steps : ℚ) = ((j + 1 : Nat) : ℚ) / (steps : ℚ) := by
      push_cast
      ring
    rw [clientCurveLoop, if_pos hle, ht]
    obtain ⟨⟨qx, qy, hqx, hqy⟩, _⟩ :=
      clientCurveBody_fin hc sx sy ((j : ℚ) / (steps : ℚ)) s px py hx hy
    exact ih (j + 1) (by omega) _ qx qy hqx hqy

theorem clientStep_curve_end {cmd : Segment} {ex ey : ℚ} (hc : ClientCurveEnd cmd ex ey)
    (steps : Nat) (hs : 1 ≤ steps) (hn : (doubleTimes steps).length = steps + 1)
    (s : ClientState) (px py : ℚ) (hx : s.prevX = .fin px) (hy : s.prevY = .fin py) :
    (clientStep steps s cmd).prevX = .fin ex ∧ (clientStep steps s cmd).prevY = .fin ey ∧
      ∃ em, (clientStep steps s cmd).gcode = s.gcode ++ em ∧
        (∀ i ∈ em, i = .lower ∨ i.isDraw = true) ∧
        ∀ (pre post : List Instr) (a b : JNum), em = pre ++ .draw a b :: post →
          (∀ i ∈ post, i.isDraw = false) → a = .fin ex ∧ b = .fin ey := by
  have h0 : ((0 : Nat) : ℚ) / (steps : ℚ) = 0 := by simp
  have hend := clientCurveLoop_end hc px py steps hs steps 0 (by omega) s px py hx hy
  rw [h0] at hend
  obtain ⟨em, hg, hst⟩ := clientCurveLoop_strokes cmd (.fin px) (.fin py) steps (steps + 1) 0 s
  have hstep : clientStep steps s cmd
      = clientCurveLoop cmd (.fin px) (.fin py) steps (steps + 1) 0 s := by
    rcases hc with ⟨x1, y1, rfl⟩ | ⟨x1, y1, x2, y2, rfl⟩ <;> simp only [clientStep, hx, hy, hn]
  rw [hstep]
  refine ⟨hend.1, hend.2, em, hg, hst.1, ?_⟩
  intro pre post a b he hn
  have := Strokes_last_draw hst pre post a b he hn
  rw [hend.1, hend.2] at this
  exact ⟨(Prod.mk.inj this).1, (Prod.mk.inj this).2⟩

/-! ### No two consecutive draws to the same point -/

theorem adjDiffer_of_not_draw_right (i j : Instr) (h : j.isDraw = false) : adjDiffer i j := by
  intro x1 y1 x2 y2 _ hj
  subst hj
  simp [Instr.isDraw] at h

theorem adjDiffer_of_not_draw_left (i j : Instr) (h : i.isDraw = false) : adjDiffer i j := by
  intro x1 y1 x2 y2 hi _
  subst hi
  simp [Instr.isDraw] at h

theorem chain_concat {g : List Instr} (hg : List.Chain' adjDiffer g) (i : Instr)
    (h : ∀ l, g.getLast? = some l → adjDiffer l i) : List.Chain' adjDiffer (g ++ [i]) := by
  refine List.Chain'.append hg (List.chain'_singleton i) ?_
  intro x hx y hy
  simp only [List.head?_cons, Option.mem_def, Option.some.injEq] at hy
  subst hy
  exact h x hx

theorem last_not_draw_of_penRun {g : List Instr} {p : Bool} (h : penRun p g = some false)
    (x y : JNum) : g.getLast? ≠ some (.draw x y) := by
  intro hl
  obtain ⟨ys, rfl⟩ := List.getLast?_eq_some_iff.mp hl
  rw [penRun_append] at h
  cases hq : penRun p ys with
  | none => simp [hq] at h
  | some q =>
    cases q with
    | true => simp [hq, penRun, Instr.kind] at h
    | false => simp [hq, penRun, Instr.kind] at h

theorem head_not_draw_of_penRun {g : List Instr} (h : penRun false g = some false) :
    ∀ i, g.head? = some i → i.isDraw = false := by
  intro i hi
  cases g with
  | nil => simp at hi
  | cons j rest =>
    simp only [List.head?_cons, Option.some.injEq] at hi
    subst hi
    cases j with
    | draw x y => simp [penRun, Instr.kind] at h
    | _ => rfl

theorem ChainInv_apiLift {s : PenState} (h : ChainInv s) : ChainInv (apiLift s) := by
  refine ⟨(PenInv_apiLift h.1).1, ?_, ?_⟩
  · unfold apiLift
    split
    · exact chain_concat h.2.1 _ (fun l _ => adjDiffer_of_not_draw_right l _ rfl)
    · exact h.2.1
  · intro x y hl
    have hp := PenInv_apiLift h.1
    have hrun := hp.1.1
    rw [hp.2] at hrun
    exact absurd hl (last_not_draw_of_penRun hrun x y)

theorem ChainInv_apiLower {s : PenState} (h : ChainInv s) : ChainInv (apiLower s) := by
  refine ⟨(PenInv_apiLower h.1).1, ?_, ?_⟩
  · unfold apiLower
    split
    · exact chain_concat h.2.1 _ (fun l _ => adjDiffer_of_not_draw_right l _ rfl)
    · exact h.2.1
  · unfold apiLower
    split
    · intro x y hl
      rw [List.getLast?_concat] at hl
      simp at hl
    · exact h.2.2

theorem ChainInv_draw {s : PenState} (h : ChainInv s) (hp : s.penDown = true) (x y : JNum)
    (hne : (x.strictNe s.prevX || y.strictNe s.prevY) = true) :
    ChainInv { s with gcode := s.gcode ++ [.draw x y], prevX := x, prevY := y } := by
  refine ⟨PenInv_draw h.1 hp x y x y, ?_, ?_⟩
  · refine chain_concat h.2.1 _ ?_
    intro l hl x1 y1 x2 y2 h1 h2
    subst h1
    cases h2
    obtain ⟨e1, e2⟩ := h.2.2 x1 y1 hl
    rw [← e1, ← e2]
    exact hne
  · intro a b hl
    have e : (s.gcode ++ [Instr.draw x y]).getLast? = some (.draw x y) :=
      List.getLast?_concat _
    rw [show ({ s with gcode := s.gcode ++ [.draw x y], prevX := x, prevY := y } : PenState).gcode
      = s.gcode ++ [.draw x y] from rfl, e] at hl
    cases hl
    exact ⟨rfl, rfl⟩

theorem ChainInv_apiCurveBody (bx by_ sc : JNum) (cmd : Segment) (t : ℚ) {s : PenState}
    (h : ChainInv s) (hp : s.penDown = true) :
    ChainInv (apiCurveBody bx by_ sc cmd t s) ∧
      (apiCurveBody bx by_ sc cmd t s).penDown = true := by
  unfold apiCurveBody
  simp only
  split
  · rename_i hne
    exact ⟨ChainInv_draw h hp _ _ hne, hp⟩
  · exact ⟨h, hp⟩

theorem ChainInv_apiCurveLoop (bx by_ sc : JNum) (cmd : Segment) (steps : Nat) :
    ∀ (fuel : Nat) (t : ℚ) (s : PenState), ChainInv s → s.penDown = true →
      ChainInv (apiCurveLoop bx by_ sc cmd steps fuel t s) := by
  intro fuel
  induction fuel with
  | zero => intro t s h _; exact h
  | succ n ih =>
    intro t s h hp
    unfold apiCurveLoop
    split
    · have hb := ChainInv_apiCurveBody bx by_ sc cmd t h hp
      exact ih _ _ hb.1 hb.2
    · exact h

theorem ChainInv_apiStep (bx by_ sc : JNum) (steps : Nat) {s : PenState} (h : ChainInv s)
    (cmd : Segment) : ChainInv (apiStep bx by_ sc steps s cmd) := by
  cases cmd with
  | moveTo cx cy =>
    have hl := ChainInv_apiLift h
    have hpd := (PenInv_apiLift h.1).2
    have hrun := hl.1.1
    rw [hpd] at hrun
    simp only [apiStep]
    split
    · refine ⟨?_, ?_, ?_⟩
      · refine ⟨?_, ?_⟩
        · show penRun false ((apiLift s).gcode ++ [.travel _ _]) = some (apiLift s).penDown
          rw [penRun_append, hl.1.1]; rfl
        · intro i hi
          rcases List.mem_append.mp hi with h1 | h1
          · exact hl.1.2 i h1
          · simp at h1; subst h1; rfl
      · exact chain_concat hl.2.1 _ (fun l _ => adjDiffer_of_not_draw_right l _ rfl)
      · intro x y hlast
        change ((apiLift s).gcode ++ [Instr.travel _ _]).getLast? = _ at hlast
        rw [List.getLast?_concat] at hlast
        simp at hlast
    · refine ⟨hl.1, hl.2.1, ?_⟩
      intro x y hlast
      exact absurd hlast (last_not_draw_of_penRun hrun x y)
  | lineTo cx cy =>
    have hl := ChainInv_apiLower h
    have hpd := (PenInv_apiLower h.1).2
    simp only [apiStep]
    split
    · rename_i hne
      exact ChainInv_draw hl hpd _ _ hne
    · exact hl
  | quadTo x1 y1 x y =>
    exact ChainInv_apiCurveLoop _ _ _ _ _ _ _ _ (ChainInv_apiLower h) (PenInv_apiLower h.1).2
  | cubicTo x1 y1 x2 y2 x y => exact h
  | closePath => exact ChainInv_apiLift h

theorem ChainInv_foldl (bx by_ sc : JNum) (steps : Nat) :
    ∀ (cmds : List Segment) (s : PenState), ChainInv s →
      ChainInv (cmds.foldl (apiStep bx by_ sc steps) s) := by
  intro cmds
  induction cmds with
  | nil => intro s h; exact h
  | cons cmd rest ih => intro s h; exact ih _ (ChainInv_apiStep bx by_ sc steps h cmd)

theorem ChainRun_nil : ChainRun [] :=
  ⟨GoodRun_nil, List.chain'_nil⟩

theorem ChainRun_append {a b : List Instr} (ha : ChainRun a) (hb : ChainRun b) :
    ChainRun (a ++ b) := by
  refine ⟨GoodRun_append ha.1 hb.1, List.Chain'.append ha.2 hb.2 ?_⟩
  intro x _ y hy
  exact adjDiffer_of_not_draw_right x y (head_not_draw_of_penRun hb.1.1 y hy)

theorem ChainRun_apiGlyph (bx by_ sc : JNum) (steps : Nat) (cmds : List Segment) :
    ChainRun (apiGlyph bx by_ sc steps [] cmds) := by
  refine ⟨GoodRun_apiGlyph bx by_ sc steps cmds, ?_⟩
  have h0 : ChainInv ⟨[], false, true, bx, by_⟩ := ⟨⟨rfl, by simp⟩, List.chain'_nil, by simp⟩
  exact (ChainInv_apiLift (ChainInv_foldl bx by_ sc steps cmds _ h0)).2.1

theorem ChainRun_lineBody (c : Layout) (font : Font) (sc by_ : JNum) :
    ∀ (chars : List Char) (x : JNum), ChainRun (lineBody c font sc by_ chars x) := by
  intro chars
  induction chars with
  | nil => intro x; exact ChainRun_nil
  | cons ch rest ih =>
    intro x
    simp only [lineBody]
    refine ChainRun_append ?_ (ih _)
    unfold charLines
    cases font.charToGlyph ch with
    | none => exact ChainRun_nil
    | some glyph =>
      simp only
      split
      · exact ChainRun_nil
      · exact ChainRun_apiGlyph _ _ _ _ _

theorem ChainRun_flatten (L : List (List Instr)) (h : ∀ g ∈ L, ChainRun g) :
    ChainRun L.flatten := by
  induction L with
  | nil => exact ChainRun_nil
  | cons g rest ih =>
    rw [List.flatten_cons]
    exact ChainRun_append (h g (List.mem_cons_self _ _))
      (ih (fun g' hg' => h g' (List.mem_cons_of_mem _ hg')))

theorem ChainRun_layoutBody (c : Layout) (font : Font) (text : String) :
    ChainRun (layoutBody c font text) := by
  unfold layoutBody
  apply ChainRun_flatten
  intro g hg
  obtain ⟨p, _, rfl⟩ := List.mem_map.mp hg
  exact ChainRun_lineBody _ _ _ _ _ _

theorem chain_apiProgram (c : Layout) (font : Font) (text : String) :
    List.Chain' adjDiffer (apiProgram c font text) := by
  rw [apiProgram_eq]
  have hb := ChainRun_layoutBody c font text
  have hh : List.Chain' adjDiffer apiHeader := by
    simp only [apiHeader, List.chain'_cons, List.chain'_singleton, and_true]
    refine ⟨?_, ?_, ?_, ?_⟩ <;> exact adjDiffer_of_not_draw_left _ _ rfl
  have hf : List.Chain' adjDiffer apiFooter := by
    simp only [apiFooter, List.chain'_cons, List.chain'_singleton, and_true]
    refine ⟨?_, ?_⟩ <;> exact adjDiffer_of_not_draw_left _ _ rfl
  refine List.Chain'.append (List.Chain'.append hh hb.2 ?_) hf ?_
  · intro x _ y hy
    exact adjDiffer_of_not_draw_right x y (head_not_draw_of_penRun hb.1.1 y hy)
  · intro x _ y hy
    simp only [apiFooter, List.head?_cons, Option.mem_def, Option.some.injEq] at hy
    subst hy
    exact adjDiffer_of_not_draw_right x _ rfl

/-! ### Travel only with the pen up -/

theorem travelRun_append (a b : List Instr) :
    ∀ p : Bool, travelRun p (a ++ b) = (travelRun p a).bind (fun q => travelRun q b) := by
  induction a with
  | nil => intro p; rfl
  | cons i rest ih =>
    intro p
    cases i with
    | lower => exact ih true
    | lift => exact ih false
    | raw token =>
      simp only [List.cons_append, travelRun]
      split
      · rfl
      · exact ih p
    | travel x y =>
      simp only [List.cons_append, travelRun]
      split
      · rfl
      · exact ih p
    | draw x y =>
      simp only [List.cons_append, travelRun]
      split
      · rfl
      · exact ih p

theorem travelRun_concat {g : List Instr} {p q : Bool} (h : travelRun p g = some q) (i : Instr) :
    travelRun p (g ++ [i]) = travelRun q [i] := by
  rw [travelRun_append, h]
  rfl

theorem travel_apiLift {s : PenState} (h : travelRun false s.gcode = some s.penDown) :
    travelRun false (apiLift s).gcode = some (apiLift s).penDown ∧
      (apiLift s).penDown = false := by
  unfold apiLift
  by_cases hp : s.penDown = true
  · rw [if_pos hp]
    exact ⟨by rw [travelRun_concat h]; rfl, rfl⟩
  · rw [if_neg hp]
    exact ⟨h, by simpa using hp⟩

theorem travel_apiLower {s : PenState} (h : travelRun false s.gcode = some s.penDown) :
    travelRun false (apiLower s).gcode = some (apiLower s).penDown := by
  unfold apiLower
  by_cases hp : s.penDown = true
  · rw [if_neg (by simp [hp])]
    exact h
  · rw [if_pos (by simpa using hp)]
    rw [travelRun_concat h]; rfl

theorem travel_apiCurveBody (bx by_ sc : JNum) (cmd : Segment) (t : ℚ) {s : PenState}
    (h : travelRun false s.gcode = some s.penDown) :
    travelRun false (apiCurveBody bx by_ sc cmd t s).gcode
      = some (apiCurveBody bx by_ sc cmd t s).penDown := by
  unfold apiCurveBody
  simp only
  split
  · show travelRun false (s.gcode ++ [.draw _ _]) = some s.penDown
    rw [travelRun_concat h]
    simp [travelRun, Instr.isTravel]
  · exact h

theorem travel_apiCurveLoop (bx by_ sc : JNum) (cmd : Segment) (steps : Nat) :
    ∀ (fuel : Nat) (t : ℚ) (s : PenState), travelRun false s.gcode = some s.penDown →
      travelRun false (apiCurveLoop bx by_ sc cmd steps fuel t s).gcode
        = some (apiCurveLoop bx by_ sc cmd steps fuel t s).penDown := by
  intro fuel
  induction fuel with
  | zero => intro t s h; exact h
  | succ n ih =>
    intro t s h
    unfold apiCurveLoop
    split
    · exact ih _ _ (travel_apiCurveBody bx by_ sc cmd t h)
    · exact h

theorem travel_apiStep (bx by_ sc : JNum) (steps : Nat) {s : PenState}
    (h : travelRun false s.gcode = some s.penDown) (cmd : Segment) :
    travelRun false (apiStep bx by_ sc steps s cmd).gcode
      = some (apiStep bx by_ sc steps s cmd).penDown := by
  cases cmd with
  | moveTo cx cy =>
    have hl := travel_apiLift h
    simp only [apiStep]
    split
    · show travelRun false ((apiLift s).gcode ++ [.travel _ _]) = some (apiLift s).penDown
      rw [travelRun_concat hl.1, hl.2]
      rfl
    · exact hl.1
  | lineTo cx cy =>
    have hl := travel_apiLower h
    simp only [apiStep]
    split
    · show travelRun false ((apiLower s).gcode ++ [.draw _ _]) = some (apiLower s).penDown
      rw [travelRun_concat hl]
      simp [travelRun, Instr.isTravel]
    · exact hl
  | quadTo x1 y1 x y => exact travel_apiCurveLoop _ _ _ _ _ _ _ _ (travel_apiLower h)
  | cubicTo x1 y1 x2 y2 x y => exact h
  | closePath => exact (travel_apiLift h).1

theorem travel_apiGlyph (bx by_ sc : JNum) (steps : Nat) (g : List Instr)
    (cmds : List Segment) (h : travelRun false g = some false) :
    travelRun false (apiGlyph bx by_ sc steps g cmds) = some false := by
  have hf : ∀ (cmds : List Segment) (s : PenState), travelRun false s.gcode = some s.penDown →
      travelRun false (cmds.foldl (apiStep bx by_ sc steps) s).gcode
        = some (cmds.foldl (apiStep bx by_ sc steps) s).penDown := by
    intro cmds
    induction cmds with
    | nil => intro s hs; exact hs
    | cons cmd rest ih => intro s hs; exact ih _ (travel_apiStep bx by_ sc steps hs cmd)
  have h1 := travel_apiLift (hf cmds ⟨g, false, true, bx, by_⟩ h)
  have h2 := h1.1
  rw [h1.2] at h2
  exact h2

theorem travel_apiChars (c : Layout) (font : Font) (sc by_ : JNum) :
    ∀ (chars : List Char) (x : JNum) (g : List Instr), travelRun false g = some false →
      travelRun false (apiChars c font sc by_ chars x g).2 = some false := by
  intro chars
  induction chars with
  | nil => intro x g h; exact h
  | cons ch rest ih =>
    intro x g h
    simp only [apiChars]
    cases font.charToGlyph ch with
    | none => exact ih x g h
    | some glyph =>
      simp only
      split
      · exact ih x g h
      · exact ih _ _ (travel_apiGlyph _ _ _ _ _ _ h)

theorem travel_apiLines (c : Layout) (font : Font) (sc : JNum) :
    ∀ (lines : List (List Char)) (i : Nat) (g : List Instr), travelRun false g = some false →
      travelRun false (apiLines c font sc lines i g) = some false := by
  intro lines
  induction lines with
  | nil => intro i g h; exact h
  | cons l rest ih =>
    intro i g h
    simp only [apiLines]
    split
    · exact ih _ _ h
    · exact ih _ _ (travel_apiChars _ _ _ _ _ _ _ h)

theorem travel_clientCurveBody (cmd : Segment) (sx sy : JNum) (t : ℚ) {s : ClientState}
    (h : travelRun false s.gcode = some s.penDown) :
    travelRun false (clientCurveBody cmd sx sy t s).gcode
      = some (clientCurveBody cmd sx sy t s).penDown := by
  unfold clientCurveBody
  simp only
  by_cases hp : s.penDown = true
  · have h2 : travelRun false s.gcode = some true := by rw [h, hp]
    simp only [hp, Bool.not_true, Bool.false_eq_true, if_false]
    split
    · show travelRun false (s.gcode ++ [.draw _ _]) = some true
      rw [travelRun_concat h2]
      simp [travelRun, Instr.isTravel]
    · exact h
  · have hp2 : s.penDown = false := by simpa using hp
    simp only [hp2, Bool.not_false, if_true]
    have hl : travelRun false (s.gcode ++ [.lower]) = some true := by
      rw [travelRun_concat h]; rfl
    split
    · show travelRun false ((s.gcode ++ [.lower]) ++ [.draw _ _]) = some true
      rw [travelRun_concat hl]
      simp [travelRun, Instr.isTravel]
    · exact hl

theorem travel_clientCurveLoop (cmd : Segment) (sx sy : JNum) (steps : Nat) :
    ∀ (fuel : Nat) (t : ℚ) (s : ClientState), travelRun false s.gcode = some s.penDown →
      travelRun false (clientCurveLoop cmd sx sy steps fuel t s).gcode
        = some (clientCurveLoop cmd sx sy steps fuel t s).penDown := by
  intro fuel
  induction fuel with
  | zero => intro t s h; exact h
  | succ n ih =>
    intro t s h
    unfold clientCurveLoop
    split
    · exact ih _ _ (travel_clientCurveBody cmd sx sy t h)
    · exact h

theorem travel_clientStep (steps : Nat) {s : ClientState}
    (h : travelRun false s.gcode = some s.penDown) (cmd : Segment) :
    travelRun false (clientStep steps s cmd).gcode = some (clientStep steps s cmd).penDown := by
  cases cmd with
  | moveTo x y =>
    simp only [clientStep]
    by_cases hp : s.penDown = true
    · have hl : travelRun false (s.gcode ++ [.lift]) = some false := by
        rw [travelRun_concat h]; rfl
      simp only [hp, if_true]
      split
      · show travelRun false ((s.gcode ++ [.lift]) ++ [.travel _ _]) = some false
        rw [travelRun_concat hl]
        rfl
      · exact hl
    · have hp2 : s.penDown = false := by simpa using hp
      have h2 : travelRun false s.gcode = some false := by rw [h, hp2]
      simp only [hp2, Bool.false_eq_true, if_false]
      split
      · show travelRun false (s.gcode ++ [.travel _ _]) = some false
        rw [travelRun_concat h2]
        rfl
      · exact h
  | lineTo x y =>
    simp only [clientStep]
    by_cases hp : s.penDown = true
    · have h2 : travelRun false s.gcode = some true := by rw [h, hp]
      simp only [hp, Bool.not_true, Bool.false_eq_true, if_false]
      split
      · show travelRun false (s.gcode ++ [.draw _ _]) = some true
        rw [travelRun_concat h2]
        simp [travelRun, Instr.isTravel]
      · exact h
    · have hp2 : s.penDown = false := by simpa using hp
      simp only [hp2, Bool.not_false, if_true]
      have hl : travelRun false (s.gcode ++ [.lower]) = some true := by
        rw [travelRun_concat h]; rfl
      split
      · show travelRun false ((s.gcode ++ [.lower]) ++ [.draw _ _]) = some true
        rw [travelRun_concat hl]
        simp [travelRun, Instr.isTravel]
      · exact hl
  | quadTo x1 y1 x y => exact travel_clientCurveLoop _ _ _ _ _ _ _ h
  | cubicTo x1 y1 x2 y2 x y => exact travel_clientCurveLoop _ _ _ _ _ _ _ h
  | closePath => exact h

theorem travel_clientGlyph (x y : JNum) (steps : Nat) (g : List Instr) (cmds : List Segment)
    (h : travelRun false g = some false) :
    travelRun false (clientGlyph x y steps g cmds) = some false := by
  have hf : ∀ (cmds : List Segment) (s : ClientState),
      travelRun false s.gcode = some s.penDown →
      travelRun false (cmds.foldl (clientStep steps) s).gcode
        = some (cmds.foldl (clientStep steps) s).penDown := by
    intro cmds
    induction cmds with
    | nil => intro s hs; exact hs
    | cons cmd rest ih => intro s hs; exact ih _ (travel_clientStep steps hs cmd)
  have h1 := hf cmds ⟨g, false, x, y⟩ h
  simp only [clientGlyph]
  split
  · rename_i hp
    rw [travelRun_concat h1]
    rfl
  · rename_i hp
    have hp2 : (cmds.foldl (clientStep steps) ⟨g, false, x, y⟩).penDown = false := by
      simpa using hp
    rw [hp2] at h1
    exact h1

theorem travel_clientGlyphs (fontSize sc y : JNum) :
    ∀ (glyphs : List Glyph) (x : JNum) (g : List Instr), travelRun false g = some false →
      travelRun false (clientGlyphs fontSize sc y glyphs x g) = some false := by
  intro glyphs
  induction glyphs with
  | nil => intro x g h; exact h
  | cons glyph rest ih =>
    intro x g h
    simp only [clientGlyphs]
    exact ih _ _ (travel_clientGlyph _ _ _ _ _ h)

theorem travel_clientLines (font : Font) (mx my fs lh sc : JNum) :
    ∀ (lines : List (List Char)) (i : Nat) (g : List Instr), travelRun false g = some false →
      travelRun false (clientLines font mx my fs lh sc lines i g) = some false := by
  intro lines
  induction lines with
  | nil => intro i g h; exact h
  | cons l rest ih =>
    intro i g h
    simp only [clientLines]
    split
    · exact ih _ _ h
    · exact ih _ _ (travel_clientGlyphs _ _ _ _ _ _ h)

/-! ### The tool lines of a glyph alternate -/

theorem ToolInv_apiLift {s : PenState} (h : ToolInv s) :
    ToolInv (apiLift s) ∧ (apiLift s).penDown = false := by
  obtain ⟨n, hn⟩ := h
  unfold apiLift
  by_cases hp : s.penDown = true
  · rw [if_pos hp]
    refine ⟨⟨n + 1, ?_⟩, rfl⟩
    show (s.gcode ++ [Instr.lift]).filter Instr.isTool = _
    rw [List.filter_append, hn, hp, List.replicate_succ', List.flatten_append]
    simp [Instr.isTool]
  · rw [if_neg hp]
    exact ⟨⟨n, hn⟩, by simpa using hp⟩

theorem ToolInv_apiLower {s : PenState} (h : ToolInv s) : ToolInv (apiLower s) := by
  obtain ⟨n, hn⟩ := h
  unfold apiLower
  by_cases hp : s.penDown = true
  · rw [if_neg (by simp [hp])]
    exact ⟨n, hn⟩
  · have hp2 : s.penDown = false := by simpa using hp
    rw [if_pos (by simp [hp2])]
    refine ⟨n, ?_⟩
    show (s.gcode ++ [Instr.lower]).filter Instr.isTool = _
    rw [List.filter_append, hn, hp2]
    simp [Instr.isTool]

theorem ToolInv_motion {s : PenState} (h : ToolInv s) (i : Instr) (hi : i.isTool = false)
    (f : Bool) (x y : JNum) :
    ToolInv { s with gcode := s.gcode ++ [i], firstMove := f, prevX := x, prevY := y } := by
  obtain ⟨n, hn⟩ := h
  refine ⟨n, ?_⟩
  show (s.gcode ++ [i]).filter Instr.isTool = _
  rw [List.filter_append, hn]
  simp [hi]

theorem ToolInv_prev {s : PenState} (h : ToolInv s) (x y : JNum) :
    ToolInv { s with prevX := x, prevY := y } := h

theorem ToolInv_apiCurveBody (bx by_ sc : JNum) (cmd : Segment) (t : ℚ) {s : PenState}
    (h : ToolInv s) : ToolInv (apiCurveBody bx by_ sc cmd t s) := by
  unfold apiCurveBody
  simp only
  split
  · exact ToolInv_motion h (.draw _ _) rfl s.firstMove _ _
  · exact h

theorem ToolInv_apiCurveLoop (bx by_ sc : JNum) (cmd : Segment) (steps : Nat) :
    ∀ (fuel : Nat) (t : ℚ) (s : PenState), ToolInv s →
      ToolInv (apiCurveLoop bx by_ sc cmd steps fuel t s) := by
  intro fuel
  induction fuel with
  | zero => intro t s h; exact h
  | succ n ih =>
    intro t s h
    unfold apiCurveLoop
    split
    · exact ih _ _ (ToolInv_apiCurveBody bx by_ sc cmd t h)
    · exact h

theorem ToolInv_apiStep (bx by_ sc : JNum) (steps : Nat) {s : PenState} (h : ToolInv s)
    (cmd : Segment) : ToolInv (apiStep bx by_ sc steps s cmd) := by
  cases cmd with
  | moveTo cx cy =>
    have hl := (ToolInv_apiLift h).1
    simp only [apiStep]
    split
    · exact ToolInv_motion hl (.travel _ _) rfl false _ _
    · exact ToolInv_prev hl _ _
  | lineTo cx cy =>
    have hl := ToolInv_apiLower h
    simp only [apiStep]
    split
    · exact ToolInv_motion hl (.draw _ _) rfl (apiLower s).firstMove _ _
    · exact hl
  | quadTo x1 y1 x y => exact ToolInv_apiCurveLoop _ _ _ _ _ _ _ _ (ToolInv_apiLower h)
  | cubicTo x1 y1 x2 y2 x y => exact h
  | closePath => exact (ToolInv_apiLift h).1

theorem ToolInv_foldl (bx by_ sc : JNum) (steps : Nat) :
    ∀ (cmds : List Segment) (s : PenState), ToolInv s →
      ToolInv (cmds.foldl (apiStep bx by_ sc steps) s) := by
  intro cmds
  induction cmds with
  | nil => intro s h; exact h
  | cons cmd rest ih => intro s h; exact ih _ (ToolInv_apiStep bx by_ sc steps h cmd)

/-! ### Horizontal layout -/

theorem lineBody_zip (c : Layout) (font : Font) (sc by_ : JNum) :
    ∀ (chars : List Char) (x : JNum),
      lineBody c font sc by_ chars x
        = (List.zipWith (fun ch ox => charLines c font sc ox by_ ch) chars
            (origins c font sc chars x)).flatten := by
  intro chars
  induction chars with
  | nil => intro x; rfl
  | cons ch rest ih =>
    intro x
    simp only [lineBody, origins, List.zipWith_cons_cons, List.flatten_cons, ih]

theorem origins_fin (c : Layout) (font : Font) (s l : ℚ) (adv : Char → ℚ)
    (hl : c.letterSpacing = .fin l) :
    ∀ (chars : List Char),
      (∀ ch ∈ chars, ∃ g, font.charToGlyph ch = some g ∧ g.commands.isEmpty = false ∧
        g.advanceWidth = .fin (adv ch)) →
      ∀ (m : ℚ) (j : Nat), j < chars.length →
        (origins c font (.fin s) chars (.fin m))[j]?
          = some (.fin (m + ((chars.take j).map (fun ch => adv ch * s + l)).sum)) := by
  intro chars
  induction chars with
  | nil => intro _ m j hj; simp at hj
  | cons ch rest ih =>
    intro h m j hj
    obtain ⟨g, hg, he, ha⟩ := h ch (List.mem_cons_self _ _)
    have hr : ∀ ch ∈ rest, ∃ g, font.charToGlyph ch = some g ∧ g.commands.isEmpty = false ∧
        g.advanceWidth = .fin (adv ch) := fun a ha => h a (List.mem_cons_of_mem _ ha)
    have hn : charNext c font (.fin s) (.fin m) ch = .fin (m + (adv ch * s + l)) := by
      simp only [charNext, hg, he, Bool.false_eq_true, if_false, ha, hl, fin_mul, fin_add]
    cases j with
    | zero => simp [origins]
    | succ k =>
      have hk : k < rest.length := by simpa using hj
      simp only [origins, List.getElem?_cons_succ, hn, List.take_succ_cons, List.map_cons,
        List.sum_cons]
      rw [ih hr _ k hk, add_assoc]

/-! ### Translation -/

theorem isFinite_fin {x : JNum} (h : x.isFinite = true) : ∃ q : ℚ, x = .fin q := by
  cases x with
  | fin q => exact ⟨q, rfl⟩
  | _ => simp [JNum.isFinite] at h

theorem ShiftRel_apiLift {dx dy : ℚ} {s1 s2 : PenState} (h : ShiftRel dx dy s1 s2) :
    ShiftRel dx dy (apiLift s1) (apiLift s2) := by
  obtain ⟨hg, hp, hf, px, py, h1, h2, h3, h4⟩ := h
  unfold apiLift
  rw [hp]
  split
  · exact ⟨by simp [hg, Instr.shift], rfl, hf, px, py, h1, h2, h3, h4⟩
  · exact ⟨hg, hp, hf, px, py, h1, h2, h3, h4⟩

theorem ShiftRel_apiLower {dx dy : ℚ} {s1 s2 : PenState} (h : ShiftRel dx dy s1 s2) :
    ShiftRel dx dy (apiLower s1) (apiLower s2) := by
  obtain ⟨hg, hp, hf, px, py, h1, h2, h3, h4⟩ := h
  unfold apiLower
  rw [hp]
  split
  · exact ⟨by simp [hg, Instr.shift], rfl, hf, px, py, h1, h2, h3, h4⟩
  · exact ⟨hg, hp, hf, px, py, h1, h2, h3, h4⟩

theorem ShiftRel_draw {dx dy : ℚ} {s1 s2 : PenState} (h : ShiftRel dx dy s1 s2) (qx qy : ℚ) :
    ShiftRel dx dy
      (if ((JNum.fin qx).strictNe s1.prevX || (JNum.fin qy).strictNe s1.prevY) = true then
        { s1 with gcode := s1.gcode ++ [.draw (.fin qx) (.fin qy)], prevX := .fin qx,
                  prevY := .fin qy }
      else s1)
      (if ((JNum.fin (qx + dx)).strictNe s2.prevX || (JNum.fin (qy + dy)).strictNe s2.prevY)
          = true then
        { s2 with gcode := s2.gcode ++ [.draw (.fin (qx + dx)) (.fin (qy + dy))],
                  prevX := .fin (qx + dx), prevY := .fin (qy + dy) }
      else s2) := by
  obtain ⟨hg, hp, hf, px, py, h1, h2, h3, h4⟩ := h
  simp only [h1, h2, h3, h4, strictNe_fin, ne_eq, add_left_inj]
  split
  · exact ⟨by simp [hg, Instr.shift], hp, hf, qx, qy, rfl, rfl, rfl, rfl⟩
  · exact ⟨hg, hp, hf, px, py, h1, h2, h3, h4⟩

theorem apiSample_shift {dx dy : ℚ} {s1 s2 : PenState} (h : ShiftRel dx dy s1 s2)
    (bx by_ sc : ℚ) (cmd : Segment) (hc : cmd.isFinite = true) (t : ℚ) :
    ∃ qx qy : ℚ, apiSample (.fin bx) (.fin by_) (.fin sc) cmd t s1 = (.fin qx, .fin qy) ∧
      apiSample (.fin (bx + dx)) (.fin (by_ + dy)) (.fin sc) cmd t s2
        = (.fin (qx + dx), .fin (qy + dy)) := by
  obtain ⟨_, _, _, px, py, h1, h2, h3, h4⟩ := h
  cases cmd with
  | moveTo x y => exact ⟨px, py, by simp [apiSample, h1, h2], by simp [apiSample, h3, h4]⟩
  | lineTo x y => exact ⟨px, py, by simp [apiSample, h1, h2], by simp [apiSample, h3, h4]⟩
  | closePath => exact ⟨px, py, by simp [apiSample, h1, h2], by simp [apiSample, h3, h4]⟩
  | quadTo x1 y1 x y =>
    simp only [Segment.isFinite, Bool.and_eq_true] at hc
    obtain ⟨a1, rfl⟩ := isFinite_fin hc.1.1.1
    obtain ⟨b1, rfl⟩ := isFinite_fin hc.1.1.2
    obtain ⟨a, rfl⟩ := isFinite_fin hc.1.2
    obtain ⟨b, rfl⟩ := isFinite_fin hc.2
    refine ⟨(1 - t) * (1 - t) * px + 2 * (1 - t) * t * (bx + a1 * sc) + t * t * (bx + a * sc),
      (1 - t) * (1 - t) * py + 2 * (1 - t) * t * (by_ - b1 * sc) + t * t * (by_ - b * sc),
      ?_, ?_⟩
    · simp only [apiSample, h1, h2, fin_mul, fin_add, fin_sub, quadBlend_fin]
    · simp only [apiSample, h3, h4, fin_mul, fin_add, fin_sub, quadBlend_fin]
      refine Prod.ext ?_ ?_ <;> exact congrArg JNum.fin (by ring)
  | cubicTo x1 y1 x2 y2 x y =>
    simp only [Segment.isFinite, Bool.and_eq_true] at hc
    obtain ⟨a1, rfl⟩ := isFinite_fin hc.1.1.1.1.1
    obtain ⟨b1, rfl⟩ := isFinite_fin hc.1.1.1.1.2
    obtain ⟨a2, rfl⟩ := isFinite_fin hc.1.1.1.2
    obtain ⟨b2, rfl⟩ := isFinite_fin hc.1.1.2
    obtain ⟨a, rfl⟩ := isFinite_fin hc.1.2
    obtain ⟨b, rfl⟩ := isFinite_fin hc.2
    refine ⟨(1 - t) ^ 3 * px + 3 * (1 - t) ^ 2 * t * (bx + a1 * sc)
        + 3 * (1 - t) * t * t * (bx + a2 * sc) + t ^ 3 * (bx + a * sc),
      (1 - t) ^ 3 * py + 3 * (1 - t) ^ 2 * t * (by_ - b1 * sc)
        + 3 * (1 - t) * t * t * (by_ - b2 * sc) + t ^ 3 * (by_ - b * sc), ?_, ?_⟩
    · simp only [apiSample, h1, h2, fin_mul, fin_add, fin_sub, cubicBlend_fin]
    · simp only [apiSample, h3, h4, fin_mul, fin_add, fin_sub, cubicBlend_fin]
      refine Prod.ext ?_ ?_ <;> exact congrArg JNum.fin (by ring)

theorem ShiftRel_apiCurveBody {dx dy : ℚ} {s1 s2 : PenState} (h : ShiftRel dx dy s1 s2)
    (bx by_ sc : ℚ) (cmd : Segment) (hc : cmd.isFinite = true) (t : ℚ) :
    ShiftRel dx dy (apiCurveBody (.fin bx) (.fin by_) (.fin sc) cmd t s1)
      (apiCurveBody (.fin (bx + dx)) (.fin (by_ + dy)) (.fin sc) cmd t s2) := by
  obtain ⟨qx, qy, e1, e2⟩ := apiSample_shift h bx by_ sc cmd hc t
  unfold apiCurveBody
  simp only [e1, e2]
  exact ShiftRel_draw h qx qy

theorem ShiftRel_apiCurveLoop {dx dy : ℚ} (bx by_ sc : ℚ) (cmd : Segment)
    (hc : cmd.isFinite = true) (steps : Nat) :
    ∀ (fuel : Nat) (t : ℚ) (s1 s2 : PenState), ShiftRel dx dy s1 s2 →
      ShiftRel dx dy (apiCurveLoop (.fin bx) (.fin by_) (.fin sc) cmd steps fuel t s1)
        (apiCurveLoop (.fin (bx + dx)) (.fin (by_ + dy)) (.fin sc) cmd steps fuel t s2) := by
  intro fuel
  induction fuel with
  | zero => intro t s1 s2 h; exact h
  | succ n ih =>
    intro t s1 s2 h
    unfold apiCurveLoop
    split
    · exact ih _ _ _ (ShiftRel_apiCurveBody h bx by_ sc cmd hc t)
    · exact h

theorem ShiftRel_apiStep {dx dy : ℚ} {s1 s2 : PenState} (h : ShiftRel dx dy s1 s2)
    (bx by_ sc : ℚ) (steps : Nat) (cmd : Segment) (hc : cmd.isFinite = true) :
    ShiftRel dx dy (apiStep (.fin bx) (.fin by_) (.fin sc) steps s1 cmd)
      (apiStep (.fin (bx + dx)) (.fin (by_ + dy)) (.fin sc) steps s2 cmd) := by
  cases cmd with
  | moveTo x y =>
    simp only [Segment.isFinite, Bool.and_eq_true] at hc
    obtain ⟨a, rfl⟩ := isFinite_fin hc.1
    obtain ⟨b, rfl⟩ := isFinite_fin hc.2
    obtain ⟨hg, hp, hf, px, py, h1, h2, h3, h4⟩ := ShiftRel_apiLift h
    have ex : bx + dx + a * sc = (bx + a * sc) + dx := by ring
    have ey : by_ + dy - b * sc = (by_ - b * sc) + dy := by ring
    simp only [apiStep, fin_mul, fin_add, fin_sub, h1, h2, h3, h4, hf, strictNe_fin, ex, ey,
      ne_eq, add_left_inj]
    split
    · exact ⟨by simp [hg, Instr.shift], hp, rfl, _, _, rfl, rfl, rfl, rfl⟩
    · exact ⟨hg, hp, hf, _, _, rfl, rfl, rfl, rfl⟩
  | lineTo x y =>
    simp only [Segment.isFinite, Bool.and_eq_true] at hc
    obtain ⟨a, rfl⟩ := isFinite_fin hc.1
    obtain ⟨b, rfl⟩ := isFinite_fin hc.2
    have hl := ShiftRel_apiLower h
    have ex : bx + dx + a * sc = (bx + a * sc) + dx := by ring
    have ey : by_ + dy - b * sc = (by_ - b * sc) + dy := by ring
    simp only [apiStep, fin_mul, fin_add, fin_sub, ex, ey]
    exact ShiftRel_draw hl _ _
  | quadTo x1 y1 x y =>
    exact ShiftRel_apiCurveLoop bx by_ sc _ hc steps _ _ _ _ (ShiftRel_apiLower h)
  | cubicTo x1 y1 x2 y2 x y => exact h
  | closePath => exact ShiftRel_apiLift h

theorem ShiftRel_foldl {dx dy : ℚ} (bx by_ sc : ℚ) (steps : Nat) :
    ∀ (cmds : List Segment), (∀ cmd ∈ cmds, cmd.isFinite = true) →
      ∀ (s1 s2 : PenState), ShiftRel dx dy s1 s2 →
        ShiftRel dx dy (cmds.foldl (apiStep (.fin bx) (.fin by_) (.fin sc) steps) s1)
          (cmds.foldl (apiStep (.fin (bx + dx)) (.fin (by_ + dy)) (.fin sc) steps) s2) := by
  intro cmds
  induction cmds with
  | nil => intro _ s1 s2 h; exact h
  | cons cmd rest ih =>
    intro hc s1 s2 h
    exact ih (fun d hd => hc d (List.mem_cons_of_mem _ hd)) _ _
      (ShiftRel_apiStep h bx by_ sc steps cmd (hc cmd (List.mem_cons_self _ _)))

/-! ### The default formats -/

theorem applyOp_keeps (s : AppState) (op : FormatOp)
    (hc : s.formatTemplates "chumba" = some chumbaFormat)
    (hs : s.formatTemplates "stake" = some stakeFormat) :
    (applyOp s op).formatTemplates "chumba" = some chumbaFormat ∧
      (applyOp s op).formatTemplates "stake" = some stakeFormat := by
  cases op with
  | add input =>
    simp only [applyOp, handleAddFormat]
    split
    · exact ⟨hc, hs⟩
    · split
      · exact ⟨hc, hs⟩
      · rename_i hk
        have h1 : "chumba" ≠ input.key := by
          intro e
          apply hk
          simp [keyTaken, ← e, hc]
        have h2 : "stake" ≠ input.key := by
          intro e
          apply hk
          simp [keyTaken, ← e, hs]
        simp only [if_neg h1, if_neg h2]
        exact ⟨hc, hs⟩
  | delete key confirm =>
    simp only [applyOp, handleDeleteFormat]
    split
    · exact ⟨hc, hs⟩
    · rename_i hk
      simp only [not_or] at hk
      have h1 : "chumba" ≠ key := fun e => hk.1 e.symm
      have h2 : "stake" ≠ key := fun e => hk.2 e.symm
      split
      · exact ⟨hc, hs⟩
      · split
        · split
          · simp only [if_neg h1, if_neg h2]
            exact ⟨hc, hs⟩
          · simp only [if_neg h1, if_neg h2]
            exact ⟨hc, hs⟩
        · exact ⟨hc, hs⟩

theorem runOps_keeps (ops : List FormatOp) :
    ∀ s : AppState, s.formatTemplates "chumba" = some chumbaFormat →
      s.formatTemplates "stake" = some stakeFormat →
      (runOps s ops).formatTemplates "chumba" = some chumbaFormat ∧
        (runOps s ops).formatTemplates "stake" = some stakeFormat := by
  induction ops with
  | nil => intro s hc hs; exact ⟨hc, hs⟩
  | cons op rest ih =>
    intro s hc hs
    have h := applyOp_keeps s op hc hs
    exact ih _ h.1 h.2

/-! ### Required and optional fields -/

theorem nodup_toggle_on {l : List String} (h : l.Nodup) {field : String} (hf : field ∉ l) :
    (l ++ [field]).Nodup := by
  rw [List.nodup_append]
  refine ⟨h, List.nodup_singleton _, ?_⟩
  intro a ha hb
  rw [List.mem_singleton] at hb
  subst hb
  exact hf ha

theorem disjoint_toggle_on {cur other : List String} (hd : List.Disjoint cur other)
    (field : String) :
    List.Disjoint (cur ++ [field]) (other.filter (fun f => decide (f ≠ field))) := by
  intro a ha hb
  have hb2 := List.mem_filter.mp hb
  rcases List.mem_append.mp ha with h | h
  · exact hd h hb2.1
  · rw [List.mem_singleton] at h
    subst h
    simp at hb2

theorem disjoint_toggle_off {cur other : List String} (hd : List.Disjoint cur other)
    (field : String) : List.Disjoint (cur.filter (fun f => decide (f ≠ field))) other := by
  intro a ha hb
  exact hd (List.mem_filter.mp ha).1 hb

theorem not_mem_filter_ne (l : List String) (field : String) :
    field ∉ l.filter (fun f => decide (f ≠ field)) := by
  intro h
  have := (List.mem_filter.mp h).2
  simp at this

/-! ### The single-stroke scenario -/

theorem commands_glyphStroke :
    glyphStroke.commands = [.moveTo (.fin 0) (.fin 0), .lineTo (.fin 0) (.fin (-7))] := by
  have hs : JNum.fin 10 / JNum.fin 1000 = JNum.fin (1 / 100) := by
    rw [fin_div _ _ (by norm_num)]; norm_num
  simp only [glyphStroke, getPath, strokeOutline, List.map, Segment.toOutput, hs, fin_mul,
    fin_add, fin_sub]
  norm_num

theorem apiProgram_stroke :
    apiProgram scenarioLayout strokeFont "I"
      = apiHeader ++ [.lower, .draw (.fin 1) (.fin (107 / 100)), .lift] ++ apiFooter := by
  have hl : retainedLines "I" = [['I']] := by decide
  have ht : trim ['I'] = ['I'] := by decide
  have hs : scenarioLayout.fontSize / strokeFont.unitsPerEm = JNum.fin (1 / 100) :=
    scale_scenarioLayout
  have hg : strokeFont.charToGlyph 'I' = some glyphStroke := rfl
  simp only [apiProgram, hl, hs, apiLines, ht]
  simp [apiChars, hg, commands_glyphStroke, apiGlyph, apiStep, apiLift, apiLower, scenarioLayout,
    Layout.lineHeight, apiHeader, apiFooter]
  norm_num

theorem apiThrows_stroke : apiThrows strokeFont "I" = none := by
  have hl : retainedLines "I" = [['I']] := by decide
  have ht : trim ['I'] = ['I'] := by decide
  have hg : strokeFont.charToGlyph 'I' = some glyphStroke := rfl
  simp [apiThrows, hl, ht, glyphThrows, hg, commands_glyphStroke, parsePathData,
    Segment.isFinite, JNum.isFinite]

/-! ### Path data that does not parse -/

theorem glyphThrows_of_bad (font : Font) (ch : Char) (glyph : Glyph) (cmd : Segment)
    (hg : font.charToGlyph ch = some glyph) (hcmd : cmd ∈ glyph.commands)
    (hbad : cmd.isFinite = false) : glyphThrows font ch = some "SyntaxError" := by
  have he : glyph.commands.isEmpty = false := by
    cases hc : glyph.commands with
    | nil => rw [hc] at hcmd; simp at hcmd
    | cons a as => rfl
  have ha : glyph.commands.all Segment.isFinite = false := by
    rw [List.all_eq_false]
    exact ⟨cmd, hcmd, by simp [hbad]⟩
  simp [glyphThrows, hg, he, parsePathData, ha]

theorem apiThrows_of_bad (font : Font) (text : String) (l : List Char) (ch : Char)
    (glyph : Glyph) (cmd : Segment) (hline : l ∈ retainedLines text) (hch : ch ∈ trim l)
    (hg : font.charToGlyph ch = some glyph) (hcmd : cmd ∈ glyph.commands)
    (hbad : cmd.isFinite = false) : ∃ message, apiThrows font text = some message := by
  have h1 : ((trim l).findSome? (glyphThrows font)).isSome = true := by
    rw [List.findSome?_isSome_iff]
    exact ⟨ch, hch, by rw [glyphThrows_of_bad font ch glyph cmd hg hcmd hbad]; rfl⟩
  have h2 : (apiThrows font text).isSome = true := by
    unfold apiThrows
    rw [List.findSome?_isSome_iff]
    exact ⟨l, hline, h1⟩
  exact Option.isSome_iff_exists.mp h2

/-! ### The flattening loop in doubles -/

theorem quad_sample_below (t p : ℚ) (h0 : 0 ≤ t) (h1 : t < 1) (hp : p < 10) :
    (1 - t) * (1 - t) * p + 2 * (1 - t) * t * 5 + t * t * 10 < 10 := by
  have hu : 0 < 1 - t := by linarith
  have hv : 1 - t ≤ 1 := by linarith
  have key : (1 - t) * p < 10 := by
    by_cases hp0 : 0 ≤ p
    · nlinarith
    · push_neg at hp0
      nlinarith
  nlinarith

theorem apiCurveBody_below (t p : ℚ) (h0 : 0 ≤ t) (h1 : t < 1) (hp : p < 10) (s : PenState)
    (hs : s.prevX = .fin p) :
    ∃ q : ℚ, (apiCurveBody (.fin 0) (.fin 0) (.fin 1)
        (.quadTo (.fin 5) (.fin (-10)) (.fin 10) (.fin 0)) t s).prevX = .fin q ∧ q < 10 := by
  unfold apiCurveBody
  simp only
  split
  · refine ⟨(1 - t) * (1 - t) * p + 2 * (1 - t) * t * 5 + t * t * 10, ?_,
      quad_sample_below t p h0 h1 hp⟩
    simp [apiSample, hs, quadBlend]
  · exact ⟨p, hs, hp⟩

theorem apiCurveLoop_below (steps : Nat) (h0 : 0 < steps) :
    ∀ (fuel k : Nat), k + fuel ≤ steps → ∀ (s : PenState) (p : ℚ), s.prevX = .fin p → p < 10 →
      ∃ q : ℚ, (apiCurveLoop (.fin 0) (.fin 0) (.fin 1)
        (.quadTo (.fin 5) (.fin (-10)) (.fin 10) (.fin 0)) steps fuel ((k : ℚ) / (steps : ℚ))
        s).prevX = .fin q ∧ q < 10 := by
  have hpos : (0 : ℚ) < (steps : ℚ) := by exact_mod_cast h0
  intro fuel
  induction fuel with
  | zero => intro k _ s p hs hp; exact ⟨p, hs, hp⟩
  | succ fuel ih =>
    intro k hk s p hs hp
    have hlt : (k : ℚ) / (steps : ℚ) < 1 := by
      rw [div_lt_one hpos]
      exact_mod_cast (by omega : k < steps)
    have hge : (0 : ℚ) ≤ (k : ℚ) / (steps : ℚ) := by positivity
    obtain ⟨q, hq, hq10⟩ := apiCurveBody_below _ p hge hlt hp s hs
    have hnext : (k : ℚ) / (steps : ℚ) + 1 / (steps : ℚ) = ((k + 1 : Nat) : ℚ) / (steps : ℚ) := by
      push_cast
      ring
    unfold apiCurveLoop
    rw [if_pos hlt.le, hnext]
    exact ih (k + 1) (by omega) _ q hq hq10

theorem length_doubleTimes_two : (doubleTimes 2).length = 3 := by
  set_option maxRecDepth 100000 in decide

theorem length_doubleTimes_three : (doubleTimes 3).length = 4 := by
  set_option maxRecDepth 100000 in decide

theorem length_doubleTimes_twenty : (doubleTimes 20).length = 20 := by
  set_option maxRecDepth 100000 in decide

/-! ## The claims -/

/-- C1 (pen-state invariant): whenever the API handler returns a program, scanning its text line
by line from the start with the pen up never meets a draw line while the pen is up, and the pen
is up after the last line. -/
theorem C1_pen_state_invariant (c : Layout) (load : String → Except String Font) (req : Request)
    (g : String) (h : (handler c load req).body = .gcode g) :
    penScan false (splitNewline g.data) = some false := by
  obtain ⟨_, font, text, _, _, _, rfl⟩ := handler_gcode_text c load req g h
  rw [penScan_of_plain _ (plain_apiProgram c font text)]
  exact penRun_apiProgram c font text

/-- Witness of C1: the request for the text `I I` with the scenario font. -/
theorem C1_pen_state_invariant_witness :
    (handler apiLayout sampleLoad (sampleRequest "I I")).body
        = .gcode (render (apiProgram apiLayout scenarioFont "I I")) ∧
      penScan false (splitNewline (render (apiProgram apiLayout scenarioFont "I I")).data)
        = some false :=
  ⟨rfl, C1_pen_state_invariant apiLayout sampleLoad (sampleRequest "I I") _ rfl⟩

/-- C2 (faithful tracing), as the code behaves, for a glyph outline that begins with a `MoveTo`
away from the glyph origin and has no other `MoveTo`: after every command of the outline, after
every pen-lower and after every sample of a flattening loop, the current position of the
sequencer, from which the next stroke is drawn, is the target of the most recent travel or draw
line of the program; so every draw line is emitted with the machine at the start of its stroke
and the pen is lowered at the start point of the contour. -/
theorem C2_single_contour_traced (baseX baseY scale : JNum) (steps : Nat) (g0 : List Instr)
    (cx cy : JNum) (rest : List Segment)
    (hfar : ((baseX + cx * scale).strictNe baseX || (baseY - cy * scale).strictNe baseY) = true)
    (hrest : ∀ cmd ∈ rest, cmd.isMoveTo = false) :
    (∀ k : Nat, Synced ((Segment.moveTo cx cy :: rest.take k).foldl
        (apiStep baseX baseY scale steps) ⟨g0, false, true, baseX, baseY⟩)) ∧
      (∀ k : Nat, Synced (apiLower ((Segment.moveTo cx cy :: rest.take k).foldl
        (apiStep baseX baseY scale steps) ⟨g0, false, true, baseX, baseY⟩))) ∧
      (∀ (s : PenState) (cmd : Segment) (t : ℚ), Synced s →
        Synced (apiCurveBody baseX baseY scale cmd t s)) := by
  have hk : ∀ k : Nat, Synced ((Segment.moveTo cx cy :: rest.take k).foldl
      (apiStep baseX baseY scale steps) ⟨g0, false, true, baseX, baseY⟩) := by
    intro k
    rw [List.foldl_cons]
    exact Synced_foldl baseX baseY scale steps _ _
      (Synced_first_moveTo baseX baseY scale steps g0 cx cy hfar)
      (fun cmd hc => hrest cmd (List.mem_of_mem_take hc))
  exact ⟨hk, fun k => Synced_apiLower (hk k), fun s cmd t h => Synced_apiCurveBody _ _ _ cmd t h⟩

/-- Witness of C2: a single stroke entered one unit right of the origin. -/
theorem C2_single_contour_traced_witness :
    (((JNum.fin 0 + JNum.fin 1 * JNum.fin 1).strictNe (.fin 0)
        || (JNum.fin 0 - JNum.fin 0 * JNum.fin 1).strictNe (.fin 0)) = true) ∧
      (∀ cmd ∈ [Segment.lineTo (.fin 1) (.fin 1)], cmd.isMoveTo = false) ∧
      ((∀ k : Nat, Synced ((Segment.moveTo (.fin 1) (.fin 0)
          :: [Segment.lineTo (.fin 1) (.fin 1)].take k).foldl
          (apiStep (.fin 0) (.fin 0) (.fin 1) 20) ⟨[], false, true, .fin 0, .fin 0⟩)) ∧
        (∀ k : Nat, Synced (apiLower ((Segment.moveTo (.fin 1) (.fin 0)
          :: [Segment.lineTo (.fin 1) (.fin 1)].take k).foldl
          (apiStep (.fin 0) (.fin 0) (.fin 1) 20) ⟨[], false, true, .fin 0, .fin 0⟩))) ∧
        (∀ (s : PenState) (cmd : Segment) (t : ℚ), Synced s →
          Synced (apiCurveBody (.fin 0) (.fin 0) (.fin 1) cmd t s))) :=
  ⟨by simp, by simp [Segment.isMoveTo],
    C2_single_contour_traced (.fin 0) (.fin 0) (.fin 1) 20 [] (.fin 1) (.fin 0)
      [Segment.lineTo (.fin 1) (.fin 1)] (by simp) (by simp [Segment.isMoveTo])⟩

/-- C2 as stated fails on the glyph `I` of the scenario, `MoveTo(0,0)`, `LineTo(0,700)`, placed
at `(1, 1)`: after the `MoveTo` the stroke starts from `(1, 1)`, no travel or draw line precedes,
and the `LineTo` lowers the pen and emits the draw to `(1, -6)`. -/
theorem C2_stroke_without_travel :
    (let s := [Segment.moveTo (.fin 0) (.fin 0)].foldl
        (apiStep (.fin 1) (.fin 1) (.fin (1 / 100)) 20) ⟨apiHeader, false, true, .fin 1, .fin 1⟩
     (s.prevX, s.prevY) = (JNum.fin 1, JNum.fin 1) ∧ machinePos s.gcode = none ∧
      (apiStep (.fin 1) (.fin 1) (.fin (1 / 100)) 20 s (.lineTo (.fin 0) (.fin 700))).gcode
        = s.gcode ++ [.lower, .draw (.fin 1) (.fin (-6))]) ∧
      machinePos (apiHeader ++ [.lower]) ≠ some (JNum.fin 1, JNum.fin 1) := by
  refine ⟨?_, by decide⟩
  simp [apiStep, apiLift, apiLower, machinePos, posStep, apiHeader]
  norm_num

/-- C3 (single straight glyph), as the code behaves by design: with 1000 units per em, font size
10 and margins 1, for the glyph `I` whose outline is `MoveTo(0,0)`, `LineTo(0,700)`, the path
data the API handler reads is `M0 0 L0 -7`; its `MoveTo` targets the glyph origin `(1, 1)` and
emits nothing, and the text `I` compiles to exactly the header, one pen-lower, one draw line,
one pen-lift and the footer, with no travel line.  The target of the draw is left open. -/
theorem C3_single_glyph_program :
    glyphStroke.commands = [.moveTo (.fin 0) (.fin 0), .lineTo (.fin 0) (.fin (-7))] ∧
      apiStep (.fin 1) (.fin 1) (.fin (1 / 100)) 20 ⟨apiHeader, false, true, .fin 1, .fin 1⟩
          (.moveTo (.fin 0) (.fin 0))
        = ⟨apiHeader, false, true, .fin 1, .fin 1⟩ ∧
      ∃ x y : JNum,
        apiProgram scenarioLayout strokeFont "I"
          = apiHeader ++ [.lower, .draw x y, .lift] ++ apiFooter ∧
        handler scenarioLayout strokeLoad (sampleRequest "I")
          = ⟨200, .gcode (render (apiHeader ++ [.lower, .draw x y, .lift] ++ apiFooter))⟩ ∧
        ∀ a b, Instr.travel a b ∉ apiProgram scenarioLayout strokeFont "I" := by
  refine ⟨commands_glyphStroke, ?_, .fin 1, .fin (107 / 100), apiProgram_stroke, ?_, ?_⟩
  · simp [apiStep, apiLift]
  · rw [handler_ok scenarioLayout strokeLoad (sampleRequest "I") "I" sampleProfile strokeFont
      rfl rfl (by decide) rfl rfl rfl apiThrows_stroke, apiProgram_stroke]
  · intro a b
    rw [apiProgram_stroke]
    simp [apiHeader, apiFooter]

/-- C3 as stated fails: the program of the scenario is the header, a pen-lower, a draw to
`(1, 1.07)`, a pen-lift and the footer.  It is not the header, a travel to `(1, 1)`, a
pen-lower, a draw to `(1, -6)`, a pen-lift and the footer: it holds no travel line, and the
handler scales and flips the coordinates of `getPath`, `(0, -7)`, once more,
`1 - (-7) * 0.01 = 1.07`.  The client sequencer writes the coordinates of `getPath(1, 1, 10)` as
they are and draws to `(1, -6)`. -/
theorem C3_no_travel_to_origin :
    handler scenarioLayout strokeLoad (sampleRequest "I")
        = ⟨200, .gcode (render (apiHeader ++ [.lower, .draw (.fin 1) (.fin (107 / 100)), .lift]
            ++ apiFooter))⟩ ∧
      apiProgram scenarioLayout strokeFont "I"
        ≠ apiHeader ++ [.travel (.fin 1) (.fin 1), .lower, .draw (.fin 1) (.fin (-6)), .lift]
            ++ apiFooter ∧
      (∀ x y, Instr.travel x y ∉ apiProgram scenarioLayout strokeFont "I") ∧
      Instr.draw (.fin 1) (.fin (-6)) ∉ apiProgram scenarioLayout strokeFont "I" ∧
      clientGlyph (.fin 1) (.fin 1) 2 [] (glyphStroke.getPath (.fin 1) (.fin 1) (.fin 10))
        = [.lower, .draw (.fin 1) (.fin (-6)), .lift] := by
  refine ⟨?_, ?_, ?_, ?_, ?_⟩
  · rw [handler_ok scenarioLayout strokeLoad (sampleRequest "I") "I" sampleProfile strokeFont
      rfl rfl (by decide) rfl rfl rfl apiThrows_stroke, apiProgram_stroke]
  · rw [apiProgram_stroke]
    simp [apiHeader, apiFooter]
  · intro x y
    rw [apiProgram_stroke]
    simp [apiHeader, apiFooter]
  · rw [apiProgram_stroke]
    simp [apiHeader, apiFooter]
    norm_num
  · have hs : JNum.fin 10 / JNum.fin 1000 = JNum.fin (1 / 100) := by
      rw [fin_div _ _ (by norm_num)]; norm_num
    simp only [glyphStroke, getPath, strokeOutline, List.map, Segment.toOutput, hs, fin_mul,
      fin_add, fin_sub]
    simp [clientGlyph, clientStep]
    norm_num

/-- C4 (missing or empty outline still advances), evaluated on the text `I I` where the space
has advance 300 and an empty outline: the second `I` is drawn at X `7.1`, the origin it has in
`II`, not at `10.2`; the space did not advance the cursor. -/
theorem C4_space_does_not_advance :
    apiProgram scenarioLayout scenarioFont "I I"
        = apiHeader ++ [.lower, .draw (.fin 1) (.fin (-6)), .lift,
            .lower, .draw (.fin (71 / 10)) (.fin (-6)), .lift] ++ apiFooter ∧
      apiProgram scenarioLayout scenarioFont "I I" = apiProgram scenarioLayout scenarioFont "II" ∧
      (apiChars scenarioLayout scenarioFont (.fin (1 / 100)) (.fin 1) [' '] (.fin (71 / 10)) []).1
        = JNum.fin (71 / 10) := by
  refine ⟨apiProgram_I_I, ?_, ?_⟩
  · rw [apiProgram_I_I, apiProgram_II]
  · simp [apiChars, scenarioFont, glyphSpace]

/-- C5 (blank-line invisibility): the program of the API handler is the header, then, for the
`k`-th line (from 0) among the lines of the text that are non-blank after trimming, the lines of
that trimmed line laid out from `marginX` at the vertical origin
`marginY + k * (fontSize * 1.2)`, then the footer; blank lines take no slot, so in `A\n\nB` the
line `B` is at `marginY + 1 * lineHeight`, as is the second line of `I\nI`. -/
theorem C5_blank_line_invisibility (c : Layout) (font : Font) (text : String) :
    apiProgram c font text
        = apiHeader ++
          ((((splitNewline text.data).filter (fun l => decide (trim l ≠ []))).enum.map (fun p =>
            lineBody c font (c.fontSize / font.unitsPerEm)
              (c.marginY + .fin (p.1 : ℚ) * (c.fontSize * .fin (12 / 10))) (trim p.2)
              c.marginX)).flatten) ++ apiFooter ∧
      c.lineHeight = c.fontSize * .fin (12 / 10) ∧
      apiProgram c font "A\n\nB"
        = apiHeader ++
          (lineBody c font (c.fontSize / font.unitsPerEm)
              (c.marginY + .fin 0 * c.lineHeight) ['A'] c.marginX ++
            lineBody c font (c.fontSize / font.unitsPerEm)
              (c.marginY + .fin 1 * c.lineHeight) ['B'] c.marginX) ++ apiFooter ∧
      apiProgram c font "I\nI"
        = apiHeader ++
          (lineBody c font (c.fontSize / font.unitsPerEm)
              (c.marginY + .fin 0 * c.lineHeight) ['I'] c.marginX ++
            lineBody c font (c.fontSize / font.unitsPerEm)
              (c.marginY + .fin 1 * c.lineHeight) ['I'] c.marginX) ++ apiFooter := by
  refine ⟨apiProgram_eq c font text, rfl, ?_, ?_⟩
  · rw [apiProgram_eq]
    have h : nonBlankLines "A\n\nB" = [['A'], ['B']] := by decide
    have ha : trim ['A'] = ['A'] := by decide
    have hb : trim ['B'] = ['B'] := by decide
    simp [layoutBody, h, ha, hb, List.enum, List.enumFrom, Layout.lineHeight]
  · rw [apiProgram_eq]
    have h : nonBlankLines "I\nI" = [['I'], ['I']] := by decide
    have ha : trim ['I'] = ['I'] := by decide
    simp [layoutBody, h, ha, List.enum, List.enumFrom, Layout.lineHeight]

/-- C6 (request validation), evaluated on a request with a non-empty text and a profile that
carries only `fontPath`: the API handler rejects it with status 400, whatever the constants and
the font loader, while the client compiler accepts the same profile; a POST request gets status
400 exactly when its text is missing or empty, its profile is missing, or its profile has no
(or an empty) `font`. -/
theorem C6_path_only_profile_rejected (c : Layout) (load : String → Except String Font) :
    handler c load ⟨"POST", some "I", some pathOnlyProfile⟩
        = ⟨400, .error "Missing required parameters"⟩ ∧
      (∀ req : Request, req.method = "POST" →
        ((handler c load req).status = 400 ↔
          (truthy req.text = false ∨ req.profile = none ∨
            ∃ p, req.profile = some p ∧ truthy p.font = false))) ∧
      (∀ font, load "/fonts/Quicksand.ttf" = .ok font →
        generateGcode load "I" (some pathOnlyProfile)
          = .ok (clientRender (clientProgram font "I"))) := by
  refine ⟨rfl, ?_, ?_⟩
  · intro req hm
    unfold handler
    rw [if_neg (by simp [hm])]
    cases hp : req.profile with
    | none => simp
    | some p =>
      simp only
      by_cases hv : (!truthy req.text || !truthy p.font) = true
      · rw [if_pos hv]
        simp only [Bool.or_eq_true, Bool.not_eq_true'] at hv
        simpa using hv
      · rw [if_neg hv]
        simp only [Bool.or_eq_true, Bool.not_eq_true', not_or, Bool.not_eq_false] at hv
        cases load (fontLocator p) with
        | error message => simp [hv.1, hv.2]
        | ok font =>
          simp only
          cases apiThrows font (req.text.getD "") <;> simp [hv.1, hv.2]
  · intro font hl
    have hloc : fontLocator pathOnlyProfile = "/fonts/Quicksand.ttf" := by decide
    simp only [generateGcode, hloc, hl]
    rfl

/-- C7 as stated fails: the request with the text of two blank lines, a profile that names a
font and a font that loads is not rejected; the API handler returns status 200 and the program
made of the header and the footer. -/
theorem C7_blank_text_accepted :
    handler apiLayout sampleLoad (sampleRequest " \n ")
        = ⟨200, .gcode ("G21\nG90\nF20000\nG1G90 Z1.0F20000\nG1G90 Z1.0F20000\n"
            ++ "G1G90 Z1.0F20000\nG90 G0 X0 Y0\nM30\n")⟩ ∧
      (handler apiLayout sampleLoad (sampleRequest " \n ")).status ≠ 400 := by
  have h : handler apiLayout sampleLoad (sampleRequest " \n ")
      = ⟨200, .gcode (render (apiProgram apiLayout scenarioFont " \n "))⟩ := rfl
  have hb : apiProgram apiLayout scenarioFont " \n " = apiHeader ++ apiFooter :=
    apiProgram_blank _ _ _ (by decide)
  rw [h, hb]
  exact ⟨by decide, by decide⟩

/-- C7, as the code behaves: a POST request whose text is non-empty but has only empty or
whitespace-only lines, with a profile that names a font and a font that loads, is accepted: the
API handler returns status 200 and the program made of exactly the header and the footer. -/
theorem C7_blank_text_program (c : Layout) (load : String → Except String Font) (req : Request)
    (text : String) (profile : Profile) (font : Font) (hm : req.method = "POST")
    (ht : req.text = some text) (hne : text ≠ "") (hp : req.profile = some profile)
    (hf : truthy profile.font = true) (hl : load (fontLocator profile) = .ok font)
    (hb : ∀ l ∈ splitNewline text.data, trim l = []) :
    handler c load req
      = ⟨200, .gcode ("G21\nG90\nF20000\nG1G90 Z1.0F20000\nG1G90 Z1.0F20000\n"
          ++ "G1G90 Z1.0F20000\nG90 G0 X0 Y0\nM30\n")⟩ := by
  rw [handler_ok c load req text profile font hm ht hne hp hf hl (apiThrows_blank font text hb),
    apiProgram_blank c font text hb]
  rfl

/-- Witness of C7: the text of two blank lines. -/
theorem C7_blank_text_program_witness :
    (sampleRequest " \n ").method = "POST" ∧ (" \n " : String) ≠ "" ∧
      truthy sampleProfile.font = true ∧
      (∀ l ∈ splitNewline (" \n " : String).data, trim l = []) ∧
      handler apiLayout sampleLoad (sampleRequest " \n ")
        = ⟨200, .gcode ("G21\nG90\nF20000\nG1G90 Z1.0F20000\nG1G90 Z1.0F20000\n"
            ++ "G1G90 Z1.0F20000\nG90 G0 X0 Y0\nM30\n")⟩ :=
  ⟨rfl, by decide, rfl, by decide,
    C7_blank_text_program apiLayout sampleLoad (sampleRequest " \n ") " \n " sampleProfile
      scenarioFont rfl rfl (by decide) rfl rfl rfl (by decide)⟩

/-- C8 (font load failure is atomic): when the font load of a validated POST request fails, the
API handler answers status 500 with the message `Font loading error: ` followed by the cause and
no program, and the client compiler throws for every text instead of returning a program. -/
theorem C8_font_load_failure (c : Layout) (load : String → Except String Font) (req : Request)
    (profile : Profile) (message : String) (hm : req.method = "POST")
    (ht : truthy req.text = true) (hp : req.profile = some profile)
    (hf : truthy profile.font = true) (hl : load (fontLocator profile) = .error message) :
    handler c load req
        = ⟨500, .error ("Font loading error: " ++ ("Failed to load font: " ++ message))⟩ ∧
      (∀ g, (handler c load req).body ≠ .gcode g) ∧
      (∀ text, generateGcode load text (some profile)
        = .error ("Failed to generate G-code: " ++ message)) ∧
      (∀ text g, generateGcode load text (some profile) ≠ .ok g) := by
  have h1 : handler c load req
      = ⟨500, .error ("Font loading error: " ++ ("Failed to load font: " ++ message))⟩ := by
    unfold handler
    rw [if_neg (by simp [hm]), hp]
    simp only
    rw [if_neg (by simp [ht, hf]), hl]
  have h2 : ∀ text, generateGcode load text (some profile)
      = .error ("Failed to generate G-code: " ++ message) := by
    intro text
    unfold generateGcode
    simp only
    rw [if_neg (by simp [hf]), hl]
  refine ⟨h1, ?_, h2, ?_⟩
  · intro g
    rw [h1]
    simp
  · intro text g
    rw [h2]
    simp

/-- Witness of C8: a loader that always fails. -/
theorem C8_font_load_failure_witness :
    failingLoad (fontLocator sampleProfile) = .error "ENOENT" ∧
      handler apiLayout failingLoad (sampleRequest "I")
        = ⟨500, .error ("Font loading error: " ++ ("Failed to load font: " ++ "ENOENT"))⟩ ∧
      (∀ g, (handler apiLayout failingLoad (sampleRequest "I")).body ≠ .gcode g) ∧
      (∀ text, generateGcode failingLoad text (some sampleProfile)
        = .error ("Failed to generate G-code: " ++ "ENOENT")) ∧
      (∀ text g, generateGcode failingLoad text (some sampleProfile) ≠ .ok g) :=
  ⟨rfl, C8_font_load_failure apiLayout failingLoad (sampleRequest "I") sampleProfile "ENOENT"
    rfl rfl rfl rfl rfl⟩

/-- C9 (geometry errors abort compilation): when a character of a retained line of the text has a
glyph whose path data holds a command with a coordinate that is not a finite number, a validated
POST request whose font loads is answered with status 500 and the error
`Failed to generate G-code: ` followed by the message of the parser; no program is returned, so
no line is emitted for that command or for any other. -/
theorem C9_geometry_error_aborts (c : Layout) (load : String → Except String Font)
    (req : Request) (text : String) (profile : Profile) (font : Font) (l : List Char) (ch : Char)
    (glyph : Glyph) (cmd : Segment) (hm : req.method = "POST") (ht : req.text = some text)
    (hne : text ≠ "") (hp : req.profile = some profile) (hf : truthy profile.font = true)
    (hl : load (fontLocator profile) = .ok font) (hline : l ∈ retainedLines text)
    (hch : ch ∈ trim l) (hg : font.charToGlyph ch = some glyph) (hcmd : cmd ∈ glyph.commands)
    (hbad : cmd.isFinite = false) :
    (handler c load req).status = 500 ∧
      (∃ message,
        (handler c load req).body = .error ("Failed to generate G-code: " ++ message)) ∧
      ∀ g, (handler c load req).body ≠ .gcode g := by
  obtain ⟨message, hx⟩ := apiThrows_of_bad font text l ch glyph cmd hline hch hg hcmd hbad
  rw [handler_thrown c load req text profile font message hm ht hne hp hf hl hx]
  exact ⟨rfl, ⟨message, rfl⟩, fun g => by simp⟩

/-- Witness of C9: the request for the glyph with the damaged outline, `M100 0 LNaN 700`. -/
theorem C9_geometry_error_aborts_witness :
    (sampleRequest "?").method = "POST" ∧ ("?" : String) ≠ "" ∧
      truthy sampleProfile.font = true ∧ ['?'] ∈ retainedLines "?" ∧ '?' ∈ trim ['?'] ∧
      scenarioFont.charToGlyph '?' = some glyphBroken ∧
      Segment.lineTo .nan (.fin 700) ∈ glyphBroken.commands ∧
      (Segment.lineTo .nan (.fin 700)).isFinite = false ∧
      ((handler apiLayout sampleLoad (sampleRequest "?")).status = 500 ∧
        (∃ message, (handler apiLayout sampleLoad (sampleRequest "?")).body
          = .error ("Failed to generate G-code: " ++ message)) ∧
        ∀ g, (handler apiLayout sampleLoad (sampleRequest "?")).body ≠ .gcode g) :=
  ⟨rfl, by decide, rfl, by decide, by decide, rfl, by simp [glyphBroken], rfl,
    C9_geometry_error_aborts apiLayout sampleLoad (sampleRequest "?") "?" sampleProfile
      scenarioFont ['?'] '?' glyphBroken (.lineTo .nan (.fin 700)) rfl rfl (by decide) rfl rfl rfl
      (by decide) (by decide) rfl (by simp [glyphBroken]) rfl⟩

/-- C10 (program framing): a program returned by the API handler is exactly the header text,
the lines of the characters in layout order, and the footer text; it is a sequence of lines each
ended by a newline; and when no character of the retained lines is drawable it is exactly the
header followed by the footer. -/
theorem C10_program_framing (c : Layout) (load : String → Except String Font) (req : Request)
    (g : String) (h : (handler c load req).body = .gcode g) :
    ∃ profile font text, req.profile = some profile ∧ load (fontLocator profile) = .ok font ∧
      req.text = some text ∧
      g = "G21\nG90\nF20000\nG1G90 Z1.0F20000\nG1G90 Z1.0F20000\n"
          ++ render (layoutBody c font text) ++ "G1G90 Z1.0F20000\nG90 G0 X0 Y0\nM30\n" ∧
      (∃ lines : List (List Char), (∀ l ∈ lines, '\n' ∉ l) ∧
        g.data = (lines.map (fun l => l ++ ['\n'])).flatten) ∧
      ((∀ l ∈ nonBlankLines text, ∀ ch ∈ trim l, drawable font ch = false) →
        g = "G21\nG90\nF20000\nG1G90 Z1.0F20000\nG1G90 Z1.0F20000\n"
          ++ "G1G90 Z1.0F20000\nG90 G0 X0 Y0\nM30\n") := by
  obtain ⟨profile, font, text, hp, hl, ht, rfl⟩ := handler_gcode_text c load req g h
  have hh : render apiHeader = "G21\nG90\nF20000\nG1G90 Z1.0F20000\nG1G90 Z1.0F20000\n" := by
    decide
  have hf : render apiFooter = "G1G90 Z1.0F20000\nG90 G0 X0 Y0\nM30\n" := by decide
  refine ⟨profile, font, text, hp, hl, ht, ?_, ?_, ?_⟩
  · rw [apiProgram_eq, render_append, render_append, hh, hf]
  · refine ⟨(apiProgram c font text).map (fun i => i.text.data), ?_, ?_⟩
    · intro l hl
      obtain ⟨i, hi, rfl⟩ := List.mem_map.mp hl
      exact (plain_apiProgram c font text i hi).1
    · rw [render_data, List.map_map]
      rfl
  · intro hd
    rw [apiProgram_eq, layoutBody_nil_of_not_drawable c font text hd, render_append,
      render_append, hh, hf]
    simp [render]

/-- Witness of C10: the request for the text `I I` with the scenario font. -/
theorem C10_program_framing_witness :
    (handler apiLayout sampleLoad (sampleRequest "I I")).body
        = .gcode (render (apiProgram apiLayout scenarioFont "I I")) ∧
      ∃ profile font text, (sampleRequest "I I").profile = some profile ∧
        sampleLoad (fontLocator profile) = .ok font ∧ (sampleRequest "I I").text = some text ∧
        render (apiProgram apiLayout scenarioFont "I I")
          = "G21\nG90\nF20000\nG1G90 Z1.0F20000\nG1G90 Z1.0F20000\n"
            ++ render (layoutBody apiLayout font text) ++ "G1G90 Z1.0F20000\nG90 G0 X0 Y0\nM30\n" ∧
        (∃ lines : List (List Char), (∀ l ∈ lines, '\n' ∉ l) ∧
          (render (apiProgram apiLayout scenarioFont "I I")).data
            = (lines.map (fun l => l ++ ['\n'])).flatten) ∧
        ((∀ l ∈ nonBlankLines text, ∀ ch ∈ trim l, drawable font ch = false) →
          render (apiProgram apiLayout scenarioFont "I I")
            = "G21\nG90\nF20000\nG1G90 Z1.0F20000\nG1G90 Z1.0F20000\n"
              ++ "G1G90 Z1.0F20000\nG90 G0 X0 Y0\nM30\n") :=
  ⟨rfl, C10_program_framing apiLayout sampleLoad (sampleRequest "I I") _ rfl⟩

/-- C11 (curve endpoint fidelity), evaluated on the API handler.  A cubic command passes no test
of the command loop, so its iteration leaves the program, the pen and the current position as
they are: for the path data `M0 0 C0 -5 10 -5 10 0`, whose cubic ends at `(10, 0)`, the glyph
yields no line and the current position stays `(0, 0)`; the client compiler, with its 2 steps,
flattens the same cubic and ends at `(10, 0)`.  In doubles the loop variable of line 109 takes
20 values for the 20 steps of the API handler: `1 / 20` is `3602879701896397 / 2^56`, the last
value is `8556839292003945 / 2^53` (`0.9500000000000003`), the sum after it is `1 + 2^-52`,
and no value is 1; the loop body runs 20 times, never at `t = 1`, and after the quadratic from
`(0,0)` to `(10,0)` with control `(5,10)` the X of the current position is below 10.  With the
2 steps of the client compiler the values are `0`, `0.5` and `1`, and every quadratic or cubic
command ends at its end point. -/
theorem C11_curve_endpoint_missed :
    (∀ (baseX baseY scale : JNum) (steps : Nat) (s : PenState) (x1 y1 x2 y2 x y : JNum),
      apiStep baseX baseY scale steps s (.cubicTo x1 y1 x2 y2 x y) = s) ∧
    (let s := [Segment.moveTo (.fin 0) (.fin 0),
          .cubicTo (.fin 0) (.fin (-5)) (.fin 10) (.fin (-5)) (.fin 10) (.fin 0)].foldl
        (apiStep (.fin 0) (.fin 0) (.fin 1) 20) ⟨[], false, true, .fin 0, .fin 0⟩
     s.gcode = [] ∧ (s.prevX, s.prevY) = (JNum.fin 0, JNum.fin 0)) ∧
    apiGlyph (.fin 0) (.fin 0) (.fin 1) 20 [] [.moveTo (.fin 0) (.fin 0),
        .cubicTo (.fin 0) (.fin (-5)) (.fin 10) (.fin (-5)) (.fin 10) (.fin 0)] = [] ∧
    clientGlyph (.fin 0) (.fin 0) 2 [] [.moveTo (.fin 0) (.fin 0),
        .cubicTo (.fin 0) (.fin 5) (.fin 10) (.fin 5) (.fin 10) (.fin 0)]
      = [.lower, .draw (.fin 5) (.fin (15 / 4)), .draw (.fin 10) (.fin 0), .lift] ∧
    doubleInv 20 = 3602879701896397 * 2 ^ 64 ∧
    (doubleTimes 20).length = 20 ∧
    (doubleTimes 20).getLast? = some (8556839292003945 * 2 ^ 67) ∧
    roundDouble (8556839292003945 * 2 ^ 67 + doubleInv 20) = doubleOne + 2 ^ 68 ∧
    (∀ t ∈ doubleTimes 20, t < doubleOne) ∧
    (∃ q : ℚ, (apiStep (.fin 0) (.fin 0) (.fin 1) 20 ⟨[], false, false, .fin 0, .fin 0⟩
        (.quadTo (.fin 5) (.fin (-10)) (.fin 10) (.fin 0))).prevX = .fin q ∧ q < 10) ∧
    doubleTimes 2 = [0, 2 ^ 119, 2 ^ 120] ∧
    (∀ (cmd : Segment) (ex ey : ℚ), ClientCurveEnd cmd ex ey →
      ∀ (s : ClientState) (px py : ℚ), s.prevX = .fin px → s.prevY = .fin py →
        (clientStep 2 s cmd).prevX = .fin ex ∧ (clientStep 2 s cmd).prevY = .fin ey) := by
  have hlt : ∀ t ∈ doubleTimes 20, t < doubleOne := by
    set_option maxRecDepth 100000 in decide
  refine ⟨?_, ?_, ?_, ?_, ?_, ?_, ?_, ?_, hlt, ?_, ?_, ?_⟩
  · intro baseX baseY scale steps s x1 y1 x2 y2 x y
    rfl
  · simp [apiStep, apiLift]
  · simp [apiGlyph, apiStep, apiLift]
  · set_option maxRecDepth 100000 in
      simp [clientGlyph, clientStep, length_doubleTimes_two, clientCurveLoop, clientCurveBody,
        clientSample, cubicBlend]
    norm_num
  · set_option maxRecDepth 100000 in decide
  · set_option maxRecDepth 100000 in decide
  · set_option maxRecDepth 100000 in decide
  · set_option maxRecDepth 100000 in decide
  · have h := apiCurveLoop_below 20 (by decide) 20 0 (by decide)
      (apiLower ⟨[], false, false, .fin 0, .fin 0⟩) 0 rfl (by norm_num)
    simp only [Nat.cast_zero, zero_div] at h
    simp only [apiStep, length_doubleTimes_twenty]
    exact h
  · set_option maxRecDepth 100000 in decide
  · intro cmd ex ey hc s px py hx hy
    have h := clientStep_curve_end hc 2 (by decide) length_doubleTimes_two s px py hx hy
    exact ⟨h.1, h.2.1⟩

/-- C12 (no-op elision): in the API handler a `LineTo` target, or a flattened curve sample,
that equals the current position emits no draw line, and in every program no two consecutive
draw lines target the same point: the target of the second differs from the target of the first
in X or in Y, so as exact (finite) values the two coordinate pairs are different. -/
theorem C12_no_op_elision (c : Layout) (font : Font) (text : String) :
    (∀ (baseX baseY scale : JNum) (s : PenState) (cx cy : JNum),
      (baseX + cx * scale).strictNe s.prevX = false →
      (baseY - cy * scale).strictNe s.prevY = false →
        apiStep baseX baseY scale c.steps s (.lineTo cx cy) = apiLower s) ∧
    (∀ (baseX baseY scale : JNum) (cmd : Segment) (t : ℚ) (s : PenState),
      (apiSample baseX baseY scale cmd t s).1.strictNe s.prevX = false →
      (apiSample baseX baseY scale cmd t s).2.strictNe s.prevY = false →
        apiCurveBody baseX baseY scale cmd t s = s) ∧
    (∀ (pre post : List Instr) (x1 y1 x2 y2 : JNum),
      apiProgram c font text = pre ++ .draw x1 y1 :: .draw x2 y2 :: post →
        (x2.strictNe x1 || y2.strictNe y1) = true ∧
        (x1.isFinite = true → y1.isFinite = true → (x1, y1) ≠ (x2, y2))) := by
  refine ⟨?_, ?_, ?_⟩
  · intro baseX baseY scale s cx cy hx hy
    have hl := apiLower_prev s
    simp only [apiStep, hl.1, hl.2, hx, hy, Bool.or_self, Bool.false_eq_true, if_false]
  · intro baseX baseY scale cmd t s hx hy
    simp only [apiCurveBody, hx, hy, Bool.or_self, Bool.false_eq_true, if_false]
  · intro pre post x1 y1 x2 y2 he
    have hch := chain_apiProgram c font text
    rw [he] at hch
    have h2 := (List.chain'_split.mp hch).2
    have hd := (List.chain'_cons.mp h2).1 x1 y1 x2 y2 rfl rfl
    refine ⟨hd, ?_⟩
    intro hfx hfy heq
    obtain ⟨e1, e2⟩ := Prod.mk.inj heq
    subst e1
    subst e2
    cases x1 with
    | fin a =>
      cases y1 with
      | fin b => simp [JNum.strictNe] at hd
      | _ => simp [JNum.isFinite] at hfy
    | _ => simp [JNum.isFinite] at hfx

/-- C13 (travel only with the pen up): scanning any program of the API handler or of the client
compiler from the start with the pen up, no travel line (`G0 X..Y..`, nor the return to the
origin of the footer) occurs between a pen-lower and the next pen-lift, and the pen is up at the
end; the programs are the ones the two compilers return as text. -/
theorem C13_travel_pen_up (c : Layout) (font : Font) (text : String) :
    travelRun false (apiProgram c font text) = some false ∧
      travelRun false (clientProgram font text) = some false ∧
      (∀ (load : String → Except String Font) (req : Request) (g : String),
        (handler c load req).body = .gcode g →
          ∃ font2 text2, g = render (apiProgram c font2 text2)) ∧
      (∀ (load : String → Except String Font) (profile : Option Profile) (g : String),
        generateGcode load text profile = .ok g →
          ∃ font2, g = clientRender (clientProgram font2 text)) := by
  refine ⟨?_, ?_, ?_, ?_⟩
  · simp only [apiProgram]
    rw [travelRun_append, travel_apiLines c font _ _ 0 apiHeader rfl]
    rfl
  · simp only [clientProgram]
    rw [travelRun_append, travel_clientLines font _ _ _ _ _ _ 0 clientHeader rfl]
    rfl
  · intro load req g h
    obtain ⟨_, font2, text2, _, _, _, hg⟩ := handler_gcode_text c load req g h
    exact ⟨font2, text2, hg⟩
  · intro load profile g h
    unfold generateGcode at h
    cases profile with
    | none => simp at h
    | some p =>
      simp only at h
      split at h
      · simp at h
      · cases hl : load (fontLocator p) with
        | error m => simp [hl] at h
        | ok font2 =>
          rw [hl] at h
          exact ⟨font2, by simpa using h.symm⟩

/-- C14 (sub-contour MoveTo), evaluated on the two-stroke glyph `=` with the constants of the
source: after the first stroke the pen is down at `(5.665, 5.536)` and `firstMove` is false; the
second `MoveTo`, to `(2.465, 3.936)`, emits the pen-lift and no travel, although its target
differs from the current position, and sets the current position to the target; so does every
`MoveTo` met once `firstMove` is false.  The client compiler emits the pen-lift and the travel
on the same commands. -/
theorem C14_subcontour_moveTo_without_travel :
    (let s := [Segment.moveTo (.fin 100) (.fin 200), .lineTo (.fin 500) (.fin 200)].foldl
        (apiStep (.fin (1665 / 1000)) (.fin (7136 / 1000)) (.fin (1 / 125)) 20)
        ⟨[], false, true, .fin (1665 / 1000), .fin (7136 / 1000)⟩
     s.penDown = true ∧ s.firstMove = false ∧
      (s.prevX, s.prevY) = (JNum.fin (5665 / 1000), JNum.fin (5536 / 1000)) ∧
      (apiStep (.fin (1665 / 1000)) (.fin (7136 / 1000)) (.fin (1 / 125)) 20 s
          (.moveTo (.fin 100) (.fin 400))).gcode = s.gcode ++ [.lift] ∧
      ((apiStep (.fin (1665 / 1000)) (.fin (7136 / 1000)) (.fin (1 / 125)) 20 s
          (.moveTo (.fin 100) (.fin 400))).prevX,
        (apiStep (.fin (1665 / 1000)) (.fin (7136 / 1000)) (.fin (1 / 125)) 20 s
          (.moveTo (.fin 100) (.fin 400))).prevY)
        = (JNum.fin (2465 / 1000), JNum.fin (3936 / 1000))) ∧
    (∀ (baseX baseY scale : JNum) (steps : Nat) (s : PenState) (cx cy : JNum),
      s.firstMove = false →
        (apiStep baseX baseY scale steps s (.moveTo cx cy)).gcode = (apiLift s).gcode) ∧
    (let s := [Segment.moveTo (.fin (2465 / 1000)) (.fin (5536 / 1000)),
          .lineTo (.fin (5665 / 1000)) (.fin (5536 / 1000))].foldl (clientStep 20)
        ⟨[], false, .fin (1665 / 1000), .fin (7136 / 1000)⟩
     (clientStep 20 s (.moveTo (.fin (2465 / 1000)) (.fin (3936 / 1000)))).gcode
        = s.gcode ++ [.lift, .travel (.fin (2465 / 1000)) (.fin (3936 / 1000))]) := by
  refine ⟨?_, ?_, ?_⟩
  · simp [apiStep, apiLift, apiLower]
    norm_num
  · intro baseX baseY scale steps s cx cy hf
    have hl : (apiLift s).firstMove = false := by
      unfold apiLift
      split <;> exact hf
    simp only [apiStep, hl, Bool.false_and, Bool.false_eq_true, if_false]
  · simp [clientStep]
    norm_num

/-- C15 (standard Bezier blend), evaluated on the quadratic from `(0,0)` to `(10,0)` with
control `(5,10)` (origin `(0,0)`, scale 1, 20 steps): the first three iterations of the loop of
the API handler, `t = 0, 1/20, 2/20`, emit the draws to `(0.5, 0.95)` and `(1.405, 2.5695)`;
the standard blend of the segment at `t = 2/20` is `(1, 1.8)`, which the client compiler
emits: the API handler blends from `prevX`, `prevY`, which the sample before has moved. -/
theorem C15_blend_start_moves :
    (apiCurveLoop (.fin 0) (.fin 0) (.fin 1)
        (.quadTo (.fin 5) (.fin (-10)) (.fin 10) (.fin 0)) 20 3 0
        ⟨[], true, false, .fin 0, .fin 0⟩).gcode
      = [.draw (.fin (1 / 2)) (.fin (19 / 20)), .draw (.fin (281 / 200)) (.fin (5139 / 2000))] ∧
    (quadBlend (2 / 20) (.fin 0) (.fin 5) (.fin 10), quadBlend (2 / 20) (.fin 0) (.fin 10) (.fin 0))
      = (JNum.fin 1, JNum.fin (9 / 5)) ∧
    (clientCurveLoop (.quadTo (.fin 5) (.fin 10) (.fin 10) (.fin 0)) (.fin 0) (.fin 0) 20 3 0
        ⟨[], true, .fin 0, .fin 0⟩).gcode
      = [.draw (.fin (1 / 2)) (.fin (19 / 20)), .draw (.fin 1) (.fin (9 / 5))] := by
  refine ⟨?_, ?_, ?_⟩
  · simp [apiCurveLoop, apiCurveBody, apiSample, quadBlend]
    norm_num
  · simp [quadBlend]
    norm_num
  · simp [clientCurveLoop, clientCurveBody, clientSample, quadBlend]
    norm_num

/-- C16 (per-glyph pen alternation): for every glyph outline, whatever its commands, the tool
lines the API handler emits for the glyph are some number of pairs of one pen-lower followed by
one pen-lift, so they alternate, start with a pen-lower and end with a pen-lift; the pen is up
when the glyph starts and when it ends. -/
theorem C16_pen_alternation (baseX baseY scale : JNum) (steps : Nat) (cmds : List Segment) :
    (∃ n : Nat, (apiGlyph baseX baseY scale steps [] cmds).filter Instr.isTool
      = (List.replicate n [Instr.lower, Instr.lift]).flatten) ∧
    (⟨[], false, true, baseX, baseY⟩ : PenState).penDown = false ∧
    (apiLift (cmds.foldl (apiStep baseX baseY scale steps)
      ⟨[], false, true, baseX, baseY⟩)).penDown = false ∧
    apiGlyph baseX baseY scale steps [] cmds
      = (apiLift (cmds.foldl (apiStep baseX baseY scale steps)
          ⟨[], false, true, baseX, baseY⟩)).gcode := by
  have h0 : ToolInv ⟨[], false, true, baseX, baseY⟩ := ⟨0, rfl⟩
  have h1 := ToolInv_apiLift (ToolInv_foldl baseX baseY scale steps cmds _ h0)
  obtain ⟨n, hn⟩ := h1.1
  refine ⟨⟨n, ?_⟩, rfl, h1.2, rfl⟩
  rw [h1.2] at hn
  simpa using hn

/-- C17 (horizontal layout): for a line whose characters all have a glyph with a non-empty
outline and a finite advance width, with finite margin, scale and letter spacing, the lines of
the line are the lines of its characters in order, the first placed at `marginX` and the `j`-th
at `marginX` plus the sum over the characters before it of `advanceWidth * scale +
letterSpacing`, with `scale = fontSize / unitsPerEm`; and the line loop lays out the trimmed
line, so white space around a line shifts nothing. -/
theorem C17_horizontal_layout (c : Layout) (font : Font) (m s l : ℚ) (adv : Char → ℚ)
    (chars : List Char) (hm : c.marginX = .fin m) (hs : c.fontSize / font.unitsPerEm = .fin s)
    (hl : c.letterSpacing = .fin l)
    (hadv : ∀ ch ∈ chars, ∃ g, font.charToGlyph ch = some g ∧ g.commands.isEmpty = false ∧
      g.advanceWidth = .fin (adv ch)) :
    (∀ baseY : JNum,
      lineBody c font (c.fontSize / font.unitsPerEm) baseY chars c.marginX
        = (List.zipWith (fun ch ox => charLines c font (c.fontSize / font.unitsPerEm) ox baseY ch)
            chars (origins c font (c.fontSize / font.unitsPerEm) chars c.marginX)).flatten) ∧
    (∀ j : Nat, j < chars.length →
      (origins c font (c.fontSize / font.unitsPerEm) chars c.marginX)[j]?
        = some (.fin (m + ((chars.take j).map (fun ch => adv ch * s + l)).sum))) ∧
    (0 < chars.length →
      (origins c font (c.fontSize / font.unitsPerEm) chars c.marginX)[0]? = some c.marginX) ∧
    (∀ (line other : List Char) (rest : List (List Char)) (i : Nat) (g : List Instr),
      trim line = trim other →
        apiLines c font (c.fontSize / font.unitsPerEm) (line :: rest) i g
          = apiLines c font (c.fontSize / font.unitsPerEm) (other :: rest) i g) ∧
    (∀ (line : List Char) (i : Nat), trim line = chars → chars ≠ [] →
      apiLines c font (c.fontSize / font.unitsPerEm) [line] i []
        = lineBody c font (c.fontSize / font.unitsPerEm)
            (c.marginY + .fin (i : ℚ) * c.lineHeight) chars c.marginX) := by
  refine ⟨?_, ?_, ?_, ?_, ?_⟩
  · intro baseY
    exact lineBody_zip c font _ baseY chars c.marginX
  · intro j hj
    rw [hs, hm]
    exact origins_fin c font s l adv hl chars hadv m j hj
  · intro h0
    cases chars with
    | nil => simp at h0
    | cons ch rest => simp [origins]
  · intro line other rest i g ht
    simp only [apiLines, ht]
  · intro line i ht hne
    have he : chars.isEmpty = false := by
      cases chars with
      | nil => exact absurd rfl hne
      | cons a as => rfl
    simp only [apiLines, ht, he, Bool.false_eq_true, if_false]
    exact apiChars_eq c font _ _ chars c.marginX

/-- Witness of C17: the line `II` of the scenario. -/
theorem C17_horizontal_layout_witness :
    scenarioLayout.marginX = .fin 1 ∧
      scenarioLayout.fontSize / scenarioFont.unitsPerEm = .fin (1 / 100) ∧
      (∀ j : Nat, j < ['I', 'I'].length →
        (origins scenarioLayout scenarioFont (scenarioLayout.fontSize / scenarioFont.unitsPerEm)
            ['I', 'I'] scenarioLayout.marginX)[j]?
          = some (.fin (1 + ((['I', 'I'].take j).map
              (fun ch => (fun _ => (600 : ℚ)) ch * (1 / 100) + 1 / 10)).sum))) :=
  ⟨rfl, scale_scenarioLayout,
    (C17_horizontal_layout scenarioLayout scenarioFont 1 (1 / 100) (1 / 10) (fun _ => 600)
      ['I', 'I'] rfl scale_scenarioLayout rfl
      (by simp [scenarioFont, glyphI])).2.1⟩

/-- C18 (the two sequencers are the same algorithm), evaluated with the same step count and the
same glyph origin on outlines given to the client compiler in output coordinates.  On the
two-stroke glyph `=` the API handler emits no travel between the strokes and the client
compiler does; on the quadratic from `(0,0)` to `(10,0)` with control `(5,10)`, with 3 steps,
the second sample of the API handler is `(190/27, 400/81)` and the one of the client compiler
`(20/3, 40/9)`. -/
theorem C18_sequencers_differ :
    apiGlyph (.fin (1665 / 1000)) (.fin (7136 / 1000)) (.fin (1 / 125)) 20 [] glyphEquals.commands
        = [.travel (.fin (2465 / 1000)) (.fin (5536 / 1000)), .lower,
            .draw (.fin (5665 / 1000)) (.fin (5536 / 1000)), .lift, .lower,
            .draw (.fin (5665 / 1000)) (.fin (3936 / 1000)), .lift] ∧
      clientGlyph (.fin (1665 / 1000)) (.fin (7136 / 1000)) 20 []
          (glyphEquals.commands.map
            (Segment.toOutput (.fin (1665 / 1000)) (.fin (7136 / 1000)) (.fin (1 / 125))))
        = [.travel (.fin (2465 / 1000)) (.fin (5536 / 1000)), .lower,
            .draw (.fin (5665 / 1000)) (.fin (5536 / 1000)), .lift,
            .travel (.fin (2465 / 1000)) (.fin (3936 / 1000)), .lower,
            .draw (.fin (5665 / 1000)) (.fin (3936 / 1000)), .lift] ∧
      apiGlyph (.fin 0) (.fin 0) (.fin 1) 3 []
          [.quadTo (.fin 5) (.fin (-10)) (.fin 10) (.fin 0)]
        = [.lower, .draw (.fin (10 / 3)) (.fin (40 / 9)), .draw (.fin (190 / 27)) (.fin (400 / 81)),
            .draw (.fin 10) (.fin 0), .lift] ∧
      clientGlyph (.fin 0) (.fin 0) 3 []
          ([Segment.quadTo (.fin 5) (.fin (-10)) (.fin 10) (.fin 0)].map
            (Segment.toOutput (.fin 0) (.fin 0) (.fin 1)))
        = [.lower, .draw (.fin (10 / 3)) (.fin (40 / 9)), .draw (.fin (20 / 3)) (.fin (40 / 9)),
            .draw (.fin 10) (.fin 0), .lift] := by
  refine ⟨?_, ?_, ?_, ?_⟩
  · simp [apiGlyph, glyphEquals, apiStep, apiLift, apiLower]
    norm_num
  · simp [clientGlyph, glyphEquals, clientStep, Segment.toOutput]
    norm_num
  · simp only [apiGlyph, List.foldl, apiStep, length_doubleTimes_three]
    simp [apiLift, apiLower, apiCurveLoop, apiCurveBody, apiSample, quadBlend]
    norm_num
  · set_option maxRecDepth 100000 in
      simp [clientGlyph, clientStep, length_doubleTimes_three, clientCurveLoop, clientCurveBody,
        clientSample, quadBlend, Segment.toOutput]
    norm_num

/-- C19 (translation equivariance): with finite origin, scale, offset and outline coordinates,
the per-glyph sequencer of the API handler placed at `(baseX + dx, baseY + dy)` emits the lines
it emits at `(baseX, baseY)`, of the same kinds in the same order, with the coordinates of every
travel and draw shifted by exactly `(dx, dy)`. -/
theorem C19_translation_equivariance (bx by_ sc dx dy : ℚ) (steps : Nat) (cmds : List Segment)
    (hfin : ∀ cmd ∈ cmds, cmd.isFinite = true) :
    apiGlyph (.fin (bx + dx)) (.fin (by_ + dy)) (.fin sc) steps [] cmds
      = (apiGlyph (.fin bx) (.fin by_) (.fin sc) steps [] cmds).map (Instr.shift dx dy) := by
  have h0 : ShiftRel dx dy ⟨[], false, true, .fin bx, .fin by_⟩
      ⟨[], false, true, .fin (bx + dx), .fin (by_ + dy)⟩ :=
    ⟨rfl, rfl, rfl, bx, by_, rfl, rfl, rfl, rfl⟩
  exact (ShiftRel_apiLift (ShiftRel_foldl bx by_ sc steps cmds hfin _ _ h0)).1

/-- Witness of C19: the two-stroke glyph `=` moved by `(3, -2)`. -/
theorem C19_translation_equivariance_witness :
    (∀ cmd ∈ glyphEquals.commands, cmd.isFinite = true) ∧
      apiGlyph (.fin (1 + 3)) (.fin (1 + -2)) (.fin (1 / 100)) 20 [] glyphEquals.commands
        = (apiGlyph (.fin 1) (.fin 1) (.fin (1 / 100)) 20 [] glyphEquals.commands).map
            (Instr.shift 3 (-2)) :=
  ⟨by simp [glyphEquals, Segment.isFinite, JNum.isFinite],
    C19_translation_equivariance 1 1 (1 / 100) 3 (-2) 20 glyphEquals.commands
      (by simp [glyphEquals, Segment.isFinite, JNum.isFinite])⟩

/-- C20 (default formats are protected): starting from `defaultFormatTemplates`, after any
sequence of `handleAddFormat` and `handleDeleteFormat` actions, with any form inputs and any
answers, the table holds `chumba` and `stake` with their original definitions; deleting either
is refused, with an alert, and changes nothing; adding a format under a key the table holds is
refused, with an alert, and changes nothing. -/
theorem C20_default_formats_protected (ops : List FormatOp) (newFormat : NewFormat)
    (isModalOpen : Bool) (profileFormat : String) (template : Option FormatTemplate) :
    (runOps ⟨defaultFormatTemplates, newFormat, isModalOpen, profileFormat, template⟩
        ops).formatTemplates "chumba" = some chumbaFormat ∧
    (runOps ⟨defaultFormatTemplates, newFormat, isModalOpen, profileFormat, template⟩
        ops).formatTemplates "stake" = some stakeFormat ∧
    (∀ (s : AppState) (confirm : Bool),
      handleDeleteFormat s "chumba" confirm
          = (s, .alert "Default formats (Chumba, Stake) cannot be deleted.") ∧
        handleDeleteFormat s "stake" confirm
          = (s, .alert "Default formats (Chumba, Stake) cannot be deleted.")) ∧
    (∀ s : AppState, (s.formatTemplates s.newFormat.key).isSome = true →
      (handleAddFormat s).1 = s ∧ ∃ message, (handleAddFormat s).2 = .alert message) := by
  have h := runOps_keeps ops
    ⟨defaultFormatTemplates, newFormat, isModalOpen, profileFormat, template⟩ rfl rfl
  refine ⟨h.1, h.2, ?_, ?_⟩
  · intro s confirm
    exact ⟨by simp [handleDeleteFormat], by simp [handleDeleteFormat]⟩
  · intro s hk
    unfold handleAddFormat
    split
    · exact ⟨rfl, _, rfl⟩
    · rw [if_pos (by simp [keyTaken, hk])]
      exact ⟨rfl, _, rfl⟩

/-- C21 (required and optional fields stay disjoint): from a `newFormat` whose `requiredFields`
and `optionalFields` have no duplicates and no common field, `handleFieldToggle` gives, for
every field and type, lists with no duplicates and no common field again; toggling a field on
in one list puts it there and removes it from the other list; toggling it off removes it and
leaves the other list unchanged; key, label and template are unchanged. -/
theorem C21_fields_stay_disjoint (prev : NewFormat) (field type : String)
    (hr : prev.requiredFields.Nodup) (ho : prev.optionalFields.Nodup)
    (hd : List.Disjoint prev.requiredFields prev.optionalFields) :
    (handleFieldToggle prev field type).requiredFields.Nodup ∧
    (handleFieldToggle prev field type).optionalFields.Nodup ∧
    List.Disjoint (handleFieldToggle prev field type).requiredFields
      (handleFieldToggle prev field type).optionalFields ∧
    (type = "required" → field ∉ prev.requiredFields →
      (handleFieldToggle prev field type).requiredFields = prev.requiredFields ++ [field] ∧
      field ∉ (handleFieldToggle prev field type).optionalFields ∧
      (handleFieldToggle prev field type).optionalFields
        = prev.optionalFields.filter (fun f => decide (f ≠ field))) ∧
    (type ≠ "required" → field ∉ prev.optionalFields →
      (handleFieldToggle prev field type).optionalFields = prev.optionalFields ++ [field] ∧
      field ∉ (handleFieldToggle prev field type).requiredFields ∧
      (handleFieldToggle prev field type).requiredFields
        = prev.requiredFields.filter (fun f => decide (f ≠ field))) ∧
    (type = "required" → field ∈ prev.requiredFields →
      field ∉ (handleFieldToggle prev field type).requiredFields ∧
      (handleFieldToggle prev field type).optionalFields = prev.optionalFields) ∧
    (type ≠ "required" → field ∈ prev.optionalFields →
      field ∉ (handleFieldToggle prev field type).optionalFields ∧
      (handleFieldToggle prev field type).requiredFields = prev.requiredFields) ∧
    (handleFieldToggle prev field type).key = prev.key ∧
    (handleFieldToggle prev field type).label = prev.label ∧
    (handleFieldToggle prev field type).template = prev.template := by
  by_cases ht : type = "required"
  · by_cases hm : field ∈ prev.requiredFields
    · have e : handleFieldToggle prev field type
          = { prev with requiredFields := prev.requiredFields.filter (fun f => decide (f ≠ field)) } := by
        simp [handleFieldToggle, ht, hm]
      rw [e]
      refine ⟨hr.filter _, ho, disjoint_toggle_off hd field, fun _ h => absurd hm h,
        fun h => absurd ht h, fun _ _ => ⟨not_mem_filter_ne _ _, rfl⟩, fun h => absurd ht h,
        rfl, rfl, rfl⟩
    · have e : handleFieldToggle prev field type
          = { prev with
                requiredFields := prev.requiredFields ++ [field]
                optionalFields := prev.optionalFields.filter (fun f => decide (f ≠ field)) } := by
        simp [handleFieldToggle, ht, hm]
      rw [e]
      refine ⟨nodup_toggle_on hr hm, ho.filter _, disjoint_toggle_on hd field,
        fun _ _ => ⟨rfl, not_mem_filter_ne _ _, rfl⟩, fun h => absurd ht h,
        fun _ h => absurd h hm, fun h => absurd ht h, rfl, rfl, rfl⟩
  · by_cases hm : field ∈ prev.optionalFields
    · have e : handleFieldToggle prev field type
          = { prev with optionalFields := prev.optionalFields.filter (fun f => decide (f ≠ field)) } := by
        simp [handleFieldToggle, ht, hm]
      rw [e]
      refine ⟨hr, ho.filter _, (disjoint_toggle_off hd.symm field).symm, fun h => absurd h ht,
        fun _ h => absurd hm h, fun h => absurd h ht, fun _ _ => ⟨not_mem_filter_ne _ _, rfl⟩,
        rfl, rfl, rfl⟩
    · have e : handleFieldToggle prev field type
          = { prev with
                optionalFields := prev.optionalFields ++ [field]
                requiredFields := prev.requiredFields.filter (fun f => decide (f ≠ field)) } := by
        simp [handleFieldToggle, ht, hm]
      rw [e]
      refine ⟨hr.filter _, nodup_toggle_on ho hm, (disjoint_toggle_on hd.symm field).symm,
        fun h => absurd h ht, fun _ _ => ⟨rfl, not_mem_filter_ne _ _, rfl⟩,
        fun h => absurd h ht, fun _ h => absurd h hm, rfl, rfl, rfl⟩

/-- Witness of C21: the field `name` toggled as required on the empty form. -/
theorem C21_fields_stay_disjoint_witness :
    emptyNewFormat.requiredFields.Nodup ∧ emptyNewFormat.optionalFields.Nodup ∧
      List.Disjoint emptyNewFormat.requiredFields emptyNewFormat.optionalFields ∧
      (handleFieldToggle emptyNewFormat "name" "required").requiredFields.Nodup ∧
      (handleFieldToggle emptyNewFormat "name" "required").optionalFields.Nodup ∧
      List.Disjoint (handleFieldToggle emptyNewFormat "name" "required").requiredFields
        (handleFieldToggle emptyNewFormat "name" "required").optionalFields :=
  ⟨List.nodup_nil, List.nodup_nil, List.disjoint_nil_left _,
    (C21_fields_stay_disjoint emptyNewFormat "name" "required" List.nodup_nil List.nodup_nil
      (List.disjoint_nil_left _)).1,
    (C21_fields_stay_disjoint emptyNewFormat "name" "required" List.nodup_nil List.nodup_nil
      (List.disjoint_nil_left _)).2.1,
    (C21_fields_stay_disjoint emptyNewFormat "name" "required" List.nodup_nil List.nodup_nil
      (List.disjoint_nil_left _)).2.2.1⟩

end PenPlotter
